import Mathlib

/-!
# Virgil SDK: card validator, signers, snapshots and key entry storage

A shallow embedding of the card trust protocol of the Virgil JavaScript SDK:

* `src/client/card-validator.js`  : `CardValidator` below,
* `src/client/request-signer.js`  : `RequestSigner` below,
* `src/client/virgil-client.js`   : `validateCards`,
* `src/Web/ModelSigner.ts`        : `ModelSigner` below,
* `src/Sdk/Utils/SnapshotUtils.ts`: `takeSnapshot`, `parseSnapshot`,
* `src/Sdk/Lib/KeyStorage/KeyEntryStorage.ts`: `KeyEntryStorage` below.

JavaScript values are given the types the sources document for them.  A call
that can throw returns `Except JsError _`; a property that can be `null` or
`undefined` is an `Option`.
-/

set_option autoImplicit false

namespace Virgil

/-! ## Platform values -/

/-- One octet of a Node `Buffer`. -/
abbrev Byte := Fin 256

/-- Node `Buffer`: a sequence of octets. -/
abbrev Buffer := List Byte

/-- The exceptions the modelled code can raise: a `TypeError` of the runtime
(property access on `null` or `undefined`), an `Error` thrown with a message,
or the `SyntaxError` of `JSON.parse`. -/
inductive JsError where
  | typeError (message : String)
  | error (message : String)
  | syntaxError (message : String)
  deriving DecidableEq, Repr

/-- The lowercase hexadecimal digit of a value below sixteen. -/
def hexDigit (n : Nat) : Char :=
  if n < 10 then Char.ofNat (48 + n) else Char.ofNat (87 + n)

/-- The two hexadecimal digits of one octet, high nibble first. -/
def hexByte (b : Byte) : List Char :=
  [hexDigit (b.val / 16), hexDigit (b.val % 16)]

/-- Node `buffer.toString('hex')`: two lowercase digits per octet. -/
def Buffer.toHex (b : Buffer) : String :=
  String.mk (b.flatMap hexByte)

/-- The octet with the given value (reduced modulo 256). -/
def byte (n : Nat) : Byte := ⟨n % 256, Nat.mod_lt _ (by decide)⟩

/-- The UTF-8 octets of one character. -/
def utf8EncodeChar (c : Char) : List Byte :=
  let n := c.toNat
  if n < 0x80 then [byte n]
  else if n < 0x800 then [byte (0xC0 + n / 64), byte (0x80 + n % 64)]
  else if n < 0x10000 then
    [byte (0xE0 + n / 4096), byte (0x80 + n / 64 % 64), byte (0x80 + n % 64)]
  else
    [byte (0xF0 + n / 262144), byte (0x80 + n / 4096 % 64), byte (0x80 + n / 64 % 64),
      byte (0x80 + n % 64)]

/-- Node `Buffer.from(text, 'utf8')`. -/
def Buffer.fromUtf8 (text : String) : Buffer :=
  text.data.flatMap utf8EncodeChar

/-- U+FFFD, which the decoder puts in place of an ill-formed sequence. -/
def replacementChar : Char := Char.ofNat 0xFFFD

/-- A UTF-8 continuation octet, `80..BF`. -/
def isContinuation (b : Byte) : Bool := 0x80 ≤ b.val && b.val ≤ 0xBF

/-- The range allowed for the octet that follows a lead octet. -/
def secondByteRange (lead : Nat) : Nat × Nat :=
  if lead = 0xE0 then (0xA0, 0xBF)
  else if lead = 0xED then (0x80, 0x9F)
  else if lead = 0xF0 then (0x90, 0xBF)
  else if lead = 0xF4 then (0x80, 0x8F)
  else (0x80, 0xBF)

/-- Membership of an octet in a closed range. -/
def inRange (b : Byte) (r : Nat × Nat) : Bool := r.1 ≤ b.val && b.val ≤ r.2

/-- UTF-8 decoding as Node does it: every maximal ill-formed prefix becomes one
U+FFFD and decoding resumes at the octet that broke the sequence. -/
def utf8Decode : Buffer → List Char
  | [] => []
  | b0 :: rest =>
    if b0.val < 0x80 then Char.ofNat b0.val :: utf8Decode rest
    else if 0xC2 ≤ b0.val ∧ b0.val ≤ 0xDF then
      match rest with
      | [] => [replacementChar]
      | b1 :: rest1 =>
        if isContinuation b1 then
          Char.ofNat ((b0.val - 0xC0) * 64 + (b1.val - 0x80)) :: utf8Decode rest1
        else replacementChar :: utf8Decode (b1 :: rest1)
    else if 0xE0 ≤ b0.val ∧ b0.val ≤ 0xEF then
      match rest with
      | [] => [replacementChar]
      | b1 :: rest1 =>
        if inRange b1 (secondByteRange b0.val) then
          match rest1 with
          | [] => [replacementChar]
          | b2 :: rest2 =>
            if isContinuation b2 then
              Char.ofNat ((b0.val - 0xE0) * 4096 + (b1.val - 0x80) * 64 + (b2.val - 0x80))
                :: utf8Decode rest2
            else replacementChar :: utf8Decode (b2 :: rest2)
        else replacementChar :: utf8Decode (b1 :: rest1)
    else if 0xF0 ≤ b0.val ∧ b0.val ≤ 0xF4 then
      match rest with
      | [] => [replacementChar]
      | b1 :: rest1 =>
        if inRange b1 (secondByteRange b0.val) then
          match rest1 with
          | [] => [replacementChar]
          | b2 :: rest2 =>
            if isContinuation b2 then
              match rest2 with
              | [] => [replacementChar]
              | b3 :: rest3 =>
                if isContinuation b3 then
                  Char.ofNat ((b0.val - 0xF0) * 262144 + (b1.val - 0x80) * 4096
                    + (b2.val - 0x80) * 64 + (b3.val - 0x80)) :: utf8Decode rest3
                else replacementChar :: utf8Decode (b3 :: rest3)
            else replacementChar :: utf8Decode (b2 :: rest2)
        else replacementChar :: utf8Decode (b1 :: rest1)
    else replacementChar :: utf8Decode rest

/-- Node `buffer.toString()` and `buffer.toString('utf8')`; also what the `+`
operator makes of a `Buffer` operand. -/
def Buffer.toString (b : Buffer) : String :=
  String.mk (utf8Decode b)

/-- The base64 digit of a value below sixty-four. -/
def base64Digit (n : Nat) : Char :=
  if n < 26 then Char.ofNat (65 + n)
  else if n < 52 then Char.ofNat (71 + n)
  else if n < 62 then Char.ofNat (n - 4)
  else if n = 62 then Char.ofNat 43
  else Char.ofNat 47

/-- The base64 digits of a buffer, three octets at a time, padded with `=`. -/
def base64Digits : Buffer → List Char
  | [] => []
  | [a] => [base64Digit (a.val / 4), base64Digit (a.val % 4 * 16), Char.ofNat 61, Char.ofNat 61]
  | [a, b] =>
    [base64Digit (a.val / 4), base64Digit (a.val % 4 * 16 + b.val / 16),
      base64Digit (b.val % 16 * 4), Char.ofNat 61]
  | a :: b :: c :: rest =>
    base64Digit (a.val / 4) :: base64Digit (a.val % 4 * 16 + b.val / 16) ::
      base64Digit (b.val % 16 * 4 + c.val / 64) :: base64Digit (c.val % 64) ::
      base64Digits rest

/-- Node `buffer.toString('base64')`. -/
def Buffer.toBase64 (b : Buffer) : String :=
  String.mk (base64Digits b)

/-- The value of a base64 digit, in the standard or the URL-safe alphabet. -/
def base64Value (c : Char) : Option Nat :=
  let n := c.toNat
  if 65 ≤ n ∧ n ≤ 90 then some (n - 65)
  else if 97 ≤ n ∧ n ≤ 122 then some (n - 71)
  else if 48 ≤ n ∧ n ≤ 57 then some (n + 4)
  else if n = 43 ∨ n = 45 then some 62
  else if n = 47 ∨ n = 95 then some 63
  else none

/-- The octets of a sequence of base64 values, four values for three octets. -/
def base64Octets : List Nat → Buffer
  | a :: b :: c :: d :: rest =>
    byte (a * 4 + b / 16) :: byte (b % 16 * 16 + c / 4) :: byte (c % 4 * 64 + d) ::
      base64Octets rest
  | [a, b, c] => [byte (a * 4 + b / 16), byte (b % 16 * 16 + c / 4)]
  | [a, b] => [byte (a * 4 + b / 16)]
  | _ => []

/-- Node `Buffer.from(text, 'base64')`: decoding stops at the first `=`, and
characters outside the alphabet are skipped. -/
def Buffer.fromBase64 (text : String) : Buffer :=
  base64Octets ((text.data.takeWhile (fun c => decide (c.toNat ≠ 61))).filterMap base64Value)

/-! ## Plain objects used as string-keyed maps -/

/-- A JavaScript object used as a map: its own properties in creation order
(no inherited ones, as in an object made by `Object.create(null)`).  Keys are
pairwise distinct in an object built with `JsObject.set`. -/
abbrev JsObject (α : Type) := List (String × α)

/-- Property read `obj[key]`: `none` stands for `undefined`. -/
def JsObject.get {α : Type} (obj : JsObject α) (key : String) : Option α :=
  match obj with
  | [] => none
  | (k, v) :: rest => if k = key then some v else JsObject.get rest key

/-- Property write `obj[key] = value`: an existing property keeps its place,
a new one is created last. -/
def JsObject.set {α : Type} (obj : JsObject α) (key : String) (value : α) : JsObject α :=
  match obj with
  | [] => [(key, value)]
  | (k, v) :: rest =>
    if k = key then (k, value) :: rest else (k, v) :: JsObject.set rest key value

/-- The number a property key denotes when it is an array index (a canonical
decimal numeral below `2^32 - 1`); such keys are enumerated first. -/
def arrayIndex? (key : String) : Option Nat :=
  let cs := key.data
  if cs ≠ [] ∧ cs.all Char.isDigit = true ∧ (cs.head? ≠ some '0' ∨ cs.length = 1) then
    let n := cs.foldl (fun n c => 10 * n + (c.toNat - 48)) 0
    if n < 4294967295 then some n else none
  else none

/-- The own properties in the order `Object.keys` enumerates them: array
indices ascending, then the other keys in creation order. -/
def JsObject.entries {α : Type} (obj : JsObject α) : List (String × α) :=
  let indexed := obj.filterMap (fun e => (arrayIndex? e.1).map (fun n => (n, e)))
  ((indexed.insertionSort (fun a b => a.1 ≤ b.1)).map (fun p => p.2))
    ++ obj.filter (fun e => (arrayIndex? e.1).isNone)

/-- `Object.keys(obj)`. -/
def JsObject.keys {α : Type} (obj : JsObject α) : List String :=
  (JsObject.entries obj).map (fun e => e.1)

/-- `Array.prototype.every` with a callback that may throw: elements are
visited in order, the first `false` ends the scan, an exception propagates. -/
def every {α : Type} (f : α → Except JsError Bool) : List α → Except JsError Bool
  | [] => .ok true
  | a :: rest =>
    match f a with
    | .error e => .error e
    | .ok false => .ok false
    | .ok true => every f rest

/-! ## JSON text and snapshots (`src/Sdk/Utils/SnapshotUtils.ts`) -/

/-- The escape of one character inside a JSON string (`QuoteJSONString`). -/
def jsonEscapeChar (c : Char) : List Char :=
  let n := c.toNat
  if n = 34 then [Char.ofNat 92, Char.ofNat 34]
  else if n = 92 then [Char.ofNat 92, Char.ofNat 92]
  else if n = 8 then [Char.ofNat 92, 'b']
  else if n = 12 then [Char.ofNat 92, 'f']
  else if n = 10 then [Char.ofNat 92, 'n']
  else if n = 13 then [Char.ofNat 92, 'r']
  else if n = 9 then [Char.ofNat 92, 't']
  else if n < 32 then [Char.ofNat 92, 'u', '0', '0', hexDigit (n / 16), hexDigit (n % 16)]
  else [c]

/-- `JSON.stringify` of a string: the quoted, escaped text. -/
def quoteJSONString (text : String) : String :=
  String.mk (Char.ofNat 34 :: (text.data.flatMap jsonEscapeChar ++ [Char.ofNat 34]))

/-- Modelled from the spec: `IExtraData` (`../ICard`, not among the sources),
the extra application data: an ordered mapping of string to string. -/
abbrev IExtraData := JsObject String

/-- The members of a serialized object, separated by commas. -/
def joinMembers : List String → String
  | [] => ""
  | [m] => m
  | m :: rest => m ++ "," ++ joinMembers rest

/-- `JSON.stringify` of a string-to-string object: members in `Object.keys` order. -/
def IExtraData.stringify (fields : IExtraData) : String :=
  "\x7b" ++ joinMembers ((JsObject.entries fields).map
    (fun e => quoteJSONString e.1 ++ ":" ++ quoteJSONString e.2)) ++ "\x7d"

/-- The values `JSON.stringify` is applied to, with the text it produces. -/
class JsonStringify (α : Type) where
  stringify : α → String

instance : JsonStringify IExtraData where
  stringify := IExtraData.stringify

/-- `takeSnapshot(info)`: `Buffer.from(JSON.stringify(info), 'utf8')`. -/
def takeSnapshot {α : Type} [JsonStringify α] (info : α) : Buffer :=
  Buffer.fromUtf8 (JsonStringify.stringify info)

/-! ## The crypto provider consumed by the validator -/

/-- What the property read `card.signatures[signerId]` gives when it is not
`undefined`: the `Buffer` the object holds under the id as a property of its
own, or else the member of `Object.prototype` of that name, which the read of
a plain object finds through the prototype chain. -/
inductive SignatureValue where
  | buffer (bytes : Buffer)
  | inherited (name : String)
  deriving DecidableEq, Repr

/-- The names of the members of `Object.prototype`, which every plain object
inherits; under `__proto__` the read gives the prototype object itself. -/
def objectPrototypeNames : List String :=
  ["constructor", "__defineGetter__", "__defineSetter__", "hasOwnProperty",
    "__lookupGetter__", "__lookupSetter__", "isPrototypeOf", "propertyIsEnumerable",
    "toString", "valueOf", "__proto__", "toLocaleString"]

/-- The operations `card-validator.js` and `request-signer.js` call on the
`crypto` object.  As in `src/crypto/virgil-crypto.js`, hashing a `Buffer`
always returns, while importing a key, verifying and signing can throw.
`verify` is handed whatever the validator read under the signer id. -/
structure VirgilCrypto (PublicKey PrivateKey : Type) where
  calculateFingerprint : Buffer → Buffer
  importPublicKey : Buffer → Except JsError PublicKey
  verify : Buffer → SignatureValue → PublicKey → Except JsError Bool
  sign : Buffer → PrivateKey → Except JsError Buffer

/-- Modelled from the spec: the type `CardModel` (`client/card.js`, not among
the sources), with the fields `validate` reads: the claimed identifier, the
snapshot, the declared public key, the protocol version and the signatures, a
plain object keyed by signer id, listed here by the properties of its own.
`signatures := none` is a card without the property. -/
structure CardModel where
  id : String
  snapshot : Buffer
  publicKey : Buffer
  version : String
  signatures : Option (JsObject Buffer)
  deriving DecidableEq, Repr

namespace CardValidator

/-- Id of the Card of the Virgil Cards Service. -/
def SERVICE_CARD_ID : String :=
  "3e29d43373348cfb373b7eae189214dc01d7237765e572d" ++ "b685839b64adca853"

/-- Public Key of the Virgil Cards Service (base64 text). -/
def SERVICE_PUBLIC_KEY : String :=
  "LS0tLS1CRUdJTiBQVUJMSUMgS0VZLS0tLS0KTUNvd0JR" ++
  "WURLMlZ3QXlFQVlSNTAxa1YxdFVuZTJ1T2RrdzRrRXJSUmJKcmMyU3lhejVWMWZ1R" ++
  "ytyVnM9Ci0tLS0tRU5EIFBVQkxJQyBLRVktLS0tLQo="

/-- The `verifiers` object of a validator: signer id to imported public key. -/
abbrev Verifiers (PublicKey : Type) := JsObject PublicKey

/-- The error of reading a property of an absent `card.signatures`. -/
def signaturesUndefined : JsError :=
  .typeError "Cannot read property of undefined"

/-- `card.signatures[signerId]`: throws when `card.signatures` is absent;
else the object's own property under the id, or the member it inherits under
that name, or `undefined` (`none`).  Every value but `undefined` is truthy. -/
def readSignature (card : CardModel) (signerId : String) :
    Except JsError (Option SignatureValue) :=
  match card.signatures with
  | none => .error signaturesUndefined
  | some signatures =>
    match JsObject.get signatures signerId with
    | some sign => .ok (some (.buffer sign))
    | none =>
      if signerId ∈ objectPrototypeNames then .ok (some (.inherited signerId))
      else .ok none

/-- `canValidate(card)`: legacy cards are ignored. -/
def canValidate (card : CardModel) : Bool :=
  decide (card.version ≠ "3.0")

/-- `verifyFingerprint(fingerprint, card)`. -/
def verifyFingerprint (fingerprint : Buffer) (card : CardModel) : Bool :=
  decide (card.id = Buffer.toHex fingerprint)

/-- `verifyOwnSignature(fingerprint, card)`. -/
def verifyOwnSignature {PublicKey PrivateKey : Type} (crypto : VirgilCrypto PublicKey PrivateKey)
    (fingerprint : Buffer) (card : CardModel) : Except JsError Bool :=
  match readSignature card card.id with
  | .error e => .error e
  | .ok none => .ok false
  | .ok (some sign) =>
    match crypto.importPublicKey card.publicKey with
    | .error e => .error e
    | .ok publicKey => crypto.verify fingerprint sign publicKey

/-- The callback of `verifySignatures` for one configured signer. -/
def verifySigner {PublicKey PrivateKey : Type} (crypto : VirgilCrypto PublicKey PrivateKey)
    (fingerprint : Buffer) (card : CardModel) (verifier : String × PublicKey) :
    Except JsError Bool :=
  match readSignature card verifier.1 with
  | .error e => .error e
  | .ok none => .ok false
  | .ok (some sign) => crypto.verify fingerprint sign verifier.2

/-- `verifySignatures(fingerprint, card)`: `Object.keys(verifiers).every(...)`. -/
def verifySignatures {PublicKey PrivateKey : Type} (crypto : VirgilCrypto PublicKey PrivateKey)
    (verifiers : Verifiers PublicKey) (fingerprint : Buffer) (card : CardModel) :
    Except JsError Bool :=
  every (verifySigner crypto fingerprint card) (JsObject.entries verifiers)

/-- `validate(card)`: the three checks joined by `&&`, after the legacy gate. -/
def validate {PublicKey PrivateKey : Type} (crypto : VirgilCrypto PublicKey PrivateKey)
    (verifiers : Verifiers PublicKey) (card : CardModel) : Except JsError Bool :=
  if canValidate card = false then .ok true
  else
    let fingerprint := crypto.calculateFingerprint card.snapshot
    if verifyFingerprint fingerprint card = false then .ok false
    else
      match verifyOwnSignature crypto fingerprint card with
      | .error e => .error e
      | .ok false => .ok false
      | .ok true => verifySignatures crypto verifiers fingerprint card

/-- The public key argument of `addVerifier`: a `Buffer` or base64 text. -/
inductive KeyArgument where
  | buffer (bytes : Buffer)
  | base64 (text : String)
  deriving DecidableEq, Repr

/-- `addVerifier(signerId, publicKey)`: the new state of `verifiers`.
`base64Decode` is the helper of `shared/utils.js`, which is not among the
sources and is taken as a parameter. -/
def addVerifier {PublicKey PrivateKey : Type} (base64Decode : String → Buffer)
    (crypto : VirgilCrypto PublicKey PrivateKey) (verifiers : Verifiers PublicKey)
    (signerId : String) (publicKey : KeyArgument) : Except JsError (Verifiers PublicKey) :=
  let publicKey := match publicKey with
    | .base64 text => base64Decode text
    | .buffer bytes => bytes
  match crypto.importPublicKey publicKey with
  | .error e => .error e
  | .ok key => .ok (JsObject.set verifiers signerId key)

/-- `cardValidator(crypto)`: the `verifiers` of a freshly made validator. -/
def cardValidator {PublicKey PrivateKey : Type} (base64Decode : String → Buffer)
    (crypto : VirgilCrypto PublicKey PrivateKey) : Except JsError (Verifiers PublicKey) :=
  addVerifier base64Decode crypto [] SERVICE_CARD_ID
    (.buffer (base64Decode SERVICE_PUBLIC_KEY))

/-! ### The checks of `validate`, as the specification words them -/

/-- Check (1): the card id is the lowercase-hex text of the fingerprint of the
card's snapshot. -/
def FingerprintMatches {PublicKey PrivateKey : Type}
    (crypto : VirgilCrypto PublicKey PrivateKey) (card : CardModel) : Prop :=
  card.id = Buffer.toHex (crypto.calculateFingerprint card.snapshot)

/-- Check (2): `card.signatures` has an entry under `card.id`, and `crypto.verify`
answers `true` for it against the imported `card.publicKey`. -/
def OwnerSignatureVerifies {PublicKey PrivateKey : Type}
    (crypto : VirgilCrypto PublicKey PrivateKey) (card : CardModel) : Prop :=
  ∃ signatures sign publicKey,
    card.signatures = some signatures ∧ JsObject.get signatures card.id = some sign ∧
    crypto.importPublicKey card.publicKey = .ok publicKey ∧
    crypto.verify (crypto.calculateFingerprint card.snapshot) (.buffer sign) publicKey
      = .ok true

/-- Check (3) for one configured signer: `card.signatures` has an entry under
the signer id, and `crypto.verify` answers `true` for it against the configured key. -/
def SignerSignatureVerifies {PublicKey PrivateKey : Type}
    (crypto : VirgilCrypto PublicKey PrivateKey) (card : CardModel)
    (signerId : String) (key : PublicKey) : Prop :=
  ∃ signatures sign,
    card.signatures = some signatures ∧ JsObject.get signatures signerId = some sign ∧
    crypto.verify (crypto.calculateFingerprint card.snapshot) (.buffer sign) key = .ok true

/-- All three checks: (1), (2), and (3) for every configured signer. -/
def AllChecksHold {PublicKey PrivateKey : Type}
    (crypto : VirgilCrypto PublicKey PrivateKey) (verifiers : Verifiers PublicKey)
    (card : CardModel) : Prop :=
  FingerprintMatches crypto card ∧ OwnerSignatureVerifies crypto card ∧
    ∀ signerId key, (signerId, key) ∈ verifiers → SignerSignatureVerifies crypto card signerId key

end CardValidator

/-! ## Model signer (`src/Web/ModelSigner.ts`) -/

/-- Modelled from the spec: the Signature Entry pushed by `sign`, whose type is
declared in `./RawSignedModel` (not among the sources): the signer role, the
signature as base64 text, and the snapshot of the extra fields when there are any. -/
structure IRawSignature where
  signer : String
  signature : String
  snapshot : Option Buffer
  deriving DecidableEq, Repr

/-- Modelled from the spec: the envelope `RawSignedModel` (`./RawSignedModel`,
not among the sources): the content snapshot, a byte sequence (a `Buffer`, as
`takeSnapshot` makes them), and the signatures array, which
`ModelSigner.validate` allows to be `null`. -/
structure RawSignedModel where
  contentSnapshot : Buffer
  signatures : Option (List IRawSignature)
  deriving DecidableEq, Repr

/-- The data `sign` hands to `generateSignature`: the content snapshot, a
`Buffer`, or the string that `+` makes of two Buffers. -/
inductive SignedData where
  | buffer (bytes : Buffer)
  | string (text : String)
  deriving DecidableEq, Repr

/-- The octets of the data: those of the `Buffer`, or the UTF-8 octets of the
string. -/
def SignedData.octets : SignedData → Buffer
  | .buffer bytes => bytes
  | .string text => Buffer.fromUtf8 text

/-- Modelled from the spec: the signing capability of `ICardCrypto`
(`../CryptoApi/ICardCrypto`, not among the sources), the one operation the
signer calls; it can throw. -/
structure ICardCrypto (PrivateKey : Type) where
  generateSignature : SignedData → PrivateKey → Except JsError Buffer

/-- `IRawSignParams`: `model` and `signerPrivateKey` may be `null` at run
time, `extraFields` and `signer` are optional. -/
structure IRawSignParams (PrivateKey : Type) where
  model : Option RawSignedModel
  signerPrivateKey : Option PrivateKey
  extraFields : Option IExtraData
  signer : Option String

/-- `IFinalSignParams`. -/
structure IFinalSignParams (PrivateKey : Type) where
  model : Option RawSignedModel
  signerPrivateKey : Option PrivateKey
  extraSnapshot : Option Buffer
  signer : String

/-- What a call of `sign` leaves behind: the envelope object after the call
and the completion of the call (normal, or the exception thrown). -/
structure SignOutcome where
  model : Option RawSignedModel
  result : Except JsError Unit
  deriving Repr

namespace ModelSigner

/-- Modelled from the spec: the constant `SelfSigner` of `signer-types`, which
is not among the sources; the role is `"self"` by default. -/
def SelfSigner : String := "self"

/-- `throw new Error("Model is empty")`. -/
def modelIsEmpty : JsError := .error "Model is empty"

/-- The error thrown for a missing `signerPrivateKey`. -/
def signerPrivateKeyIsMandatory : JsError :=
  .error "`signerPrivateKey` property is mandatory"

/-- `throw new Error("The model already has this signature.")`. -/
def alreadyHasSignature : JsError := .error "The model already has this signature."

/-- The error of `model.signatures.push` on an absent array. -/
def pushOfNull : JsError := .typeError "Cannot read property 'push' of null"

/-- The error of reading a property of a `null` model; never reached, as
`validate` throws first. -/
def readOfNull : JsError := .typeError "Cannot read property of null"

/-- `signer || SelfSigner`: an omitted role and the empty string give `SelfSigner`. -/
def finalSigner (signer : Option String) : String :=
  match signer with
  | none => SelfSigner
  | some role => if role = "" then SelfSigner else role

/-- `validate(final)`: the three precondition checks, in source order. -/
def validate {PrivateKey : Type} (final : IFinalSignParams PrivateKey) : Except JsError Unit :=
  match final.model with
  | none => .error modelIsEmpty
  | some model =>
    match final.signerPrivateKey with
    | none => .error signerPrivateKeyIsMandatory
    | some _ =>
      match model.signatures with
      | none => .ok ()
      | some signatures =>
        if signatures.any (fun s => decide (s.signer = final.signer)) = true then
          .error alreadyHasSignature
        else .ok ()

/-- `prepareParams(rawParams)`: default the role, snapshot the extra fields,
validate. -/
def prepareParams {PrivateKey : Type} (rawParams : IRawSignParams PrivateKey) :
    Except JsError (IFinalSignParams PrivateKey) :=
  let signer := finalSigner rawParams.signer
  let extraSnapshot := match rawParams.extraFields with
    | none => none
    | some extraFields => some (takeSnapshot extraFields)
  let final : IFinalSignParams PrivateKey :=
    { model := rawParams.model, signerPrivateKey := rawParams.signerPrivateKey,
      extraSnapshot := extraSnapshot, signer := signer }
  match validate final with
  | .error e => .error e
  | .ok _ => .ok final

/-- The `signedSnapshot` of `sign`: `model.contentSnapshot + extraSnapshot`
when there is an extra snapshot, else `model.contentSnapshot`.  The operands of
`+` are two Buffers: each is converted by its `toString()`, which decodes the
octets as UTF-8, and the two strings are joined. -/
def signedSnapshot (model : RawSignedModel) (extraSnapshot : Option Buffer) : SignedData :=
  match extraSnapshot with
  | some extra => .string (Buffer.toString model.contentSnapshot ++ Buffer.toString extra)
  | none => .buffer model.contentSnapshot

/-- `sign(rawParams)`: prepare, sign the payload, push the new entry. -/
def sign {PrivateKey : Type} (crypto : ICardCrypto PrivateKey)
    (rawParams : IRawSignParams PrivateKey) : SignOutcome :=
  match prepareParams rawParams with
  | .error e => { model := rawParams.model, result := .error e }
  | .ok final =>
    match final.model, final.signerPrivateKey with
    | some model, some signerPrivateKey =>
      match crypto.generateSignature (signedSnapshot model final.extraSnapshot)
          signerPrivateKey with
      | .error e => { model := some model, result := .error e }
      | .ok signature =>
        match model.signatures with
        | none => { model := some model, result := .error pushOfNull }
        | some signatures =>
          { model := some { model with signatures := some (signatures ++
              [{ signer := final.signer, signature := Buffer.toBase64 signature,
                 snapshot := final.extraSnapshot }]) },
            result := .ok () }
    | _, _ => { model := final.model, result := .error readOfNull }

/-- The errors thrown by `validate`. -/
def IsValidationError (e : JsError) : Prop :=
  e = modelIsEmpty ∨ e = signerPrivateKeyIsMandatory ∨ e = alreadyHasSignature

/-- The payload `sign` computes for the extra fields it is given:
`signedSnapshot` at the snapshot `prepareParams` takes of them. -/
def signedPayload (model : RawSignedModel) (extraFields : Option IExtraData) : SignedData :=
  signedSnapshot model (extraFields.map (fun fields => takeSnapshot fields))

/-- The payload as the specification words it: the octets of the content
snapshot, followed by the octets of the snapshot of the extra fields when they
are given. -/
def expectedPayload (model : RawSignedModel) (extraFields : Option IExtraData) : Buffer :=
  match extraFields with
  | none => model.contentSnapshot
  | some extraFields => model.contentSnapshot ++ takeSnapshot extraFields

/-- The entry the specification prescribes for a signature made under a role. -/
def expectedEntry (role : String) (signature : Buffer) (extraFields : Option IExtraData) :
    IRawSignature :=
  { signer := role, signature := Buffer.toBase64 signature,
    snapshot := extraFields.map (fun fields => takeSnapshot fields) }

/-- The envelope holds a signature entry whose signer is the given role. -/
def HoldsEntryFor (model : RawSignedModel) (role : String) : Prop :=
  ∃ signatures, model.signatures = some signatures ∧ ∃ s ∈ signatures, s.signer = role

end ModelSigner

/-! ## Request signer (`src/client/request-signer.js`) -/

/-- The two methods of `SignableRequest` that the request signer calls.  The
class (`client/signable-request.js`) is not among the sources: its methods are
taken as parameters; `appendSignature` may throw. -/
structure SignableRequestMethods (Request : Type) where
  getSnapshot : Request → Buffer
  appendSignature : Request → String → Buffer → Except JsError Request

namespace RequestSigner

/-- `selfSign(request, privateKey)`: the request after the call. -/
def selfSign {PublicKey PrivateKey Request : Type} (methods : SignableRequestMethods Request)
    (crypto : VirgilCrypto PublicKey PrivateKey) (request : Request)
    (privateKey : PrivateKey) : Except JsError Request :=
  let fingerprint := crypto.calculateFingerprint (methods.getSnapshot request)
  let signerId := Buffer.toHex fingerprint
  match crypto.sign fingerprint privateKey with
  | .error e => .error e
  | .ok signature => methods.appendSignature request signerId signature

/-- `authoritySign(request, signerId, privateKey)`: the request after the call. -/
def authoritySign {PublicKey PrivateKey Request : Type}
    (methods : SignableRequestMethods Request) (crypto : VirgilCrypto PublicKey PrivateKey)
    (request : Request) (signerId : String) (privateKey : PrivateKey) :
    Except JsError Request :=
  let fingerprint := crypto.calculateFingerprint (methods.getSnapshot request)
  match crypto.sign fingerprint privateKey with
  | .error e => .error e
  | .ok signature => methods.appendSignature request signerId signature

end RequestSigner

/-- Modelled from the spec: a `SignableRequest` (`client/signable-request.js`,
not among the sources) as the envelope of the spec: the snapshot and the
signatures appended so far, keyed by signer id as `card.signatures` is. -/
structure RecordedRequest where
  snapshot : Buffer
  signatures : JsObject Buffer
  deriving DecidableEq, Repr

/-- The methods of a `RecordedRequest`: `appendSignature` writes the signature
under the signer id. -/
def RecordedRequest.methods : SignableRequestMethods RecordedRequest where
  getSnapshot := fun request => request.snapshot
  appendSignature := fun request signerId signature =>
    .ok { request with signatures := JsObject.set request.signatures signerId signature }

/-- The provider is correct for a key pair: the public key is imported, the
private key signs every data, and the signature verifies against the imported
key for that data. -/
def VirgilCrypto.CorrectFor {PublicKey PrivateKey : Type}
    (crypto : VirgilCrypto PublicKey PrivateKey) (privateKey : PrivateKey)
    (publicKey : Buffer) : Prop :=
  ∃ key, crypto.importPublicKey publicKey = .ok key ∧
    ∀ data, ∃ signature,
      crypto.sign data privateKey = .ok signature ∧
      crypto.verify data (.buffer signature) key = .ok true

/-- The signing capability of a provider seen through `ICardCrypto`: a
`Buffer` is signed as it is and a string as its UTF-8 octets, with
`crypto.sign`. -/
def VirgilCrypto.cardCrypto {PublicKey PrivateKey : Type}
    (crypto : VirgilCrypto PublicKey PrivateKey) : ICardCrypto PrivateKey where
  generateSignature := fun payload privateKey =>
    crypto.sign payload.octets privateKey

namespace CardValidator

/-- The three reasons for which `validate` returns `false`, as the
specification names them; the last one records the verifier's role. -/
inductive InvalidReason where
  | fingerprintMismatch
  | ownerSignatureInvalid
  | verifierSignatureInvalid (signerId : String)
  deriving DecidableEq, Repr

/-- The check of `validate` that answers `false` on a card: the fingerprint
check; or, the fingerprint matching, the owner's check; or, both passing, the
check of a configured verifier. -/
def FailsWith {PublicKey PrivateKey : Type} (crypto : VirgilCrypto PublicKey PrivateKey)
    (verifiers : Verifiers PublicKey) (card : CardModel) : InvalidReason → Prop
  | .fingerprintMismatch => ¬ FingerprintMatches crypto card
  | .ownerSignatureInvalid =>
    FingerprintMatches crypto card ∧
    verifyOwnSignature crypto (crypto.calculateFingerprint card.snapshot) card = .ok false
  | .verifierSignatureInvalid signerId =>
    FingerprintMatches crypto card ∧
    verifyOwnSignature crypto (crypto.calculateFingerprint card.snapshot) card = .ok true ∧
    ∃ key, (signerId, key) ∈ verifiers ∧
      verifySigner crypto (crypto.calculateFingerprint card.snapshot) card (signerId, key)
        = .ok false

/-- A sequence of `addVerifier` calls made one after the other on a validator. -/
def addVerifiers {PublicKey PrivateKey : Type} (base64Decode : String → Buffer)
    (crypto : VirgilCrypto PublicKey PrivateKey) (verifiers : Verifiers PublicKey) :
    List (String × KeyArgument) → Except JsError (Verifiers PublicKey)
  | [] => .ok verifiers
  | (signerId, publicKey) :: rest =>
    match addVerifier base64Decode crypto verifiers signerId publicKey with
    | .error e => .error e
    | .ok next => addVerifiers base64Decode crypto next rest

end CardValidator

/-! ### Sequences of `sign` calls and the uniqueness invariant -/

namespace ModelSigner

/-- At most one entry per signer role: the signers of the entries of the
signatures array are pairwise distinct (an absent array holds no entry). -/
def UniqueRoles (model : RawSignedModel) : Prop :=
  ∀ signatures, model.signatures = some signatures →
    (signatures.map (fun s => s.signer)).Nodup

/-- One call to make on an envelope: the signer object's provider and the
parameters other than the envelope. -/
structure SignCall (PrivateKey : Type) where
  crypto : ICardCrypto PrivateKey
  signerPrivateKey : Option PrivateKey
  extraFields : Option IExtraData
  signer : Option String

/-- The envelope after a sequence of `sign` calls made on it one after the
other, whether they succeed or fail. -/
def signAll {PrivateKey : Type} (model : RawSignedModel) :
    List (SignCall PrivateKey) → RawSignedModel
  | [] => model
  | call :: rest =>
    match (sign call.crypto { model := some model, signerPrivateKey := call.signerPrivateKey,
                              extraFields := call.extraFields, signer := call.signer }).model with
    | some next => signAll next rest
    | none => signAll model rest

end ModelSigner

/-! ## Client: validation of fetched cards (`src/client/virgil-client.js`) -/

/-- The argument of `validateCards`: one card or an array of cards. -/
inductive CardsArgument where
  | single (card : CardModel)
  | many (cards : List CardModel)

/-- Modelled from the spec: the error made by `createError` of `shared/utils`
(not among the sources), taken to carry the message and the `invalidCards`
property it is given.  This type is what a call of `validateCards` can throw:
that error, or an exception escaping from the validator's `validate`. -/
inductive ValidationError where
  | validationFailed (message : String) (invalidCards : List CardModel)
  | thrown (e : JsError)

/-- A call of `validateCards`, with the cards `validate` was evaluated on, in
the order of the calls. -/
structure ValidateCardsRun where
  evaluated : List CardModel
  result : Except ValidationError Unit

/-- The scan `cards.filter(function (card) { return !cardValidator.validate(card); })`
with a `validate` that may throw: cards are visited in order and an exception
ends the scan. The first component lists the cards `validate` was called on. -/
def filterInvalid (validate : CardModel → Except JsError Bool) :
    List CardModel → List CardModel × Except JsError (List CardModel)
  | [] => ([], .ok [])
  | card :: rest =>
    match validate card with
    | .error e => ([card], .error e)
    | .ok verdict =>
      let scan := filterInvalid validate rest
      (card :: scan.1,
        match scan.2 with
        | .error e => .error e
        | .ok invalidCards => .ok (if verdict then invalidCards else card :: invalidCards))

/-- `validateCards(cards)` of the client; `cardValidator` is the module variable
set by `setCardValidator` (`null` at first), given by its `validate` method. -/
def validateCards (cardValidator : Option (CardModel → Except JsError Bool))
    (cards : CardsArgument) : ValidateCardsRun :=
  match cardValidator with
  | none => { evaluated := [], result := .ok () }
  | some validate =>
    let cards := match cards with
      | .many cards => cards
      | .single card => [card]
    let scan := filterInvalid validate cards
    match scan.2 with
    | .error e => { evaluated := scan.1, result := .error (.thrown e) }
    | .ok invalidCards =>
      if invalidCards.length ≠ 0 then
        { evaluated := scan.1,
          result := .error (.validationFailed "Card validation failed." invalidCards) }
      else { evaluated := scan.1, result := .ok () }

/-- Whether `validate` judges a card invalid: it returns `false`. -/
def judgedInvalid (validate : CardModel → Except JsError Bool) (card : CardModel) : Bool :=
  match validate card with
  | .ok false => true
  | _ => false

/-! ## JavaScript values, `JSON.stringify` and `JSON.parse` -/

/-- A JavaScript value as the serializing code meets it: the JSON values,
`undefined`, a Node `Buffer` and a `Date`.  A number is the exact decimal
`mantissa * 10 ^ exponent` (the rounding to a double is outside the model); a
`Date` holds its time value, in milliseconds since the epoch, `none` for an
Invalid Date; the properties of an object are in creation order. -/
inductive JsValue where
  | undefined
  | null
  | bool (b : Bool)
  | number (mantissa : Int) (exponent : Int)
  | string (text : String)
  | array (items : List JsValue)
  | object (properties : List (String × JsValue))
  | buffer (bytes : Buffer)
  | date (time : Option Int)

/-- The decimal digits of a natural number. -/
def decimalDigits (n : Nat) : List Char := Nat.toDigits 10 n

/-- The decimal digits of a natural number, padded with zeros to a width. -/
def padDigits (width n : Nat) : List Char :=
  List.replicate (width - (decimalDigits n).length) '0' ++ decimalDigits n

/-- The value of a run of decimal digits. -/
def digitsValue (digits : List Char) : Nat :=
  digits.foldl (fun n c => 10 * n + (c.toNat - 48)) 0

/-- The integer a number is truncated to (`ToIntegerOrInfinity`). -/
def truncate (mantissa exponent : Int) : Int :=
  if 0 ≤ exponent then mantissa * 10 ^ exponent.toNat
  else Int.tdiv mantissa (10 ^ exponent.natAbs)

/-- `Number.prototype.toString` of a decimal: the plain decimal numeral (the
exponent form JavaScript uses for very large and very small magnitudes is
outside the model). -/
def numberToString (mantissa exponent : Int) : String :=
  let sign := if mantissa < 0 then ['-'] else []
  if 0 ≤ exponent then
    String.mk (sign ++ decimalDigits (mantissa.natAbs * 10 ^ exponent.toNat))
  else
    let padded := padDigits (exponent.natAbs + 1) mantissa.natAbs
    String.mk (sign ++ padded.take (padded.length - exponent.natAbs)
      ++ '.' :: padded.drop (padded.length - exponent.natAbs))

/-! ### Dates -/

/-- The year, month and day of a day number (days since 1970-01-01) in the
proleptic Gregorian calendar. -/
def civilFromDays (days : Int) : Int × Nat × Nat :=
  let z := days + 719468
  let era := z / 146097
  let doe := (z - era * 146097).toNat
  let yoe := (doe - doe / 1460 + doe / 36524 - doe / 146096) / 365
  let doy := doe - (365 * yoe + yoe / 4 - yoe / 100)
  let mp := (5 * doy + 2) / 153
  let day := doy - (153 * mp + 2) / 5 + 1
  let month := if mp < 10 then mp + 3 else mp - 9
  ((yoe : Int) + era * 400 + (if month ≤ 2 then 1 else 0), month, day)

/-- The day number of a year, month and day (`MakeDay`); a day past the end of
the month runs into the next one. -/
def daysFromCivil (year : Int) (month day : Nat) : Int :=
  let y := if month ≤ 2 then year - 1 else year
  let era := y / 400
  let yoe := (y - era * 400).toNat
  let mp := if 2 < month then month - 3 else month + 9
  let doy := (153 * mp + 2) / 5 + day - 1
  let doe := yoe * 365 + yoe / 4 - yoe / 100 + doy
  era * 146097 + (doe : Int) - 719468

/-- `TimeClip`: a time value out of the range of `Date` is Invalid. -/
def timeClip (time : Int) : Option Int :=
  if -8640000000000000 ≤ time ∧ time ≤ 8640000000000000 then some time else none

/-- `Date.prototype.toISOString` of a valid time value:
`YYYY-MM-DDTHH:mm:ss.sssZ`, the year with a sign and six digits when it is not
within `0..9999`. -/
def Date.toISOString (time : Int) : String :=
  let civil := civilFromDays (time / 86400000)
  let ms := (time % 86400000).toNat
  let year :=
    if 0 ≤ civil.1 ∧ civil.1 ≤ 9999 then padDigits 4 civil.1.toNat
    else (if civil.1 < 0 then '-' else '+') :: padDigits 6 civil.1.natAbs
  String.mk (year ++ '-' :: padDigits 2 civil.2.1 ++ '-' :: padDigits 2 civil.2.2
    ++ 'T' :: padDigits 2 (ms / 3600000) ++ ':' :: padDigits 2 (ms / 60000 % 60)
    ++ ':' :: padDigits 2 (ms / 1000 % 60) ++ '.' :: padDigits 3 (ms % 1000) ++ ['Z'])

/-- The number written by exactly `count` decimal digits at the head of a text. -/
def takeNumber (count : Nat) (chars : List Char) : Option (Nat × List Char) :=
  if (chars.take count).length = count ∧ (chars.take count).all Char.isDigit = true then
    some (digitsValue (chars.take count), chars.drop count)
  else none

/-- The year of a date-time text: four digits, or a sign and six digits (the
year `-000000` is not allowed). -/
def parseYear (chars : List Char) : Option (Int × List Char) :=
  match chars with
  | '+' :: rest =>
    match takeNumber 6 rest with
    | some (year, rest) => some ((year : Int), rest)
    | none => none
  | '-' :: rest =>
    match takeNumber 6 rest with
    | some (year, rest) => if year = 0 then none else some (-(year : Int), rest)
    | none => none
  | _ =>
    match takeNumber 4 chars with
    | some (year, rest) => some ((year : Int), rest)
    | none => none

/-- A field of a date-time text after its separator, when the text goes on
with that separator. -/
def parseField (separator : Char) (count : Nat) (chars : List Char) :
    Option (Nat × List Char) :=
  match chars with
  | c :: rest => if c = separator then takeNumber count rest else none
  | [] => none

/-- The time of day of a date-time text, after the `T`: `HH:mm`, `HH:mm:ss` or
`HH:mm:ss.sss`, then `Z`; the result is in milliseconds. -/
def parseTime (chars : List Char) : Option Nat :=
  match takeNumber 2 chars with
  | none => none
  | some (hour, rest) =>
    match parseField ':' 2 rest with
    | none => none
    | some (minute, rest) =>
      let second := (parseField ':' 2 rest).getD (0, rest)
      let milli := (parseField '.' 3 second.2).getD (0, second.2)
      if milli.2 = ['Z'] ∧ minute < 60 ∧ second.1 < 60 ∧
          (hour < 24 ∨ (hour = 24 ∧ minute = 0 ∧ second.1 = 0 ∧ milli.1 = 0)) then
        some (hour * 3600000 + minute * 60000 + second.1 * 1000 + milli.1)
      else none

/-- `Date.parse` of a text in the date-time string format of ECMAScript, in
UTC: a date `YYYY`, `YYYY-MM` or `YYYY-MM-DD`, alone or followed by `T`, a time
and `Z`.  The forms read in local time (a time without `Z`), the forms with a
numeric offset and the formats an implementation accepts beyond the standard
one are outside the model and taken to be unparseable. `none` is `NaN`. -/
def Date.parse (text : String) : Option Int :=
  match parseYear text.data with
  | none => none
  | some (year, rest) =>
    let month := (parseField '-' 2 rest).getD (1, rest)
    let day := if month.2 = rest then (1, rest) else (parseField '-' 2 month.2).getD (1, month.2)
    if 1 ≤ month.1 ∧ month.1 ≤ 12 ∧ 1 ≤ day.1 ∧ day.1 ≤ 31 then
      let date := daysFromCivil year month.1 day.1 * 86400000
      match day.2 with
      | [] => timeClip date
      | 'T' :: time =>
        match parseTime time with
        | some ms => timeClip (date + (ms : Int))
        | none => none
      | _ => none
    else none

/-! ### `JSON.stringify` -/

/-- The members of a serialized object or array, once rendered, separated by
commas. -/
def joinItems : List String → String
  | [] => ""
  | [m] => m
  | m :: rest => m ++ "," ++ joinItems rest

/-- `Buffer.prototype.toJSON`: an object with `type` and the octets as `data`. -/
def Buffer.toJSON (bytes : Buffer) : JsValue :=
  .object [("type", .string "Buffer"),
    ("data", .array (bytes.map (fun b => .number (b.val : Int) 0)))]

/-- The text of the `toJSON` of a `Buffer`. -/
def Buffer.stringify (bytes : Buffer) : String :=
  "\x7b" ++ quoteJSONString "type" ++ ":" ++ quoteJSONString "Buffer" ++ ","
    ++ quoteJSONString "data" ++ ":[" ++ joinItems (bytes.map (fun b => numberToString b.val 0))
    ++ "]\x7d"

mutual
/-- `SerializeJSONProperty`: the JSON text of a value, `none` for a value that
is not serialized (`undefined`). A `Buffer` and a `Date` are replaced by their
`toJSON`; an array holds `null` for an element that is not serialized, an
object leaves such a property out; the members of an object come in
`Object.keys` order. -/
def JsValue.serialize : JsValue → Option String
  | .undefined => none
  | .null => some "null"
  | .bool b => some (if b then "true" else "false")
  | .number mantissa exponent => some (numberToString mantissa exponent)
  | .string text => some (quoteJSONString text)
  | .array items => some ("[" ++ joinItems (JsValue.serializeItems items) ++ "]")
  | .object properties =>
    some ("\x7b" ++ joinItems ((JsObject.entries (JsValue.serializeProperties properties)).map
      (fun e => quoteJSONString e.1 ++ ":" ++ e.2)) ++ "\x7d")
  | .buffer bytes => some (Buffer.stringify bytes)
  | .date none => some "null"
  | .date (some time) => some (quoteJSONString (Date.toISOString time))
/-- The texts of the elements of an array. -/
def JsValue.serializeItems : List JsValue → List String
  | [] => []
  | value :: rest => (JsValue.serialize value).getD "null" :: JsValue.serializeItems rest
/-- The serialized properties of an object, each under its key, in creation
order. -/
def JsValue.serializeProperties : List (String × JsValue) → List (String × String)
  | [] => []
  | (key, value) :: rest =>
    match JsValue.serialize value with
    | some text => (key, text) :: JsValue.serializeProperties rest
    | none => JsValue.serializeProperties rest
end

/-- `JSON.stringify(value)`; `none` is `undefined`. -/
def JSON.stringify (value : JsValue) : Option String := JsValue.serialize value

/-- `JSON.stringify` of an object, given by its properties: always a text. -/
def JSON.stringifyObject (properties : JsObject JsValue) : String :=
  "\x7b" ++ joinItems ((JsObject.entries (JsValue.serializeProperties properties)).map
    (fun e => quoteJSONString e.1 ++ ":" ++ e.2)) ++ "\x7d"

/-! ### `JSON.parse` -/

/-- JSON white space: tab, line feed, carriage return and space. -/
def isJsonSpace (c : Char) : Bool :=
  c.toNat = 9 || c.toNat = 10 || c.toNat = 13 || c.toNat = 32

/-- The text after its leading white space. -/
def skipSpace : List Char → List Char
  | [] => []
  | c :: rest => if isJsonSpace c then skipSpace rest else c :: rest

/-- The value of a hexadecimal digit of either case. -/
def hexValue (c : Char) : Option Nat :=
  let n := c.toNat
  if 48 ≤ n ∧ n ≤ 57 then some (n - 48)
  else if 97 ≤ n ∧ n ≤ 102 then some (n - 87)
  else if 65 ≤ n ∧ n ≤ 70 then some (n - 55)
  else none

/-- The code unit written by four hexadecimal digits. -/
def hexUnit (a b c d : Char) : Option Nat :=
  match hexValue a, hexValue b, hexValue c, hexValue d with
  | some a, some b, some c, some d => some (((a * 16 + b) * 16 + c) * 16 + d)
  | _, _, _, _ => none

/-- The UTF-16 code units of a character. -/
def utf16Units (c : Char) : List Nat :=
  if c.toNat < 0x10000 then [c.toNat]
  else [0xD800 + (c.toNat - 0x10000) / 1024, 0xDC00 + (c.toNat - 0x10000) % 1024]

/-- The characters of a sequence of UTF-16 code units: a surrogate pair is one
character. A lone surrogate, which a JavaScript string can hold and a `String`
here cannot, is given as U+FFFD. -/
def utf16Decode : List Nat → List Char
  | [] => []
  | [u] => [if 0xD800 ≤ u ∧ u ≤ 0xDFFF then replacementChar else Char.ofNat u]
  | u :: v :: rest =>
    if 0xD800 ≤ u ∧ u ≤ 0xDBFF ∧ 0xDC00 ≤ v ∧ v ≤ 0xDFFF then
      Char.ofNat (0x10000 + (u - 0xD800) * 1024 + (v - 0xDC00)) :: utf16Decode rest
    else if 0xD800 ≤ u ∧ u ≤ 0xDFFF then replacementChar :: utf16Decode (v :: rest)
    else Char.ofNat u :: utf16Decode (v :: rest)

/-- The character a one-letter escape stands for. -/
def simpleEscape (c : Char) : Option Nat :=
  if c.toNat = 34 then some 34
  else if c.toNat = 92 then some 92
  else if c = '/' then some 47
  else if c = 'b' then some 8
  else if c = 'f' then some 12
  else if c = 'n' then some 10
  else if c = 'r' then some 13
  else if c = 't' then some 9
  else none

/-- The code units of a JSON string, from after its opening quote to its
closing quote, and the text that follows. -/
def parseStringUnits : List Char → Option (List Nat × List Char)
  | [] => none
  | c :: rest =>
    if c.toNat = 34 then some ([], rest)
    else if c.toNat = 92 then
      match rest with
      | [] => none
      | e :: rest1 =>
        if e = 'u' then
          match rest1 with
          | h1 :: h2 :: h3 :: h4 :: rest2 =>
            match hexUnit h1 h2 h3 h4 with
            | none => none
            | some u =>
              match parseStringUnits rest2 with
              | none => none
              | some (units, after) => some (u :: units, after)
          | _ => none
        else
          match simpleEscape e with
          | none => none
          | some u =>
            match parseStringUnits rest1 with
            | none => none
            | some (units, after) => some (u :: units, after)
    else if c.toNat < 32 then none
    else
      match parseStringUnits rest with
      | none => none
      | some (units, after) => some (utf16Units c ++ units, after)

/-- A JSON string, from after its opening quote. -/
def parseString (chars : List Char) : Option (String × List Char) :=
  match parseStringUnits chars with
  | none => none
  | some (units, after) => some (String.mk (utf16Decode units), after)

/-- The leading decimal digits of a text, and the text that follows. -/
def takeDigits : List Char → List Char × List Char
  | [] => ([], [])
  | c :: rest =>
    if c.isDigit then ((takeDigits rest).1.cons c, (takeDigits rest).2) else ([], c :: rest)

/-- Removal of the trailing zeros of a decimal fraction, at most `count` of them. -/
def stripZeros : Nat → Int → Int → Int × Int
  | 0, mantissa, exponent => (mantissa, exponent)
  | count + 1, mantissa, exponent =>
    if exponent < 0 ∧ mantissa % 10 = 0 then stripZeros count (mantissa / 10) (exponent + 1)
    else (mantissa, exponent)

/-- The number `mantissa * 10 ^ exponent` in the form parsed numbers are kept
in: an integer has exponent `0`, another number a mantissa that ten does not
divide. -/
def normalizeNumber (mantissa exponent : Int) : JsValue :=
  if mantissa = 0 then .number 0 0
  else if 0 ≤ exponent then .number (mantissa * 10 ^ exponent.toNat) 0
  else .number (stripZeros exponent.natAbs mantissa exponent).1
    (stripZeros exponent.natAbs mantissa exponent).2

/-- The fraction of a JSON number: a point and at least one digit, if the text
goes on with a point. `none` is a syntax error. -/
def parseFraction (chars : List Char) : Option (List Char × List Char) :=
  match chars with
  | '.' :: rest =>
    if (takeDigits rest).1 = [] then none else some (takeDigits rest)
  | _ => some ([], chars)

/-- The exponent of a JSON number: `e` or `E`, an optional sign and at least one
digit, if the text goes on with `e` or `E`. `none` is a syntax error. -/
def parseExponent (chars : List Char) : Option (Int × List Char) :=
  match chars with
  | c :: rest =>
    if c = 'e' ∨ c = 'E' then
      match rest with
      | '-' :: rest1 =>
        if (takeDigits rest1).1 = [] then none
        else some (-(digitsValue (takeDigits rest1).1 : Int), (takeDigits rest1).2)
      | '+' :: rest1 =>
        if (takeDigits rest1).1 = [] then none
        else some ((digitsValue (takeDigits rest1).1 : Int), (takeDigits rest1).2)
      | _ =>
        if (takeDigits rest).1 = [] then none
        else some ((digitsValue (takeDigits rest).1 : Int), (takeDigits rest).2)
    else some (0, chars)
  | [] => some (0, [])

/-- The whole part of a JSON number: a lone `0`, or a digit other than `0` and
the digits after it. -/
def takeWhole (chars : List Char) : List Char × List Char :=
  match chars with
  | '0' :: rest => (['0'], rest)
  | _ => takeDigits chars

/-- A JSON number after its sign: the whole part, then fraction and exponent. -/
def parseUnsigned (negative : Bool) (chars : List Char) : Option (JsValue × List Char) :=
  if (takeWhole chars).1 = [] then none
  else
    match parseFraction (takeWhole chars).2 with
    | none => none
    | some (fraction, rest) =>
      match parseExponent rest with
      | none => none
      | some (exponent, rest) =>
        some (normalizeNumber
          (if negative then -(digitsValue ((takeWhole chars).1 ++ fraction) : Int)
            else (digitsValue ((takeWhole chars).1 ++ fraction) : Int))
          (exponent - (fraction.length : Int)), rest)

/-- A JSON number. -/
def parseNumber (chars : List Char) : Option (JsValue × List Char) :=
  match chars with
  | '-' :: rest => parseUnsigned true rest
  | _ => parseUnsigned false chars

/-- The object made of the members of a JSON object text, in the order of the
text: a key written twice keeps its first place and its last value. -/
def objectOfMembers (members : List (String × JsValue)) : JsValue :=
  .object (members.foldl (fun obj member => JsObject.set obj member.1 member.2) [])

mutual
/-- A JSON value at the head of a text, after optional white space, and the
text that follows; `none` is a syntax error, or the end of the fuel: the fuel
bounds the depth of the recursion, and the number of characters a parse
consumes is enough for it (`parse_fuel_adequate`). -/
def parseValue : Nat → List Char → Option (JsValue × List Char)
  | 0, _ => none
  | fuel + 1, chars =>
    match skipSpace chars with
    | [] => none
    | c :: rest =>
      if c.toNat = 123 then
        match skipSpace rest with
        | [] => none
        | d :: rest1 =>
          if d.toNat = 125 then some (.object [], rest1)
          else
            match parseMembers fuel (d :: rest1) with
            | none => none
            | some (members, after) => some (objectOfMembers members, after)
      else if c.toNat = 91 then
        match skipSpace rest with
        | [] => none
        | d :: rest1 =>
          if d.toNat = 93 then some (.array [], rest1)
          else
            match parseElements fuel (d :: rest1) with
            | none => none
            | some (items, after) => some (.array items, after)
      else if c.toNat = 34 then
        match parseString rest with
        | none => none
        | some (text, after) => some (.string text, after)
      else if c = 't' then
        match rest with
        | 'r' :: 'u' :: 'e' :: after => some (.bool true, after)
        | _ => none
      else if c = 'f' then
        match rest with
        | 'a' :: 'l' :: 's' :: 'e' :: after => some (.bool false, after)
        | _ => none
      else if c = 'n' then
        match rest with
        | 'u' :: 'l' :: 'l' :: after => some (.null, after)
        | _ => none
      else parseNumber (c :: rest)
/-- The elements of a JSON array, from its first element to its closing
bracket. -/
def parseElements : Nat → List Char → Option (List JsValue × List Char)
  | 0, _ => none
  | fuel + 1, chars =>
    match parseValue fuel chars with
    | none => none
    | some (value, rest) =>
      match skipSpace rest with
      | [] => none
      | c :: rest1 =>
        if c.toNat = 44 then
          match parseElements fuel rest1 with
          | none => none
          | some (items, after) => some (value :: items, after)
        else if c.toNat = 93 then some ([value], rest1)
        else none
/-- The members of a JSON object, from its first key to its closing brace. -/
def parseMembers : Nat → List Char → Option (List (String × JsValue) × List Char)
  | 0, _ => none
  | fuel + 1, chars =>
    match skipSpace chars with
    | [] => none
    | q :: rest =>
      if q.toNat = 34 then
        match parseString rest with
        | none => none
        | some (key, rest1) =>
          match skipSpace rest1 with
          | [] => none
          | colon :: rest2 =>
            if colon.toNat = 58 then
              match parseValue fuel rest2 with
              | none => none
              | some (value, rest3) =>
                match skipSpace rest3 with
                | [] => none
                | c :: rest4 =>
                  if c.toNat = 44 then
                    match parseMembers fuel rest4 with
                    | none => none
                    | some (members, after) => some ((key, value) :: members, after)
                  else if c.toNat = 125 then some ([(key, value)], rest4)
                  else none
            else none
      else none
end

/-- The value of a JSON text, `none` when the text is not one. -/
def parseText (text : String) : Option JsValue :=
  match parseValue (text.length + 1) text.data with
  | none => none
  | some (value, rest) => if skipSpace rest = [] then some value else none

/-- The `SyntaxError` of `JSON.parse` (its message, which names the offending
token and its position, is not modelled). -/
def unexpectedToken : JsError := .syntaxError "Unexpected token in JSON"

/-- `JSON.parse(text)`. -/
def JSON.parse (text : String) : Except JsError JsValue :=
  match parseText text with
  | some value => .ok value
  | none => .error unexpectedToken

/-- A text is a JSON text with a given value: the parser derives the value from
the text, with only white space left, whatever fuel that takes. -/
def IsJsonText (text : String) (value : JsValue) : Prop :=
  ∃ fuel rest, parseValue fuel text.data = some (value, rest) ∧ skipSpace rest = []

/-- What the three parsers have in common: a success consumes at least one
character, and any fuel from the number of characters consumed gives it. -/
def FuelAdequate {α : Type} (parse : Nat → List Char → Option (α × List Char)) (fuel : Nat) :
    Prop :=
  ∀ chars result rest, parse fuel chars = some (result, rest) →
    rest.length < chars.length ∧
    ∀ more, chars.length - rest.length ≤ more → parse more chars = some (result, rest)

mutual
/-- `InternalizeJSONProperty`: the reviver is applied to the properties of a
parsed value from the innermost outwards, and last to the value itself under
`key`; a property for which it answers `undefined` is deleted.  The reviver
answers `none` when it throws; as every exception ends the walk, the order in
which the properties of one object are visited does not show. -/
def JsValue.internalize (reviver : String → JsValue → Option JsValue) (key : String) :
    JsValue → Option JsValue
  | .array items =>
    match JsValue.internalizeItems reviver 0 items with
    | none => none
    | some revived => reviver key (.array revived)
  | .object properties =>
    match JsValue.internalizeProperties reviver properties with
    | none => none
    | some revived => reviver key (.object revived)
  | .undefined => reviver key .undefined
  | .null => reviver key .null
  | .bool b => reviver key (.bool b)
  | .number mantissa exponent => reviver key (.number mantissa exponent)
  | .string text => reviver key (.string text)
  | .buffer bytes => reviver key (.buffer bytes)
  | .date time => reviver key (.date time)
/-- The elements of an array, revived under their indices. -/
def JsValue.internalizeItems (reviver : String → JsValue → Option JsValue) :
    Nat → List JsValue → Option (List JsValue)
  | _, [] => some []
  | index, value :: rest =>
    match JsValue.internalize reviver (String.mk (decimalDigits index)) value with
    | none => none
    | some revived =>
      match JsValue.internalizeItems reviver (index + 1) rest with
      | none => none
      | some others => some (revived :: others)
/-- The properties of an object, revived under their keys. -/
def JsValue.internalizeProperties (reviver : String → JsValue → Option JsValue) :
    List (String × JsValue) → Option (List (String × JsValue))
  | [] => some []
  | (key, value) :: rest =>
    match JsValue.internalize reviver key value with
    | none => none
    | some revived =>
      match JsValue.internalizeProperties reviver rest with
      | none => none
      | some others =>
        match revived with
        | .undefined => some others
        | _ => some ((key, revived) :: others)
end

/-- `JSON.parse(text, reviver)` inside a `try`: `none` when the text is not a
JSON text or the reviver throws. -/
def JSON.parseWith (reviver : String → JsValue → Option JsValue) (text : String) :
    Option JsValue :=
  match parseText text with
  | none => none
  | some value => JsValue.internalize reviver "" value

mutual
/-- `ToString` of a value: an array joins the texts of its elements with commas,
`null` and `undefined` elements giving the empty text.  A `Date`, which no
parsed JSON holds, is given by its ISO text in place of the host's local
rendering. -/
def JsValue.toText : JsValue → String
  | .undefined => "undefined"
  | .null => "null"
  | .bool b => if b then "true" else "false"
  | .number mantissa exponent => numberToString mantissa exponent
  | .string text => text
  | .array items => joinItems (JsValue.toTexts items)
  | .object _ => "[object Object]"
  | .buffer bytes => Buffer.toString bytes
  | .date none => "Invalid Date"
  | .date (some time) => Date.toISOString time
/-- The texts `Array.prototype.join` joins. -/
def JsValue.toTexts : List JsValue → List String
  | [] => []
  | .undefined :: rest => "" :: JsValue.toTexts rest
  | .null :: rest => "" :: JsValue.toTexts rest
  | value :: rest => JsValue.toText value :: JsValue.toTexts rest
end

/-- The time value of `new Date(value)`: a text is parsed, a number truncated
and clipped, `null` and booleans are numbers, an array or a `Buffer` is first
turned into text. -/
def Date.ofValue : JsValue → Option Int
  | .undefined => none
  | .null => some 0
  | .bool b => some (if b then 1 else 0)
  | .number mantissa exponent => timeClip (truncate mantissa exponent)
  | .string text => Date.parse text
  | .array items => Date.parse (JsValue.toText (.array items))
  | .object _ => none
  | .buffer bytes => Date.parse (Buffer.toString bytes)
  | .date time => time

/-- The octet an element of an array of octets stands for: a number is
truncated and reduced modulo 256; an element that is not a number counts as
`0` (numeric texts, which Node converts, are outside the model). -/
def octetOf : JsValue → Byte
  | .number mantissa exponent => byte (truncate mantissa exponent % 256).toNat
  | .bool true => byte 1
  | _ => byte 0

/-- Node `Buffer.from(value, 'base64')`: a text is decoded, an array of octets
or the `toJSON` form of a `Buffer` gives its octets, and `none` is the
`TypeError` for a value `Buffer.from` does not accept (`null`, a number, a
boolean, another object; array-like objects are outside the model). -/
def Buffer.ofValue : JsValue → Option Buffer
  | .string text => some (Buffer.fromBase64 text)
  | .array items => some (items.map octetOf)
  | .buffer bytes => some bytes
  | .object properties =>
    match JsObject.get properties "type", JsObject.get properties "data" with
    | some (.string "Buffer"), some (.array items) => some (items.map octetOf)
    | _, _ => none
  | _ => none

/-! ## Snapshots of card attributes (`src/Sdk/Utils/SnapshotUtils.ts`) -/

/-- `ICardParams`, the attributes of a card.  The optional properties are
`none` when the caller leaves them out; `privateKey`, whose type is declared in
a file that is not among the sources, is always left out. `createdAt` is the
time value of a valid `Date`. -/
structure ICardParams where
  identity : String
  publicKey : Buffer
  previousCardId : Option String
  extraFields : Option IExtraData
  createdAt : Option Int
  version : Option String

/-- A property that is present only when its value is given. -/
def optionalProperty (key : String) (value : Option JsValue) : JsObject JsValue :=
  match value with
  | some value => [(key, value)]
  | none => []

/-- The object that holds the attributes, its properties created in the order
of the interface. -/
def ICardParams.toObject (info : ICardParams) : JsObject JsValue :=
  [("identity", .string info.identity), ("publicKey", .buffer info.publicKey)]
    ++ optionalProperty "previousCardId" (info.previousCardId.map .string)
    ++ optionalProperty "extraFields"
        (info.extraFields.map (fun fields => .object (fields.map (fun e => (e.1, .string e.2)))))
    ++ optionalProperty "createdAt" (info.createdAt.map (fun time => .date (some time)))
    ++ optionalProperty "version" (info.version.map .string)

instance : JsonStringify (JsObject JsValue) where
  stringify := JSON.stringifyObject

/-- `parseSnapshot(snapshot)`: `JSON.parse(snapshot.toString('utf8'))`, returned
as it is parsed. -/
def parseSnapshot (snapshot : Buffer) : Except JsError JsValue :=
  JSON.parse (Buffer.toString snapshot)

/-- Two objects hold the same fields with the same values: every property
read answers alike. -/
def SameFields (a b : JsObject JsValue) : Prop :=
  ∀ key, JsObject.get a key = JsObject.get b key

/-! ## Key entry storage (`src/Sdk/Lib/KeyStorage/KeyEntryStorage.ts`) -/

/-- The error a promise of the adapter is rejected with, by its `name` and
`message` properties. -/
structure AdapterError where
  name : String
  message : String
  deriving DecidableEq, Repr

/-- `IStorageAdapter` (`adapters/IStorageAdapter.ts`) over the states `σ` of
the underlying store: each method answers the state after the call and what
its promise settles to (`Except.error` for a rejection, `none` for `null`). -/
structure IStorageAdapter (σ : Type) where
  store : σ → String → Buffer → σ × Except AdapterError Unit
  load : σ → String → σ × Except AdapterError (Option Buffer)
  «exists» : σ → String → σ × Except AdapterError Bool
  remove : σ → String → σ × Except AdapterError Bool
  update : σ → String → Buffer → σ × Except AdapterError Unit
  clear : σ → σ × Except AdapterError Unit
  list : σ → σ × Except AdapterError (List Buffer)

/-- Modelled from the spec: the classes `KeyEntryAlreadyExistsError`,
`InvalidKeyEntryError` and `KeyEntryDoesNotExistError`, declared in files that
are not among the sources; each is given by its class and the name it is made
with.  This type is what a method of `KeyEntryStorage` fails with: one of
these, a `TypeError`, or an error of the adapter passed on. -/
inductive StorageError where
  | typeError (message : String)
  | keyEntryAlreadyExists (name : String)
  | invalidKeyEntry
  | keyEntryDoesNotExist (name : String)
  | adapter (error : AdapterError)
  deriving DecidableEq, Repr

/-- How a call of a method that returns a promise ends: it throws before any
promise is made, or its promise is rejected, or resolved. -/
inductive Outcome (α : Type) where
  | threw (error : StorageError)
  | rejected (error : StorageError)
  | resolved (value : α)

/-- Modelled from the spec: `ISaveKeyEntryParams` (`./IKeyEntryStorage`, not
among the sources): a name, a value (`none` when the caller passes `null`, as
the tests do), and an optional `meta`, a mapping from string keys to string
values. -/
structure ISaveKeyEntryParams where
  name : String
  value : Option Buffer
  meta : Option (JsObject String)

/-- Modelled from the spec: `IUpdateKeyEntryParams` (`./IKeyEntryStorage`, not
among the sources): the name of the entry, and the new value and the new
`meta`, each of which may be left out. -/
structure IUpdateKeyEntryParams where
  name : String
  value : Option Buffer
  meta : Option (JsObject String)

/-- Modelled from the spec: `IKeyEntry` (`./IKeyEntryStorage`, not among the
sources): name, value, optional meta, and the two dates by their time values. -/
structure IKeyEntry where
  name : String
  value : Buffer
  meta : Option (JsObject String)
  creationDate : Int
  modificationDate : Int

/-- A `meta` as a JavaScript value: an object of texts, `undefined` when left
out. -/
def metaValue (meta : Option (JsObject String)) : JsValue :=
  match meta with
  | some fields => .object (fields.map (fun e => (e.1, .string e.2)))
  | none => .undefined

/-- The object literal `save` builds for a key entry: `name`, `value`, `meta`,
`creationDate`, `modificationDate`, in this order. -/
def IKeyEntry.toObject (entry : IKeyEntry) : JsObject JsValue :=
  [("name", .string entry.name), ("value", .buffer entry.value),
    ("meta", metaValue entry.meta), ("creationDate", .date (some entry.creationDate)),
    ("modificationDate", .date (some entry.modificationDate))]

namespace KeyEntryStorage

/-- The constant `VALUE_KEY`. -/
def VALUE_KEY : String := "value"

/-- The constant `CREATION_DATE_KEY`. -/
def CREATION_DATE_KEY : String := "creationDate"

/-- The constant `MODIFICATION_DATE_KEY`. -/
def MODIFICATION_DATE_KEY : String := "modificationDate"

/-- `requiredArg(name)(value)`, given whether `value` is truthy. -/
def requiredArg (name : String) (truthy : Bool) : Except StorageError Unit :=
  if truthy then .ok () else .error (.typeError ("Argument '" ++ name ++ "' is required."))

/-- `requiredProp(name)(value)`, given whether `value` is truthy. -/
def requiredProp (name : String) (truthy : Bool) : Except StorageError Unit :=
  if truthy then .ok ()
  else .error (.typeError ("Invalid argument. Property " ++ name ++ " is required"))

/-- `validateName(name)`: a text is truthy when it is not empty. -/
def validateName (name : String) : Except StorageError Unit :=
  requiredArg "name" (decide (name ≠ ""))

/-- `validateNameProperty(name)`. -/
def validateNameProperty (name : String) : Except StorageError Unit :=
  requiredProp "name" (decide (name ≠ ""))

/-- `validateValueProperty(value)`: a `Buffer` is truthy, a missing value is not. -/
def validateValueProperty (value : Option Buffer) : Except StorageError Unit :=
  requiredProp "value" value.isSome

/-- The `TypeError` of calling `toString` on a missing `value`. -/
def toStringOfUndefined : StorageError :=
  .typeError "Cannot read property 'toString' of undefined"

/-- `value.toString('base64')` for the `value` of an entry about to be
serialized: the base64 text of a `Buffer`; a text answers itself; a missing
value is a `TypeError`.  No other value reaches this call from `save` or from
`update`, and the model takes it as a `TypeError` too. -/
def valueToString (value : Option JsValue) : Except StorageError String :=
  match value with
  | some (.buffer bytes) => .ok (Buffer.toBase64 bytes)
  | some (.string text) => .ok text
  | _ => .error toStringOfUndefined

/-- `serializeKeyEntry(keyEntry)`: the own properties other than `value`, in
`Object.keys` order, then `value` as base64 text; the JSON text of this object
in UTF-8. -/
def serializeKeyEntry (keyEntry : JsObject JsValue) : Except StorageError Buffer :=
  match valueToString (JsObject.get keyEntry "value") with
  | .error e => .error e
  | .ok text =>
    .ok (Buffer.fromUtf8 (JSON.stringifyObject
      ((JsObject.entries keyEntry).filter (fun e => decide (e.1 ≠ "value"))
        ++ [("value", .string text)])))

/-- The reviver `deserializeKeyEntry` passes to `JSON.parse`; `none` when it
throws. -/
def reviver (key : String) (value : JsValue) : Option JsValue :=
  if key = VALUE_KEY then (Buffer.ofValue value).map .buffer
  else if key = CREATION_DATE_KEY ∨ key = MODIFICATION_DATE_KEY then
    some (.date (Date.ofValue value))
  else some value

/-- `deserializeKeyEntry(data)`: every exception of `JSON.parse` and of the
reviver becomes an `InvalidKeyEntryError`. -/
def deserializeKeyEntry (data : Buffer) : Except StorageError JsValue :=
  match JSON.parseWith reviver (Buffer.toString data) with
  | some entry => .ok entry
  | none => .error .invalidKeyEntry

/-- What the promise of an adapter call settles to, passed on. -/
def settle {α : Type} (result : Except AdapterError α) : Outcome α :=
  match result with
  | .ok value => .resolved value
  | .error e => .rejected (.adapter e)

/-- `exists(name)`. -/
def «exists» {σ : Type} (adapter : IStorageAdapter σ) (state : σ) (name : String) :
    σ × Outcome Bool :=
  match validateName name with
  | .error e => (state, .threw e)
  | .ok _ => ((adapter.«exists» state name).1, settle (adapter.«exists» state name).2)

/-- `load(name)`: `null` when the adapter holds nothing under the name. -/
def load {σ : Type} (adapter : IStorageAdapter σ) (state : σ) (name : String) :
    σ × Outcome (Option JsValue) :=
  match validateName name with
  | .error e => (state, .threw e)
  | .ok _ =>
    ((adapter.load state name).1,
      match (adapter.load state name).2 with
      | .error e => .rejected (.adapter e)
      | .ok none => .resolved none
      | .ok (some data) =>
        match deserializeKeyEntry data with
        | .error e => .rejected e
        | .ok entry => .resolved (some entry))

/-- `remove(name)`. -/
def remove {σ : Type} (adapter : IStorageAdapter σ) (state : σ) (name : String) :
    σ × Outcome Bool :=
  match validateName name with
  | .error e => (state, .threw e)
  | .ok _ => ((adapter.remove state name).1, settle (adapter.remove state name).2)

/-- `save(params)`; `creationDate` and `modificationDate` are the time values
of the two `new Date()` of the call. -/
def save {σ : Type} (adapter : IStorageAdapter σ) (state : σ) (params : ISaveKeyEntryParams)
    (creationDate modificationDate : Int) : σ × Outcome (JsObject JsValue) :=
  match validateNameProperty params.name with
  | .error e => (state, .threw e)
  | .ok _ =>
    match validateValueProperty params.value with
    | .error e => (state, .threw e)
    | .ok _ =>
      let keyEntry : JsObject JsValue :=
        [("name", .string params.name),
          ("value", match params.value with
            | some bytes => .buffer bytes
            | none => .undefined),
          ("meta", metaValue params.meta), ("creationDate", .date (some creationDate)),
          ("modificationDate", .date (some modificationDate))]
      match serializeKeyEntry keyEntry with
      | .error e => (state, .threw e)
      | .ok data =>
        ((adapter.store state params.name data).1,
          match (adapter.store state params.name data).2 with
          | .ok _ => .resolved keyEntry
          | .error error =>
            if error.name = "StorageEntryAlreadyExistsError" then
              .rejected (.keyEntryAlreadyExists params.name)
            else .rejected (.adapter error))

/-- `list()`: the entries of the adapter, each deserialized. -/
def list {σ : Type} (adapter : IStorageAdapter σ) (state : σ) : σ × Outcome (List JsValue) :=
  ((adapter.list state).1,
    match (adapter.list state).2 with
    | .error e => .rejected (.adapter e)
    | .ok entries =>
      match entries.mapM deserializeKeyEntry with
      | .error e => .rejected e
      | .ok entries => .resolved entries)

/-- The `TypeError` of `update` when it is given neither `value` nor `meta`. -/
def valueOrMetaRequired : StorageError :=
  .typeError "Invalid argument. Either `value` or `meta` property is required."

/-- The `TypeError` of the update of an entry that is `null`: the first of
`entry.value` and `entry.meta` that is read, or else `Object.assign`, throws. -/
def propertyOfNull (params : IUpdateKeyEntryParams) : StorageError :=
  if params.value.isSome = false then .typeError "Cannot read property 'value' of null"
  else if params.meta.isSome = false then .typeError "Cannot read property 'meta' of null"
  else .typeError "Cannot convert undefined or null to object"

/-- The own enumerable properties of the object `Object.assign` works on
(`ToObject`): `none` for `null` and `undefined`, the indexed elements of an
array, a text or a `Buffer`, nothing for a number or a boolean. -/
def ownProperties : JsValue → Option (JsObject JsValue)
  | .undefined => none
  | .null => none
  | .object properties => some properties
  | .array items => some (items.enum.map (fun p => (String.mk (decimalDigits p.1), p.2)))
  | .string text =>
    some (text.data.enum.map (fun p => (String.mk (decimalDigits p.1), .string (String.mk [p.2]))))
  | .buffer bytes =>
    some (bytes.enum.map (fun p => (String.mk (decimalDigits p.1), .number (p.2.val : Int) 0)))
  | _ => some []

/-- `Object.assign(entry, { value: value || entry.value, meta: meta || entry.meta,
modificationDate: new Date() })`, on the properties of `entry`. -/
def assignUpdate (entry : JsObject JsValue) (params : IUpdateKeyEntryParams) (now : Int) :
    JsObject JsValue :=
  let value : JsValue := match params.value with
    | some bytes => .buffer bytes
    | none => (JsObject.get entry "value").getD .undefined
  let meta : JsValue := match params.meta with
    | some fields => metaValue (some fields)
    | none => (JsObject.get entry "meta").getD .undefined
  JsObject.set (JsObject.set (JsObject.set entry "value" value) "meta" meta)
    "modificationDate" (.date (some now))

/-- `update(params)`; `now` is the time value of the `new Date()` of the call. -/
def update {σ : Type} (adapter : IStorageAdapter σ) (state : σ)
    (params : IUpdateKeyEntryParams) (now : Int) : σ × Outcome (JsObject JsValue) :=
  match validateNameProperty params.name with
  | .error e => (state, .threw e)
  | .ok _ =>
    if params.value.isSome = false ∧ params.meta.isSome = false then
      (state, .threw valueOrMetaRequired)
    else
      match (adapter.load state params.name).2 with
      | .error e => ((adapter.load state params.name).1, .rejected (.adapter e))
      | .ok none =>
        ((adapter.load state params.name).1, .rejected (.keyEntryDoesNotExist params.name))
      | .ok (some data) =>
        match deserializeKeyEntry data with
        | .error e => ((adapter.load state params.name).1, .rejected e)
        | .ok entry =>
          match ownProperties entry with
          | none => ((adapter.load state params.name).1, .rejected (propertyOfNull params))
          | some properties =>
            match serializeKeyEntry (assignUpdate properties params now) with
            | .error e => ((adapter.load state params.name).1, .rejected e)
            | .ok updated =>
              ((adapter.update (adapter.load state params.name).1 params.name updated).1,
                match (adapter.update (adapter.load state params.name).1 params.name
                  updated).2 with
                | .ok _ => .resolved (assignUpdate properties params now)
                | .error e => .rejected (.adapter e))

end KeyEntryStorage

/-! ## Concrete data used to evaluate the definitions -/

namespace Example

/-- The `TypeError` of `verify` in `src/crypto/virgil-crypto.js` for a
signature that is not a `Buffer`. -/
def signatureMustBeBuffer : JsError :=
  .typeError "Cannot verify the signature. Argument \"signature\" must be a Buffer."

/-- A toy provider over `Buffer` keys: the fingerprint is the data itself, a
signature is the key followed by the data, and the empty key is rejected; a
signature that is not a `Buffer` makes `verify` throw. -/
def toyCrypto : VirgilCrypto Buffer Buffer where
  calculateFingerprint := fun data => data
  importPublicKey := fun raw =>
    if raw = [] then .error (.error "invalid public key") else .ok raw
  verify := fun data signature publicKey =>
    match signature with
    | .buffer bytes => .ok (decide (bytes = publicKey ++ data))
    | .inherited _ => .error signatureMustBeBuffer
  sign := fun data privateKey =>
    if privateKey = [] then .error (.error "invalid private key") else .ok (privateKey ++ data)

/-- A provider whose `verify` always answers `false`. -/
def refusingCrypto : VirgilCrypto Buffer Buffer where
  calculateFingerprint := fun data => data
  importPublicKey := fun raw => .ok raw
  verify := fun _ _ _ => .ok false
  sign := fun data _ => .ok data

/-- A provider like `toyCrypto` whose `verify` answers `true` whatever it is
handed. -/
def lenientCrypto : VirgilCrypto Buffer Buffer where
  calculateFingerprint := fun data => data
  importPublicKey := fun raw =>
    if raw = [] then .error (.error "invalid public key") else .ok raw
  verify := fun _ _ _ => .ok true
  sign := fun data privateKey =>
    if privateKey = [] then .error (.error "invalid private key") else .ok (privateKey ++ data)

/-- A validator state with one configured verifier, `"svc"` with key `07`. -/
def toyVerifiers : CardValidator.Verifiers Buffer := [("svc", [7])]

/-- A card signed by its owner (key `05`) and by `"svc"`. -/
def signedCard : CardModel :=
  { id := "ab", snapshot := [0xab], publicKey := [5], version := "4.0",
    signatures := some [("ab", [5, 0xab]), ("svc", [7, 0xab])] }

/-- The signed card with a public key the provider cannot import. -/
def cardWithBadKey : CardModel :=
  { signedCard with publicKey := [] }

/-- A card with the owner's signature only and a key that cannot be imported. -/
def ownerOnlyCardWithBadKey : CardModel :=
  { signedCard with publicKey := [], signatures := some [("ab", [5, 0xab])] }

/-- A card with the owner's signature only. -/
def ownerOnlyCard : CardModel :=
  { signedCard with signatures := some [("ab", [5, 0xab])] }

/-- A card signed by `"svc"` only. -/
def serviceOnlyCard : CardModel :=
  { signedCard with signatures := some [("svc", [7, 0xab])] }

/-- A legacy card with nothing to check against. -/
def legacyCard : CardModel :=
  { id := "", snapshot := [1, 2], publicKey := [], version := "3.0", signatures := none }

/-- A toy signing provider: the signature of a payload under key `k` is `k`
followed by the octets of the payload; key `0` is rejected. -/
def toySigner : ICardCrypto Nat where
  generateSignature := fun payload key =>
    if key = 0 then .error (.error "invalid private key")
    else .ok (byte key :: payload.octets)

/-- An envelope with content `abc` and no signature yet. -/
def emptyEnvelope : RawSignedModel :=
  { contentSnapshot := Buffer.fromUtf8 "abc", signatures := some [] }

/-- An envelope already signed under `"self"`. -/
def selfSignedEnvelope : RawSignedModel :=
  { contentSnapshot := Buffer.fromUtf8 "abc",
    signatures := some [{ signer := "self", signature := "AQ==", snapshot := none }] }

/-- An envelope without a signatures array. -/
def envelopeWithoutSignatures : RawSignedModel :=
  { contentSnapshot := Buffer.fromUtf8 "abc", signatures := none }

/-- A request to sign the empty envelope under the empty role. -/
def emptyRoleRequest : IRawSignParams Nat :=
  { model := some emptyEnvelope, signerPrivateKey := some 5, extraFields := none,
    signer := some "" }

/-- A request to sign, under the empty role, an envelope signed under `"self"`. -/
def emptyRoleSecondRequest : IRawSignParams Nat :=
  { model := some selfSignedEnvelope, signerPrivateKey := some 5, extraFields := none,
    signer := some "" }

/-- A request to sign the empty envelope under `"svc"` with extra fields. -/
def serviceRequest : IRawSignParams Nat :=
  { model := some emptyEnvelope, signerPrivateKey := some 5,
    extraFields := some [("k", "v")], signer := some "svc" }

/-- The same request with a key the provider rejects. -/
def rejectedKeyRequest : IRawSignParams Nat :=
  { model := some emptyEnvelope, signerPrivateKey := some 0,
    extraFields := some [("k", "v")], signer := some "svc" }

/-- A request without a private key. -/
def missingKeyRequest : IRawSignParams Nat :=
  { model := some emptyEnvelope, signerPrivateKey := none, extraFields := none,
    signer := some "svc" }

/-- A request without an envelope. -/
def missingModelRequest : IRawSignParams Nat :=
  { model := none, signerPrivateKey := none, extraFields := none, signer := none }

/-- A request to sign an envelope that has no signatures array. -/
def noArrayRequest : IRawSignParams Nat :=
  { model := some envelopeWithoutSignatures, signerPrivateKey := some 5,
    extraFields := none, signer := none }

/-- The empty envelope after `serviceRequest` was signed by `toySigner`. -/
def signedOnce : RawSignedModel :=
  { contentSnapshot := Buffer.fromUtf8 "abc",
    signatures := some [
      { signer := "svc",
        signature := Buffer.toBase64 (byte 5 :: Buffer.fromUtf8 "abc\x7b\"k\":\"v\"\x7d"),
        snapshot := some (Buffer.fromUtf8 "\x7b\"k\":\"v\"\x7d") }] }

/-- Four calls on one envelope: under `"svc"`, with the role omitted, under
`"self"`, and under `"svc"` again with a key the provider rejects. -/
def fourCalls : List (ModelSigner.SignCall Nat) :=
  [ { crypto := toySigner, signerPrivateKey := some 5, extraFields := none,
      signer := some "svc" },
    { crypto := toySigner, signerPrivateKey := some 6, extraFields := none, signer := none },
    { crypto := toySigner, signerPrivateKey := some 7, extraFields := none,
      signer := some "self" },
    { crypto := toySigner, signerPrivateKey := some 0, extraFields := none,
      signer := some "svc" } ]

/-- A request to sign, under `"svc"`, an envelope signed under `"self"`. -/
def countersignRequest : IRawSignParams Nat :=
  { model := some selfSignedEnvelope, signerPrivateKey := some 5, extraFields := none,
    signer := some "svc" }

/-- A request to sign the empty envelope with the role omitted. -/
def omittedRoleRequest : IRawSignParams Nat :=
  { model := some emptyEnvelope, signerPrivateKey := some 5, extraFields := none,
    signer := none }

/-- The empty envelope after `omittedRoleRequest` was signed by `toySigner`. -/
def signedBySelf : RawSignedModel :=
  { contentSnapshot := Buffer.fromUtf8 "abc",
    signatures := some [
      { signer := "self", signature := Buffer.toBase64 (byte 5 :: Buffer.fromUtf8 "abc"),
        snapshot := none }] }

/-- A fresh request for the snapshot `ab`. -/
def freshRequest : RecordedRequest :=
  { snapshot := [0xab], signatures := [] }

/-- A provider whose fingerprint is a one-octet digest, the length of the
data; signatures are as in `toyCrypto`: the key followed by the signed data. -/
def digestCrypto : VirgilCrypto Buffer Buffer where
  calculateFingerprint := fun data => [byte data.length]
  importPublicKey := fun raw =>
    if raw = [] then .error (.error "invalid public key") else .ok raw
  verify := fun data signature publicKey =>
    match signature with
    | .buffer bytes => .ok (decide (bytes = publicKey ++ data))
    | .inherited _ => .error signatureMustBeBuffer
  sign := fun data privateKey =>
    if privateKey = [] then .error (.error "invalid private key") else .ok (privateKey ++ data)

/-- A provider like `toyCrypto` whose `verify` throws on an empty signature. -/
def strictCrypto : VirgilCrypto Buffer Buffer where
  calculateFingerprint := fun data => data
  importPublicKey := fun raw =>
    if raw = [] then .error (.error "invalid public key") else .ok raw
  verify := fun data signature publicKey =>
    match signature with
    | .buffer bytes =>
      if bytes = [] then .error (.error "malformed signature")
      else .ok (decide (bytes = publicKey ++ data))
    | .inherited _ => .error signatureMustBeBuffer
  sign := fun data privateKey =>
    if privateKey = [] then .error (.error "invalid private key") else .ok (privateKey ++ data)

/-- The signed card with an id that is not the hex text of its fingerprint. -/
def mismatchedCard : CardModel :=
  { signedCard with id := "cd" }

/-- A request to sign the envelope `abc` under `"svc"` with the key `05`, for a
provider with `Buffer` keys. -/
def bufferKeyRequest : IRawSignParams Buffer :=
  { model := some emptyEnvelope, signerPrivateKey := some [5], extraFields := none,
    signer := some "svc" }

/-- The decoded service public key, a PEM text. -/
def servicePem : Buffer :=
  Buffer.fromUtf8
    ("-----BEGIN PUBLIC KEY-----\n" ++
     "MCowBQYDK2VwAyEAYR501kV1tUne2uOdkw4kErRRbJrc2Syaz5V1fuG+rVs=\n" ++
     "-----END PUBLIC KEY-----\n")

/-- The verifiers of a validator freshly made for `toyCrypto`: the service
card id with the decoded service key. -/
def defaultVerifiers : CardValidator.Verifiers Buffer :=
  [(CardValidator.SERVICE_CARD_ID, servicePem)]

/-- The verifiers of a fresh validator after `"toString"` was added with the
key `07`. -/
def defaultThenToString : CardValidator.Verifiers Buffer :=
  [(CardValidator.SERVICE_CARD_ID, servicePem), ("toString", [7])]

/-- A card signed by its owner (key `05`) and by the service. -/
def cardSignedByOwnerAndService : CardModel :=
  { id := "ab", snapshot := [0xab], publicKey := [5], version := "4.0",
    signatures := some [("ab", [5, 0xab]),
      (CardValidator.SERVICE_CARD_ID, servicePem ++ [0xab])] }

/-- That card without its `signatures` property. -/
def unsignedCard : CardModel :=
  { cardSignedByOwnerAndService with signatures := none }

/-- That card with a public key the provider cannot import. -/
def cardWithRejectedKey : CardModel :=
  { cardSignedByOwnerAndService with publicKey := [] }

/-- That card without the owner's signature. -/
def cardSignedByServiceOnly : CardModel :=
  { cardSignedByOwnerAndService with
    signatures := some [(CardValidator.SERVICE_CARD_ID, servicePem ++ [0xab])] }

/-- That card with an empty buffer as the owner's signature. -/
def cardWithEmptySignature : CardModel :=
  { cardSignedByOwnerAndService with
    signatures := some [("ab", []), (CardValidator.SERVICE_CARD_ID, servicePem ++ [0xab])] }

/-- The verifiers of a fresh validator after `"a"`, then `"b"` were added. -/
def defaultThenAB : CardValidator.Verifiers Buffer :=
  [(CardValidator.SERVICE_CARD_ID, servicePem), ("a", [1]), ("b", [2])]

/-- The verifiers of a fresh validator after `"b"`, then `"a"` were added. -/
def defaultThenBA : CardValidator.Verifiers Buffer :=
  [(CardValidator.SERVICE_CARD_ID, servicePem), ("b", [2]), ("a", [1])]

/-- A card signed by its owner and by the service, with an empty buffer as the
signature of `"b"` and no signature of `"a"`. -/
def cardSignedByService : CardModel :=
  { signedCard with
    signatures := some [("ab", [5, 0xab]),
      (CardValidator.SERVICE_CARD_ID, servicePem ++ [0xab]), ("b", [])] }

/-- A card signed by its owner, by the service, by `"a"` and by `"b"`. -/
def cardSignedByAll : CardModel :=
  { signedCard with
    signatures := some [("ab", [5, 0xab]),
      (CardValidator.SERVICE_CARD_ID, servicePem ++ [0xab]), ("a", [1, 0xab]),
      ("b", [2, 0xab])] }

/-- The same card with its signature entries in another order. -/
def cardSignedByAllReordered : CardModel :=
  { signedCard with
    signatures := some [("b", [2, 0xab]), ("a", [1, 0xab]),
      (CardValidator.SERVICE_CARD_ID, servicePem ++ [0xab]), ("ab", [5, 0xab])] }

/-- The signed card with a further signature, by `"b"` (key `02`). -/
def cardSignedByThree : CardModel :=
  { signedCard with
    signatures := some [("ab", [5, 0xab]), ("svc", [7, 0xab]), ("b", [2, 0xab])] }

/-- The signed card with a further entry under an id no validator here
configures. -/
def cardWithStraySignature : CardModel :=
  { signedCard with
    signatures := some [("stray", [9]), ("ab", [5, 0xab]), ("svc", [7, 0xab])] }

/-- The octets `ff 61`: not well-formed UTF-8, the first octet is decoded as
U+FFFD. -/
def illFormedContent : Buffer := [0xff, 0x61]

/-- A request to sign, under `"svc"` with extra fields, an envelope whose
content snapshot is `ff 61`. -/
def illFormedRequest : IRawSignParams Nat :=
  { model := some { contentSnapshot := illFormedContent, signatures := some [] },
    signerPrivateKey := some 5, extraFields := some [("k", "v")], signer := some "svc" }

/-- The thirty-two octets whose hex text is the service card id. -/
def serviceIdOctets : Buffer :=
  [0x3e, 0x29, 0xd4, 0x33, 0x73, 0x34, 0x8c, 0xfb, 0x37, 0x3b, 0x7e, 0xae, 0x18, 0x92, 0x14,
    0xdc, 0x01, 0xd7, 0x23, 0x77, 0x65, 0xe5, 0x72, 0xdb, 0x68, 0x58, 0x39, 0xb6, 0x4a, 0xdc,
    0xa8, 0x53]

/-- The attributes of a card of `alice`: identity, public key `01 02` and a
creation date. -/
def aliceParams : ICardParams :=
  { identity := "alice", publicKey := [1, 2], previousCardId := none, extraFields := none,
    createdAt := some 1541412157123, version := none }

/-- The identity and public key of `alice`, the identity created first. -/
def aliceObject : JsObject JsValue :=
  [("identity", .string "alice"), ("publicKey", .buffer [1, 2])]

/-- The same two properties, the public key created first. -/
def aliceObjectReordered : JsObject JsValue :=
  [("publicKey", .buffer [1, 2]), ("identity", .string "alice")]

/-- A quotation mark, the octet `FF` and a quotation mark: not the UTF-8
encoding of any text. -/
def illFormedSnapshot : Buffer := [byte 0x22, byte 0xFF, byte 0x22]

/-- A store in memory: the data under each key, and the names of the adapter
methods called so far. -/
structure MemoryStore where
  data : JsObject Buffer
  calls : List String

/-- An adapter over a store in memory; `store` refuses a key that is taken. -/
def memoryAdapter : IStorageAdapter MemoryStore where
  store := fun s key data =>
    match JsObject.get s.data key with
    | some _ =>
      ({ s with calls := s.calls ++ ["store"] },
        .error { name := "StorageEntryAlreadyExistsError", message := "entry exists" })
    | none => ({ data := JsObject.set s.data key data, calls := s.calls ++ ["store"] }, .ok ())
  load := fun s key => ({ s with calls := s.calls ++ ["load"] }, .ok (JsObject.get s.data key))
  «exists» := fun s key =>
    ({ s with calls := s.calls ++ ["exists"] }, .ok (JsObject.get s.data key).isSome)
  remove := fun s key =>
    ({ data := s.data.filter (fun e => decide (e.1 ≠ key)), calls := s.calls ++ ["remove"] },
      .ok (JsObject.get s.data key).isSome)
  update := fun s key data =>
    ({ data := JsObject.set s.data key data, calls := s.calls ++ ["update"] }, .ok ())
  clear := fun s => ({ data := [], calls := s.calls ++ ["clear"] }, .ok ())
  list := fun s => ({ s with calls := s.calls ++ ["list"] }, .ok (s.data.map (fun e => e.2)))

/-- The empty store, no call made. -/
def emptyStore : MemoryStore := { data := [], calls := [] }

/-- The JSON text `save` stores for the entry `one` of the tests. -/
def oneText : String :=
  "\x7b\"name\":\"one\",\"meta\":\x7b\"meta\":\"data\"\x7d," ++
  "\"creationDate\":\"2018-11-05T10:02:37.123Z\"," ++
  "\"modificationDate\":\"2018-11-05T10:02:37.124Z\",\"value\":\"b25l\"\x7d"

/-- The store that holds the entry `one`, no call made. -/
def storeWithOne : MemoryStore := { data := [("one", Buffer.fromUtf8 oneText)], calls := [] }

/-- The entry `deserializeKeyEntry` makes of that text. -/
def storedOne : JsObject JsValue :=
  [("name", .string "one"), ("meta", .object [("meta", .string "data")]),
    ("creationDate", .date (some 1541412157123)),
    ("modificationDate", .date (some 1541412157124)),
    ("value", .buffer (Buffer.fromUtf8 "one"))]

/-- The JSON text `update` stores when it gives the entry `one` the value `two`. -/
def oneUpdatedText : String :=
  "\x7b\"name\":\"one\",\"meta\":\x7b\"meta\":\"data\"\x7d," ++
  "\"creationDate\":\"2018-11-05T10:02:37.123Z\"," ++
  "\"modificationDate\":\"2018-11-05T10:02:40.000Z\",\"value\":\"dHdv\"\x7d"

/-- A key entry whose `meta` has keys named `value` and `creationDate`. -/
def entryWithReservedMeta : IKeyEntry :=
  { name := "one", value := Buffer.fromUtf8 "one",
    meta := some [("value", "abc"), ("creationDate", "hello")],
    creationDate := 1541412157123, modificationDate := 1541412157124 }

/-- The JSON text `serializeKeyEntry` makes of that entry. -/
def reservedMetaText : String :=
  "\x7b\"name\":\"one\",\"meta\":\x7b\"value\":\"abc\",\"creationDate\":\"hello\"\x7d," ++
  "\"creationDate\":\"2018-11-05T10:02:37.123Z\"," ++
  "\"modificationDate\":\"2018-11-05T10:02:37.124Z\",\"value\":\"b25l\"\x7d"

end Example

/-! ## General lemmas -/

theorem hexDigit_injective : ∀ n m : Fin 16, hexDigit n.val = hexDigit m.val → n = m := by
  decide

theorem hexByte_injective (a b : Byte) (h : hexByte a = hexByte b) : a = b := by
  simp only [hexByte, List.cons.injEq, and_true] at h
  have hq : a.val / 16 = b.val / 16 := by
    have := hexDigit_injective ⟨a.val / 16, by omega⟩ ⟨b.val / 16, by omega⟩ h.1
    simpa using congrArg Fin.val this
  have hr : a.val % 16 = b.val % 16 := by
    have := hexDigit_injective ⟨a.val % 16, by omega⟩ ⟨b.val % 16, by omega⟩ h.2
    simpa using congrArg Fin.val this
  apply Fin.ext
  omega

theorem flatMap_hexByte_injective :
    ∀ a b : Buffer, a.flatMap hexByte = b.flatMap hexByte → a = b
  | [], [], _ => rfl
  | [], y :: ys, h => by simp [List.flatMap_cons, hexByte] at h
  | x :: xs, [], h => by simp [List.flatMap_cons, hexByte] at h
  | x :: xs, y :: ys, h => by
    simp only [List.flatMap_cons, hexByte, List.cons_append, List.nil_append,
      List.cons.injEq] at h
    have hxy : x = y := hexByte_injective x y (by simp [hexByte, h.1, h.2.1])
    rw [hxy, flatMap_hexByte_injective xs ys h.2.2]

/-- Distinct buffers have distinct hexadecimal texts. -/
theorem Buffer.toHex_injective (a b : Buffer) (h : Buffer.toHex a = Buffer.toHex b) : a = b := by
  unfold Buffer.toHex at h
  exact flatMap_hexByte_injective a b (congrArg String.data h)

theorem every_eq_true_iff {α : Type} (f : α → Except JsError Bool) (l : List α) :
    every f l = .ok true ↔ ∀ a ∈ l, f a = .ok true := by
  induction l with
  | nil => simp [every]
  | cons a rest ih =>
    simp only [every, List.mem_cons, forall_eq_or_imp]
    cases hfa : f a with
    | error e => simp
    | ok b => cases b <;> simp [ih]

theorem JsObject.mem_entries {α : Type} (obj : JsObject α) (e : String × α) :
    e ∈ JsObject.entries obj ↔ e ∈ obj := by
  unfold JsObject.entries
  simp only [List.mem_append, List.mem_map, List.mem_insertionSort, List.mem_filterMap,
    List.mem_filter, Option.map_eq_some']
  constructor
  · rintro (⟨p, ⟨x, hx, n, _, hp⟩, rfl⟩ | ⟨h, _⟩)
    · subst hp; exact hx
    · exact h
  · intro h
    cases hi : arrayIndex? e.1 with
    | none => exact Or.inr ⟨h, by simp [hi]⟩
    | some n => exact Or.inl ⟨(n, e), ⟨e, h, n, hi, rfl⟩, rfl⟩

theorem hexDigit_mem : ∀ n : Fin 16, hexDigit n.val ∈ "0123456789abcdef".data := by
  decide

theorem hexByte_chars (b : Byte) : ∀ c ∈ hexByte b, c ∈ "0123456789abcdef".data := by
  intro c hc
  simp only [hexByte, List.mem_cons, List.mem_singleton, List.not_mem_nil, or_false] at hc
  rcases hc with h | h
  · rw [h]
    exact hexDigit_mem ⟨b.val / 16, by omega⟩
  · rw [h]
    exact hexDigit_mem ⟨b.val % 16, by omega⟩

/-- A hexadecimal text is made of hexadecimal digits. -/
theorem Buffer.toHex_chars (b : Buffer) :
    ∀ c ∈ (Buffer.toHex b).data, c ∈ "0123456789abcdef".data := by
  intro c hc
  simp only [Buffer.toHex, List.mem_flatMap] at hc
  obtain ⟨x, _, hx⟩ := hc
  exact hexByte_chars x c hx

/-- No hexadecimal text is the name of a member of `Object.prototype`. -/
theorem Buffer.toHex_not_inherited (b : Buffer) : Buffer.toHex b ∉ objectPrototypeNames := by
  intro h
  have hnames : ∀ name ∈ objectPrototypeNames,
      ∃ c ∈ name.data, c ∉ "0123456789abcdef".data := by
    decide
  obtain ⟨c, hc, hnot⟩ := hnames _ h
  exact hnot (Buffer.toHex_chars b c hc)

end Virgil



namespace Virgil.CardValidator

variable {PublicKey PrivateKey : Type}

/-- A property of its own is what the read of `card.signatures` gives. -/
theorem readSignature_of_get (card : CardModel) (signatures : JsObject Buffer)
    (signerId : String) (sign : Buffer) (hs : card.signatures = some signatures)
    (hg : JsObject.get signatures signerId = some sign) :
    readSignature card signerId = .ok (some (.buffer sign)) := by
  simp [readSignature, hs, hg]

/-- Under an id that `Object.prototype` has no member for, the read gives the
property of its own or `undefined`. -/
theorem readSignature_of_not_inherited (card : CardModel) (signatures : JsObject Buffer)
    (signerId : String) (hs : card.signatures = some signatures)
    (hn : signerId ∉ objectPrototypeNames) :
    readSignature card signerId
      = .ok ((JsObject.get signatures signerId).map SignatureValue.buffer) := by
  cases hg : JsObject.get signatures signerId with
  | none => simp [readSignature, hs, hg, hn]
  | some sign => simp [readSignature, hs, hg]

theorem verifyOwnSignature_of_owner_check (crypto : VirgilCrypto PublicKey PrivateKey)
    (card : CardModel) (h : OwnerSignatureVerifies crypto card) :
    verifyOwnSignature crypto (crypto.calculateFingerprint card.snapshot) card = .ok true := by
  obtain ⟨signatures, sign, publicKey, hs, hg, hk, hverify⟩ := h
  simp [verifyOwnSignature, readSignature_of_get card signatures card.id sign hs hg, hk, hverify]

theorem verifyOwnSignature_eq_true_iff (crypto : VirgilCrypto PublicKey PrivateKey)
    (card : CardModel) (hn : card.id ∉ objectPrototypeNames) :
    verifyOwnSignature crypto (crypto.calculateFingerprint card.snapshot) card = .ok true ↔
      OwnerSignatureVerifies crypto card := by
  refine ⟨fun h => ?_, verifyOwnSignature_of_owner_check crypto card⟩
  unfold verifyOwnSignature at h
  cases hs : card.signatures with
  | none => simp [readSignature, hs] at h
  | some signatures =>
    rw [readSignature_of_not_inherited card signatures card.id hs hn] at h
    cases hg : JsObject.get signatures card.id with
    | none => simp [hg] at h
    | some sign =>
      cases hk : crypto.importPublicKey card.publicKey with
      | error e => simp [hg, hk] at h
      | ok publicKey =>
        simp only [hg, hk, Option.map_some'] at h
        exact ⟨signatures, sign, publicKey, hs, hg, hk, h⟩

theorem verifySigner_of_signer_check (crypto : VirgilCrypto PublicKey PrivateKey)
    (card : CardModel) (verifier : String × PublicKey)
    (h : SignerSignatureVerifies crypto card verifier.1 verifier.2) :
    verifySigner crypto (crypto.calculateFingerprint card.snapshot) card verifier = .ok true := by
  obtain ⟨signatures, sign, hs, hg, hverify⟩ := h
  simp [verifySigner, readSignature_of_get card signatures verifier.1 sign hs hg, hverify]

theorem verifySigner_eq_true_iff (crypto : VirgilCrypto PublicKey PrivateKey)
    (card : CardModel) (verifier : String × PublicKey)
    (hn : verifier.1 ∉ objectPrototypeNames) :
    verifySigner crypto (crypto.calculateFingerprint card.snapshot) card verifier = .ok true ↔
      SignerSignatureVerifies crypto card verifier.1 verifier.2 := by
  refine ⟨fun h => ?_, verifySigner_of_signer_check crypto card verifier⟩
  unfold verifySigner at h
  cases hs : card.signatures with
  | none => simp [readSignature, hs] at h
  | some signatures =>
    rw [readSignature_of_not_inherited card signatures verifier.1 hs hn] at h
    cases hg : JsObject.get signatures verifier.1 with
    | none => simp [hg] at h
    | some sign =>
      simp only [hg, Option.map_some'] at h
      exact ⟨signatures, sign, hs, hg, h⟩

theorem validate_of_canValidate (crypto : VirgilCrypto PublicKey PrivateKey)
    (verifiers : Verifiers PublicKey) (card : CardModel) (hv : card.version ≠ "3.0") :
    validate crypto verifiers card =
      if card.id = Buffer.toHex (crypto.calculateFingerprint card.snapshot) then
        match verifyOwnSignature crypto (crypto.calculateFingerprint card.snapshot) card with
        | .error e => .error e
        | .ok false => .ok false
        | .ok true =>
          verifySignatures crypto verifiers (crypto.calculateFingerprint card.snapshot) card
      else .ok false := by
  unfold validate
  simp only [canValidate, verifyFingerprint, hv, ne_eq, not_false_eq_true, decide_True,
    Bool.true_eq_false, if_false, decide_eq_false_iff_not]
  by_cases h : card.id = Buffer.toHex (crypto.calculateFingerprint card.snapshot)
  · simp [h]
  · simp [h]

/-- The verdict `true`, check by check: the fingerprint check, the owner's
check and the check of every configured verifier answered `true`. -/
theorem validate_eq_true_iff_checks (crypto : VirgilCrypto PublicKey PrivateKey)
    (verifiers : Verifiers PublicKey) (card : CardModel) (hv : card.version ≠ "3.0") :
    validate crypto verifiers card = .ok true ↔
      card.id = Buffer.toHex (crypto.calculateFingerprint card.snapshot) ∧
      verifyOwnSignature crypto (crypto.calculateFingerprint card.snapshot) card = .ok true ∧
      ∀ verifier ∈ verifiers,
        verifySigner crypto (crypto.calculateFingerprint card.snapshot) card verifier
          = .ok true := by
  rw [validate_of_canValidate crypto verifiers card hv]
  have hall : verifySignatures crypto verifiers (crypto.calculateFingerprint card.snapshot) card
      = .ok true ↔ ∀ verifier ∈ verifiers,
        verifySigner crypto (crypto.calculateFingerprint card.snapshot) card verifier
          = .ok true := by
    unfold verifySignatures
    rw [every_eq_true_iff]
    exact ⟨fun h verifier hmem => h verifier ((JsObject.mem_entries verifiers verifier).2 hmem),
      fun h verifier hmem => h verifier ((JsObject.mem_entries verifiers verifier).1 hmem)⟩
  rw [← hall]
  by_cases h : card.id = Buffer.toHex (crypto.calculateFingerprint card.snapshot)
  · simp only [h, if_true, true_and]
    cases ho : verifyOwnSignature crypto (crypto.calculateFingerprint card.snapshot) card with
    | error e => simp
    | ok b => cases b <;> simp
  · simp [h]

/-- A card that passes the three checks, as the specification words them, is
judged valid. -/
theorem validate_of_allChecksHold (crypto : VirgilCrypto PublicKey PrivateKey)
    (verifiers : Verifiers PublicKey) (card : CardModel) (hv : card.version ≠ "3.0")
    (h : AllChecksHold crypto verifiers card) : validate crypto verifiers card = .ok true := by
  rw [validate_eq_true_iff_checks crypto verifiers card hv]
  exact ⟨h.1, verifyOwnSignature_of_owner_check crypto card h.2.1, fun verifier hmem =>
    verifySigner_of_signer_check crypto card verifier (h.2.2 verifier.1 verifier.2 hmem)⟩

/-- When no configured signer id is the name of a member of `Object.prototype`,
a card judged valid passes the three checks, as the specification words them. -/
theorem allChecksHold_of_validate (crypto : VirgilCrypto PublicKey PrivateKey)
    (verifiers : Verifiers PublicKey) (card : CardModel) (hv : card.version ≠ "3.0")
    (hn : ∀ signerId ∈ JsObject.keys verifiers, signerId ∉ objectPrototypeNames)
    (h : validate crypto verifiers card = .ok true) : AllChecksHold crypto verifiers card := by
  obtain ⟨hid, hown, hall⟩ := (validate_eq_true_iff_checks crypto verifiers card hv).1 h
  have hnid : card.id ∉ objectPrototypeNames := by
    rw [hid]
    exact Buffer.toHex_not_inherited _
  refine ⟨hid, (verifyOwnSignature_eq_true_iff crypto card hnid).1 hown, ?_⟩
  intro signerId key hmem
  exact (verifySigner_eq_true_iff crypto card (signerId, key)
    (hn signerId (List.mem_map.2 ⟨(signerId, key),
      (JsObject.mem_entries verifiers _).2 hmem, rfl⟩))).1 (hall (signerId, key) hmem)

theorem JsObject.get_set_self {α : Type} (obj : JsObject α) (key : String) (value : α) :
    JsObject.get (JsObject.set obj key value) key = some value := by
  induction obj with
  | nil => simp [JsObject.set, JsObject.get]
  | cons e rest ih =>
    obtain ⟨k, v⟩ := e
    by_cases h : k = key
    · simp [JsObject.set, JsObject.get, h]
    · simp [JsObject.set, JsObject.get, h, ih]

theorem JsObject.mem_of_get {α : Type} (obj : JsObject α) (key : String) (value : α)
    (h : JsObject.get obj key = some value) : (key, value) ∈ obj := by
  induction obj with
  | nil => simp [JsObject.get] at h
  | cons e rest ih =>
    obtain ⟨k, v⟩ := e
    by_cases hk : k = key
    · simp only [JsObject.get, hk, if_true, Option.some.injEq] at h
      simp [hk, h]
    · simp only [JsObject.get, hk, if_false] at h
      exact List.mem_cons_of_mem _ (ih h)

/-- The verifiers of a freshly made validator: the service card id alone, with
the imported, base64-decoded service public key. -/
theorem cardValidator_inv (base64Decode : String → Buffer)
    (crypto : VirgilCrypto PublicKey PrivateKey) (verifiers : Verifiers PublicKey)
    (h : cardValidator base64Decode crypto = .ok verifiers) :
    ∃ serviceKey,
      crypto.importPublicKey (base64Decode SERVICE_PUBLIC_KEY) = .ok serviceKey ∧
      verifiers = [(SERVICE_CARD_ID, serviceKey)] := by
  unfold cardValidator addVerifier at h
  simp only at h
  cases hk : crypto.importPublicKey (base64Decode SERVICE_PUBLIC_KEY) with
  | error e => simp [hk] at h
  | ok serviceKey =>
    simp only [hk, Except.ok.injEq] at h
    exact ⟨serviceKey, rfl, by rw [← h]; rfl⟩

/-! ## Card validator: the verdict of `validate` -/

set_option maxRecDepth 50000 in
/-- C1: the three checks fail, yet `validate` does not return `false`.  The
validator is freshly made.  On a card whose public key the provider cannot
import, `importPublicKey` throws out of `validate`; on a card without a
`signatures` property whose id matches, reading `card.signatures[card.id]`
throws.  And `validate` can return `true` while check (3) fails: once a
verifier is added under `toString`, the read `card.signatures['toString']`
finds the inherited method, which a provider that does not inspect its
argument verifies.  In general a non-legacy card that passes the three checks
is judged valid, and, when no configured signer id names a member of
`Object.prototype`, a card judged valid passes the three checks. -/
theorem validate_raises_instead_of_false :
    (cardValidator Buffer.fromBase64 Example.toyCrypto = .ok Example.defaultVerifiers ∧
      ¬ AllChecksHold Example.toyCrypto Example.defaultVerifiers Example.cardWithRejectedKey ∧
      validate Example.toyCrypto Example.defaultVerifiers Example.cardWithRejectedKey
        = .error (.error "invalid public key") ∧
      ¬ AllChecksHold Example.toyCrypto Example.defaultVerifiers Example.unsignedCard ∧
      validate Example.toyCrypto Example.defaultVerifiers Example.unsignedCard
        = .error signaturesUndefined) ∧
    ((cardValidator Buffer.fromBase64 Example.lenientCrypto).bind (fun fresh =>
        addVerifier Buffer.fromBase64 Example.lenientCrypto fresh "toString" (.buffer [7]))
        = .ok Example.defaultThenToString ∧
      ¬ AllChecksHold Example.lenientCrypto Example.defaultThenToString
        Example.cardSignedByOwnerAndService ∧
      validate Example.lenientCrypto Example.defaultThenToString
        Example.cardSignedByOwnerAndService = .ok true) ∧
    ∀ (PublicKey PrivateKey : Type) (crypto : VirgilCrypto PublicKey PrivateKey)
      (verifiers : Verifiers PublicKey) (card : CardModel), card.version ≠ "3.0" →
      (AllChecksHold crypto verifiers card → validate crypto verifiers card = .ok true) ∧
      ((∀ signerId ∈ JsObject.keys verifiers, signerId ∉ objectPrototypeNames) →
        validate crypto verifiers card = .ok true → AllChecksHold crypto verifiers card) := by
  refine ⟨⟨rfl, ?_, rfl, ?_, rfl⟩, ⟨rfl, ?_, rfl⟩, fun _ _ crypto verifiers card hv =>
    ⟨validate_of_allChecksHold crypto verifiers card hv,
      allChecksHold_of_validate crypto verifiers card hv⟩⟩
  · rintro ⟨_, ⟨_, _, publicKey, _, _, hk, _⟩, _⟩
    have himport : Example.toyCrypto.importPublicKey Example.cardWithRejectedKey.publicKey
        = .error (.error "invalid public key") := rfl
    rw [himport] at hk
    cases hk
  · rintro ⟨_, ⟨signatures, _, _, hs, _⟩, _⟩
    have hnone : Example.unsignedCard.signatures = none := rfl
    rw [hnone] at hs
    cases hs
  · rintro ⟨_, _, hall⟩
    obtain ⟨signatures, sign, hs, hg, _⟩ := hall "toString" [7] (by decide)
    have hsome : Example.cardSignedByOwnerAndService.signatures
        = some [("ab", [5, 0xab]), (SERVICE_CARD_ID, Example.servicePem ++ [0xab])] := rfl
    rw [hsome] at hs
    cases hs
    have hmiss : JsObject.get [("ab", ([5, 0xab] : Buffer)),
        (SERVICE_CARD_ID, Example.servicePem ++ [0xab])] "toString" = none := by decide
    rw [hmiss] at hg
    cases hg

/-- C2: tamper detection.  For every non-legacy card whose id differs from the
hex text of the fingerprint of its snapshot, `validate` returns `false`,
whatever signatures the card carries and whatever the provider answers; and a
card judged valid is judged invalid once its snapshot is replaced by bytes with
a different fingerprint. -/
theorem validate_rejects_fingerprint_mismatch (crypto : VirgilCrypto PublicKey PrivateKey)
    (verifiers : Verifiers PublicKey) (card : CardModel) (hv : card.version ≠ "3.0") :
    (card.id ≠ Buffer.toHex (crypto.calculateFingerprint card.snapshot) →
      validate crypto verifiers card = .ok false) ∧
    (∀ tampered : Buffer, validate crypto verifiers card = .ok true →
      crypto.calculateFingerprint tampered ≠ crypto.calculateFingerprint card.snapshot →
      validate crypto verifiers { card with snapshot := tampered } = .ok false) := by
  refine ⟨fun hne => ?_, fun tampered hvalid hfp => ?_⟩
  · rw [validate_of_canValidate crypto verifiers card hv]
    simp [hne]
  · have hid : card.id = Buffer.toHex (crypto.calculateFingerprint card.snapshot) :=
      ((validate_eq_true_iff_checks crypto verifiers card hv).1 hvalid).1
    rw [validate_of_canValidate crypto verifiers { card with snapshot := tampered } hv]
    have hne : card.id ≠ Buffer.toHex (crypto.calculateFingerprint tampered) := by
      intro h
      exact hfp (Buffer.toHex_injective _ _ (h.symm.trans hid))
    simp [hne]

/-- C2, witness: the signed card is valid; with the snapshot byte `ab` replaced
by `ac` it is rejected. -/
theorem validate_rejects_fingerprint_mismatch_witness :
    Example.signedCard.version ≠ "3.0" ∧
    validate Example.toyCrypto Example.toyVerifiers Example.signedCard = .ok true ∧
    validate Example.toyCrypto Example.toyVerifiers
      { Example.signedCard with snapshot := [0xac] } = .ok false :=
  ⟨by decide, rfl,
    (validate_rejects_fingerprint_mismatch Example.toyCrypto Example.toyVerifiers
      Example.signedCard (by decide)).2 [0xac] rfl (by decide)⟩

set_option maxRecDepth 50000 in
/-- C3: a card without a `signatures` property has no entry under its own id,
its id is the hex text of the fingerprint of its snapshot, and the freshly
made validator throws a `TypeError` on it instead of judging it invalid:
`verifyOwnSignature` reads `card.signatures[card.id]` unguarded; so does every
validator on every non-legacy card without the property whose id matches.  For
every non-legacy card that does carry a signatures collection, with no entry
under the card's own id, `validate` returns `false`, whatever else the card
carries and whatever the provider answers; so it does for the card that carries
the service's signature only. -/
theorem validate_raises_on_absent_signatures :
    (cardValidator Buffer.fromBase64 Example.toyCrypto = .ok Example.defaultVerifiers ∧
      Example.unsignedCard.version ≠ "3.0" ∧
      Example.unsignedCard.signatures = none ∧
      FingerprintMatches Example.toyCrypto Example.unsignedCard ∧
      validate Example.toyCrypto Example.defaultVerifiers Example.unsignedCard
        = .error signaturesUndefined) ∧
    (Example.cardSignedByServiceOnly.signatures
        = some [(SERVICE_CARD_ID, Example.servicePem ++ [0xab])] ∧
      JsObject.get [(SERVICE_CARD_ID, Example.servicePem ++ [0xab])]
        Example.cardSignedByServiceOnly.id = none ∧
      verifySignatures Example.toyCrypto Example.defaultVerifiers
        (Example.toyCrypto.calculateFingerprint Example.cardSignedByServiceOnly.snapshot)
        Example.cardSignedByServiceOnly = .ok true ∧
      validate Example.toyCrypto Example.defaultVerifiers Example.cardSignedByServiceOnly
        = .ok false) ∧
    (∀ (PublicKey PrivateKey : Type) (crypto : VirgilCrypto PublicKey PrivateKey)
      (verifiers : Verifiers PublicKey) (card : CardModel),
      card.version ≠ "3.0" → card.signatures = none → FingerprintMatches crypto card →
      validate crypto verifiers card = .error signaturesUndefined) ∧
    ∀ (PublicKey PrivateKey : Type) (crypto : VirgilCrypto PublicKey PrivateKey)
      (verifiers : Verifiers PublicKey) (card : CardModel) (signatures : JsObject Buffer),
      card.version ≠ "3.0" → card.signatures = some signatures →
      JsObject.get signatures card.id = none →
      validate crypto verifiers card = .ok false := by
  refine ⟨⟨rfl, by decide, rfl, ?_, rfl⟩, ⟨rfl, by decide, rfl, rfl⟩, ?_, ?_⟩
  · unfold FingerprintMatches
    decide
  · intro _ _ crypto verifiers card hv hs hid
    unfold FingerprintMatches at hid
    rw [validate_of_canValidate crypto verifiers card hv]
    simp [verifyOwnSignature, readSignature, hs, ← hid]
  · intro _ _ crypto verifiers card signatures hv hs hmiss
    rw [validate_of_canValidate crypto verifiers card hv]
    by_cases hid : card.id = Buffer.toHex (crypto.calculateFingerprint card.snapshot)
    · have hn : card.id ∉ objectPrototypeNames := by
        rw [hid]
        exact Buffer.toHex_not_inherited _
      have hown : verifyOwnSignature crypto (crypto.calculateFingerprint card.snapshot) card
          = .ok false := by
        simp [verifyOwnSignature, readSignature_of_not_inherited card signatures card.id hs hn,
          hmiss]
      rw [hown]
      simp [hid]
    · simp [hid]

set_option maxRecDepth 50000 in
/-- C4: a verifier is configured, the card has no entry under its id, and
`validate` does not judge the card invalid.  With the freshly made validator
and a card signed by its owner only whose public key the provider cannot
import, the owner's check comes first and `importPublicKey` throws out of
`validate`.  With a verifier added under `toString`, the read
`card.signatures['toString']` finds the inherited method and a provider that
does not inspect its argument verifies it: the card is judged valid.  For a
signer id that names no member of `Object.prototype`, a card with no entry
under it is never judged valid. -/
theorem validate_raises_before_missing_verifier :
    (cardValidator Buffer.fromBase64 Example.toyCrypto = .ok Example.defaultVerifiers ∧
      SERVICE_CARD_ID ∈ JsObject.keys Example.defaultVerifiers ∧
      Example.ownerOnlyCardWithBadKey.version ≠ "3.0" ∧
      Example.ownerOnlyCardWithBadKey.signatures = some [("ab", [5, 0xab])] ∧
      JsObject.get [("ab", ([5, 0xab] : Buffer))] SERVICE_CARD_ID = none ∧
      validate Example.toyCrypto Example.defaultVerifiers Example.ownerOnlyCardWithBadKey
        = .error (.error "invalid public key")) ∧
    ((cardValidator Buffer.fromBase64 Example.lenientCrypto).bind (fun fresh =>
        addVerifier Buffer.fromBase64 Example.lenientCrypto fresh "toString" (.buffer [7]))
        = .ok Example.defaultThenToString ∧
      "toString" ∈ JsObject.keys Example.defaultThenToString ∧
      Example.cardSignedByOwnerAndService.version ≠ "3.0" ∧
      Example.cardSignedByOwnerAndService.signatures
        = some [("ab", [5, 0xab]), (SERVICE_CARD_ID, Example.servicePem ++ [0xab])] ∧
      JsObject.get [("ab", ([5, 0xab] : Buffer)),
        (SERVICE_CARD_ID, Example.servicePem ++ [0xab])] "toString" = none ∧
      validate Example.lenientCrypto Example.defaultThenToString
        Example.cardSignedByOwnerAndService = .ok true) ∧
    ∀ (PublicKey PrivateKey : Type) (crypto : VirgilCrypto PublicKey PrivateKey)
      (verifiers : Verifiers PublicKey) (signerId : String) (card : CardModel),
      signerId ∈ JsObject.keys verifiers → signerId ∉ objectPrototypeNames →
      card.version ≠ "3.0" →
      (∀ signatures, card.signatures = some signatures →
        JsObject.get signatures signerId = none) →
      validate crypto verifiers card ≠ .ok true := by
  refine ⟨⟨rfl, by decide, by decide, rfl, by decide, rfl⟩,
    ⟨rfl, by decide, by decide, rfl, by decide, rfl⟩, ?_⟩
  intro _ _ crypto verifiers signerId card hreg hn hv hmiss hvalid
  obtain ⟨verifier, hmem, hkey⟩ := List.mem_map.1 hreg
  have hcheck := ((validate_eq_true_iff_checks crypto verifiers card hv).1 hvalid).2.2
    verifier ((JsObject.mem_entries verifiers verifier).1 hmem)
  obtain ⟨signatures, sign, hs, hget, _⟩ :=
    (verifySigner_eq_true_iff crypto card verifier (by rw [hkey]; exact hn)).1 hcheck
  rw [hkey, hmiss signatures hs] at hget
  cases hget

/-- C5: legacy bypass.  `canValidate` is `false` exactly when the version is
`'3.0'`, and for such a card `validate` returns `true` for every id, snapshot,
key and signatures collection (present or absent) and every crypto provider. -/
theorem validate_accepts_legacy_card (crypto : VirgilCrypto PublicKey PrivateKey)
    (verifiers : Verifiers PublicKey) (card : CardModel) :
    (canValidate card = false ↔ card.version = "3.0") ∧
    (card.version = "3.0" → validate crypto verifiers card = .ok true) := by
  refine ⟨by simp [canValidate], fun hv => ?_⟩
  simp [validate, canValidate, hv]

/-- C5, witness: a legacy card with an empty id, no signatures collection and
an empty key is accepted by a validator whose provider never verifies. -/
theorem validate_accepts_legacy_card_witness :
    Example.legacyCard.version = "3.0" ∧
    Example.legacyCard.signatures = none ∧
    validate Example.refusingCrypto Example.toyVerifiers Example.legacyCard = .ok true :=
  ⟨rfl, rfl,
    (validate_accepts_legacy_card Example.refusingCrypto Example.toyVerifiers
      Example.legacyCard).2 rfl⟩

end Virgil.CardValidator

/-! ## UTF-8: decoding undoes encoding -/

namespace Virgil

theorem byte_val (n : Nat) (h : n < 256) : (byte n).val = n := by
  simp [byte, Nat.mod_eq_of_lt h]

theorem char_toNat_valid (c : Char) :
    c.toNat < 0xD800 ∨ (0xDFFF < c.toNat ∧ c.toNat < 0x110000) := by
  have := c.valid
  simp only [UInt32.isValidChar, Nat.isValidChar] at this
  exact this

theorem utf8Decode_encodeChar (c : Char) (rest : Buffer) :
    utf8Decode (utf8EncodeChar c ++ rest) = c :: utf8Decode rest := by
  have hvalid := char_toNat_valid c
  have hc : Char.ofNat c.toNat = c := Char.ofNat_toNat c
  generalize hn : c.toNat = n at hvalid hc
  unfold utf8EncodeChar
  simp only [hn]
  by_cases h1 : n < 0x80
  · simp only [h1, if_true, List.singleton_append]
    rw [utf8Decode.eq_def]
    simp [byte_val n (by omega), h1, hc]
  · by_cases h2 : n < 0x800
    · simp only [h1, h2, if_true, if_false, List.cons_append, List.nil_append]
      rw [utf8Decode.eq_def]
      have e0 : (byte (0xC0 + n / 64)).val = 0xC0 + n / 64 := byte_val _ (by omega)
      have e1 : (byte (0x80 + n % 64)).val = 0x80 + n % 64 := byte_val _ (by omega)
      have k0 : ¬ (0xC0 + n / 64 < 0x80) := by omega
      have k1 : 0xC2 ≤ 0xC0 + n / 64 ∧ 0xC0 + n / 64 ≤ 0xDF := by omega
      have k2 : isContinuation (byte (0x80 + n % 64)) = true := by
        simp only [isContinuation, e1, Bool.and_eq_true, decide_eq_true_eq]; omega
      have k3 : (0xC0 + n / 64 - 0xC0) * 64 + (0x80 + n % 64 - 0x80) = n := by omega
      simp only [e0, e1, k0, k1, k2, k3, if_true, if_false, and_self, hc]
    · by_cases h3 : n < 0x10000
      · simp only [h1, h2, h3, if_true, if_false, List.cons_append, List.nil_append]
        rw [utf8Decode.eq_def]
        have e0 : (byte (0xE0 + n / 4096)).val = 0xE0 + n / 4096 := byte_val _ (by omega)
        have e1 : (byte (0x80 + n / 64 % 64)).val = 0x80 + n / 64 % 64 := byte_val _ (by omega)
        have e2 : (byte (0x80 + n % 64)).val = 0x80 + n % 64 := byte_val _ (by omega)
        have k0 : ¬ (0xE0 + n / 4096 < 0x80) := by omega
        have k1 : ¬ (0xC2 ≤ 0xE0 + n / 4096 ∧ 0xE0 + n / 4096 ≤ 0xDF) := by omega
        have k2 : 0xE0 ≤ 0xE0 + n / 4096 ∧ 0xE0 + n / 4096 ≤ 0xEF := by omega
        have k3 : inRange (byte (0x80 + n / 64 % 64)) (secondByteRange (0xE0 + n / 4096))
            = true := by
          simp only [inRange, secondByteRange, e1, Bool.and_eq_true, decide_eq_true_eq]
          split_ifs <;> simp only [] <;> omega
        have k4 : isContinuation (byte (0x80 + n % 64)) = true := by
          simp only [isContinuation, e2, Bool.and_eq_true, decide_eq_true_eq]; omega
        have k5 : (0xE0 + n / 4096 - 0xE0) * 4096 + (0x80 + n / 64 % 64 - 0x80) * 64
            + (0x80 + n % 64 - 0x80) = n := by omega
        simp only [e0, e1, e2, k0, k1, k2, k3, k4, k5, if_true, if_false, and_self, hc]
      · simp only [h1, h2, h3, if_true, if_false, List.cons_append, List.nil_append]
        rw [utf8Decode.eq_def]
        have e0 : (byte (0xF0 + n / 262144)).val = 0xF0 + n / 262144 := byte_val _ (by omega)
        have e1 : (byte (0x80 + n / 4096 % 64)).val = 0x80 + n / 4096 % 64 :=
          byte_val _ (by omega)
        have e2 : (byte (0x80 + n / 64 % 64)).val = 0x80 + n / 64 % 64 := byte_val _ (by omega)
        have e3 : (byte (0x80 + n % 64)).val = 0x80 + n % 64 := byte_val _ (by omega)
        have k0 : ¬ (0xF0 + n / 262144 < 0x80) := by omega
        have k1 : ¬ (0xC2 ≤ 0xF0 + n / 262144 ∧ 0xF0 + n / 262144 ≤ 0xDF) := by omega
        have k2 : ¬ (0xE0 ≤ 0xF0 + n / 262144 ∧ 0xF0 + n / 262144 ≤ 0xEF) := by omega
        have k2' : 0xF0 ≤ 0xF0 + n / 262144 ∧ 0xF0 + n / 262144 ≤ 0xF4 := by omega
        have k3 : inRange (byte (0x80 + n / 4096 % 64)) (secondByteRange (0xF0 + n / 262144))
            = true := by
          simp only [inRange, secondByteRange, e1, Bool.and_eq_true, decide_eq_true_eq]
          split_ifs <;> simp only [] <;> omega
        have k4 : isContinuation (byte (0x80 + n / 64 % 64)) = true := by
          simp only [isContinuation, e2, Bool.and_eq_true, decide_eq_true_eq]; omega
        have k4' : isContinuation (byte (0x80 + n % 64)) = true := by
          simp only [isContinuation, e3, Bool.and_eq_true, decide_eq_true_eq]; omega
        have k5 : (0xF0 + n / 262144 - 0xF0) * 262144 + (0x80 + n / 4096 % 64 - 0x80) * 4096
            + (0x80 + n / 64 % 64 - 0x80) * 64 + (0x80 + n % 64 - 0x80) = n := by omega
        simp only [e0, e1, e2, e3, k0, k1, k2, k2', k3, k4, k4', k5, if_true, if_false,
          and_self, hc]

theorem utf8Decode_flatMap_encode (cs : List Char) :
    utf8Decode (cs.flatMap utf8EncodeChar) = cs := by
  induction cs with
  | nil => rfl
  | cons c rest ih => rw [List.flatMap_cons, utf8Decode_encodeChar, ih]

/-- Decoding the UTF-8 octets of a text gives the text back. -/
theorem Buffer.toString_fromUtf8 (text : String) :
    Buffer.toString (Buffer.fromUtf8 text) = text := by
  simp [Buffer.toString, Buffer.fromUtf8, utf8Decode_flatMap_encode]

/-- The octets of a concatenation are the octets of the parts, in order. -/
theorem Buffer.fromUtf8_append (a b : String) :
    Buffer.fromUtf8 (a ++ b) = Buffer.fromUtf8 a ++ Buffer.fromUtf8 b := by
  simp [Buffer.fromUtf8, String.data_append]

end Virgil

/-! ## Model signer: the outcome of `sign`, case by case -/

namespace Virgil.ModelSigner

variable {PrivateKey : Type}

theorem not_holdsEntryFor_iff (model : RawSignedModel) (role : String) :
    ¬ HoldsEntryFor model role ↔
      ∀ signatures, model.signatures = some signatures →
        signatures.any (fun s => decide (s.signer = role)) = false := by
  unfold HoldsEntryFor
  constructor
  · intro h signatures hs
    rw [Bool.eq_false_iff]
    intro hany
    obtain ⟨s, hmem, hrole⟩ := List.any_eq_true.1 hany
    exact h ⟨signatures, hs, s, hmem, by simpa using hrole⟩
  · rintro h ⟨signatures, hs, s, hmem, hrole⟩
    have := h signatures hs
    rw [Bool.eq_false_iff] at this
    exact this (List.any_eq_true.2 ⟨s, hmem, by simpa using hrole⟩)

theorem prepareParams_model_null (p : IRawSignParams PrivateKey) (hm : p.model = none) :
    prepareParams p = .error modelIsEmpty := by
  simp [prepareParams, validate, hm]

theorem prepareParams_key_null (p : IRawSignParams PrivateKey) (model : RawSignedModel)
    (hm : p.model = some model) (hk : p.signerPrivateKey = none) :
    prepareParams p = .error signerPrivateKeyIsMandatory := by
  simp [prepareParams, validate, hm, hk]

theorem prepareParams_duplicate (p : IRawSignParams PrivateKey) (model : RawSignedModel)
    (key : PrivateKey) (hm : p.model = some model) (hk : p.signerPrivateKey = some key)
    (hdup : HoldsEntryFor model (finalSigner p.signer)) :
    prepareParams p = .error alreadyHasSignature := by
  obtain ⟨signatures, hs, s, hmem, hrole⟩ := hdup
  have hany : signatures.any (fun s => decide (s.signer = finalSigner p.signer)) = true :=
    List.any_eq_true.2 ⟨s, hmem, by simpa using hrole⟩
  simp [prepareParams, validate, hm, hk, hs, hany]

theorem prepareParams_ok (p : IRawSignParams PrivateKey) (model : RawSignedModel)
    (key : PrivateKey) (hm : p.model = some model) (hk : p.signerPrivateKey = some key)
    (hnew : ¬ HoldsEntryFor model (finalSigner p.signer)) :
    prepareParams p = .ok
      { model := some model, signerPrivateKey := some key,
        extraSnapshot := p.extraFields.map (fun fields => takeSnapshot fields),
        signer := finalSigner p.signer } := by
  have hnone := (not_holdsEntryFor_iff model _).1 hnew
  have hextra : (match p.extraFields with
      | none => none
      | some extraFields => some (takeSnapshot extraFields))
      = p.extraFields.map (fun fields => takeSnapshot fields) := by
    cases p.extraFields <;> rfl
  cases hs : model.signatures with
  | none =>
    simp only [prepareParams, validate, hm, hk, hs, hextra]
  | some signatures =>
    simp only [prepareParams, validate, hm, hk, hs, hnone signatures hs, hextra]
    rfl

theorem signedSnapshot_eq_signedPayload (model : RawSignedModel)
    (extraFields : Option IExtraData) :
    signedSnapshot model (extraFields.map (fun fields => takeSnapshot fields))
      = signedPayload model extraFields :=
  rfl

theorem sign_of_prepareParams_error (crypto : ICardCrypto PrivateKey)
    (p : IRawSignParams PrivateKey) (e : JsError) (h : prepareParams p = .error e) :
    sign crypto p = { model := p.model, result := .error e } := by
  simp [sign, h]

theorem sign_of_generateSignature_error (crypto : ICardCrypto PrivateKey)
    (p : IRawSignParams PrivateKey) (model : RawSignedModel) (key : PrivateKey) (e : JsError)
    (hm : p.model = some model) (hk : p.signerPrivateKey = some key)
    (hnew : ¬ HoldsEntryFor model (finalSigner p.signer))
    (hsig : crypto.generateSignature (signedPayload model p.extraFields) key = .error e) :
    sign crypto p = { model := some model, result := .error e } := by
  simp [sign, prepareParams_ok p model key hm hk hnew, signedSnapshot_eq_signedPayload, hsig]

theorem sign_of_signatures_null (crypto : ICardCrypto PrivateKey)
    (p : IRawSignParams PrivateKey) (model : RawSignedModel) (key : PrivateKey)
    (signature : Buffer)
    (hm : p.model = some model) (hk : p.signerPrivateKey = some key)
    (hs : model.signatures = none)
    (hsig : crypto.generateSignature (signedPayload model p.extraFields) key = .ok signature) :
    sign crypto p = { model := some model, result := .error pushOfNull } := by
  have hnew : ¬ HoldsEntryFor model (finalSigner p.signer) := by
    rintro ⟨signatures, hs', _⟩
    rw [hs] at hs'
    cases hs'
  simp [sign, prepareParams_ok p model key hm hk hnew, signedSnapshot_eq_signedPayload, hsig,
    hs]

theorem sign_of_success (crypto : ICardCrypto PrivateKey)
    (p : IRawSignParams PrivateKey) (model : RawSignedModel) (key : PrivateKey)
    (signatures : List IRawSignature) (signature : Buffer)
    (hm : p.model = some model) (hk : p.signerPrivateKey = some key)
    (hs : model.signatures = some signatures)
    (hnew : ¬ HoldsEntryFor model (finalSigner p.signer))
    (hsig : crypto.generateSignature (signedPayload model p.extraFields) key = .ok signature) :
    sign crypto p =
      { model := some { model with signatures := some (signatures ++
          [expectedEntry (finalSigner p.signer) signature p.extraFields]) },
        result := .ok () } := by
  simp [sign, prepareParams_ok p model key hm hk hnew, signedSnapshot_eq_signedPayload, hsig,
    hs, expectedEntry]

/-- A successful call, taken apart: the envelope, key and signature it used. -/
theorem sign_ok_inv (crypto : ICardCrypto PrivateKey) (p : IRawSignParams PrivateKey)
    (h : (sign crypto p).result = .ok ()) :
    ∃ model key signatures signature,
      p.model = some model ∧ p.signerPrivateKey = some key ∧
      model.signatures = some signatures ∧
      ¬ HoldsEntryFor model (finalSigner p.signer) ∧
      crypto.generateSignature (signedPayload model p.extraFields) key = .ok signature ∧
      sign crypto p =
        { model := some { model with signatures := some (signatures ++
            [expectedEntry (finalSigner p.signer) signature p.extraFields]) },
          result := .ok () } := by
  cases hm : p.model with
  | none =>
    rw [sign_of_prepareParams_error crypto p _ (prepareParams_model_null p hm)] at h
    cases h
  | some model =>
    cases hk : p.signerPrivateKey with
    | none =>
      rw [sign_of_prepareParams_error crypto p _ (prepareParams_key_null p model hm hk)] at h
      cases h
    | some key =>
      by_cases hdup : HoldsEntryFor model (finalSigner p.signer)
      · rw [sign_of_prepareParams_error crypto p _
          (prepareParams_duplicate p model key hm hk hdup)] at h
        cases h
      · cases hsig : crypto.generateSignature (signedPayload model p.extraFields) key with
        | error e =>
          rw [sign_of_generateSignature_error crypto p model key e hm hk hdup hsig] at h
          cases h
        | ok signature =>
          cases hs : model.signatures with
          | none =>
            rw [sign_of_signatures_null crypto p model key signature hm hk hs hsig] at h
            cases h
          | some signatures =>
            exact ⟨model, key, signatures, signature, rfl, rfl, hs, hdup, hsig,
              sign_of_success crypto p model key signatures signature hm hk hs hdup hsig⟩

theorem sign_model_or_ok (crypto : ICardCrypto PrivateKey) (p : IRawSignParams PrivateKey) :
    (sign crypto p).model = p.model ∨ (sign crypto p).result = .ok () := by
  cases hm : p.model with
  | none =>
    rw [sign_of_prepareParams_error crypto p _ (prepareParams_model_null p hm)]
    exact Or.inl hm
  | some model =>
    cases hk : p.signerPrivateKey with
    | none =>
      rw [sign_of_prepareParams_error crypto p _ (prepareParams_key_null p model hm hk)]
      exact Or.inl hm
    | some key =>
      by_cases hdup : HoldsEntryFor model (finalSigner p.signer)
      · rw [sign_of_prepareParams_error crypto p _
          (prepareParams_duplicate p model key hm hk hdup)]
        exact Or.inl hm
      · cases hsig : crypto.generateSignature (signedPayload model p.extraFields) key with
        | error e =>
          rw [sign_of_generateSignature_error crypto p model key e hm hk hdup hsig]
          exact Or.inl rfl
        | ok signature =>
          cases hs : model.signatures with
          | none =>
            rw [sign_of_signatures_null crypto p model key signature hm hk hs hsig]
            exact Or.inl rfl
          | some signatures =>
            rw [sign_of_success crypto p model key signatures signature hm hk hs hdup hsig]
            exact Or.inr rfl

/-! ## Model signer: the claims -/

/-- C6: duplicate-role rejection.  After a successful `sign` under a role, a
second `sign` under the same role, with any key (or none) and any extra fields,
fails with a validation error and leaves the envelope exactly as the first call
left it: its last entry is the one recorded by the first call, and no earlier
entry carries that role. -/
theorem sign_rejects_second_signature_for_role (crypto crypto' : ICardCrypto PrivateKey)
    (p : IRawSignParams PrivateKey) (signed : RawSignedModel)
    (key' : Option PrivateKey) (extraFields' : Option IExtraData)
    (hfirst : sign crypto p = { model := some signed, result := .ok () }) :
    (∃ e, IsValidationError e ∧
      sign crypto' { model := some signed, signerPrivateKey := key',
                     extraFields := extraFields', signer := p.signer }
        = { model := some signed, result := .error e }) ∧
    ∃ before entry, signed.signatures = some (before ++ [entry]) ∧
      entry.signer = finalSigner p.signer ∧
      ∀ s ∈ before, s.signer ≠ finalSigner p.signer := by
  obtain ⟨model, key, signatures, signature, _, _, hs, hnew, _, hsign⟩ :=
    sign_ok_inv crypto p (by rw [hfirst])
  rw [hfirst] at hsign
  have hsigned : signed = { model with signatures := some (signatures ++
      [expectedEntry (finalSigner p.signer) signature p.extraFields]) } := by
    injection hsign with h1 _
    exact Option.some.inj h1
  have hbefore : ∀ s ∈ signatures, s.signer ≠ finalSigner p.signer :=
    fun s hmem hrole => hnew ⟨signatures, hs, s, hmem, hrole⟩
  refine ⟨?_, signatures, expectedEntry (finalSigner p.signer) signature p.extraFields,
    by rw [hsigned], rfl, hbefore⟩
  cases key' with
  | none =>
    exact ⟨signerPrivateKeyIsMandatory, Or.inr (Or.inl rfl),
      sign_of_prepareParams_error crypto' _ _ (prepareParams_key_null _ signed rfl rfl)⟩
  | some k =>
    refine ⟨alreadyHasSignature, Or.inr (Or.inr rfl),
      sign_of_prepareParams_error crypto' _ _ (prepareParams_duplicate _ signed k rfl rfl ?_)⟩
    exact ⟨signatures ++ [expectedEntry (finalSigner p.signer) signature p.extraFields],
      by rw [hsigned], expectedEntry (finalSigner p.signer) signature p.extraFields,
      by simp, rfl⟩

/-- C6, witness: the empty envelope is signed under `"svc"`; signing the
result under `"svc"` again, with the key the provider rejects, fails with a
validation error and changes nothing. -/
theorem sign_rejects_second_signature_for_role_witness :
    sign Example.toySigner Example.serviceRequest
      = { model := some Example.signedOnce, result := .ok () } ∧
    (∃ e, IsValidationError e ∧
      sign Example.toySigner { model := some Example.signedOnce, signerPrivateKey := some 0,
                               extraFields := none, signer := Example.serviceRequest.signer }
        = { model := some Example.signedOnce, result := .error e }) :=
  ⟨rfl, (sign_rejects_second_signature_for_role Example.toySigner Example.toySigner
    Example.serviceRequest Example.signedOnce (some 0) none rfl).1⟩

/-- C7, counterexample: the content snapshot is the octets `ff 61` and extra
fields are given.  The payload handed to `generateSignature` is a string, the
content decoded as UTF-8 followed by the JSON text of the fields; its octets
begin with `ef bf bd 61`, where the content snapshot followed by the snapshot
of the extra fields begins with `ff 61`.  The signature the toy provider
returns shows the octets it was handed. -/
theorem sign_decodes_content_before_joining :
    Example.illFormedRequest.model
      = some { contentSnapshot := [0xff, 0x61], signatures := some [] } ∧
    Example.illFormedRequest.extraFields = some [("k", "v")] ∧
    signedPayload { contentSnapshot := [0xff, 0x61], signatures := some [] }
        Example.illFormedRequest.extraFields
      = .string "\uFFFDa\x7b\"k\":\"v\"\x7d" ∧
    (signedPayload { contentSnapshot := [0xff, 0x61], signatures := some [] }
        Example.illFormedRequest.extraFields).octets
      = [0xef, 0xbf, 0xbd, 0x61] ++ takeSnapshot ([("k", "v")] : IExtraData) ∧
    expectedPayload { contentSnapshot := [0xff, 0x61], signatures := some [] }
        Example.illFormedRequest.extraFields
      = [0xff, 0x61] ++ takeSnapshot ([("k", "v")] : IExtraData) ∧
    (signedPayload { contentSnapshot := [0xff, 0x61], signatures := some [] }
        Example.illFormedRequest.extraFields).octets
      ≠ expectedPayload { contentSnapshot := [0xff, 0x61], signatures := some [] }
          Example.illFormedRequest.extraFields ∧
    sign Example.toySigner Example.illFormedRequest =
      { model := some { contentSnapshot := [0xff, 0x61],
                        signatures := some [
                          { signer := "svc",
                            signature := Buffer.toBase64
                              ([5, 0xef, 0xbf, 0xbd, 0x61]
                                ++ takeSnapshot ([("k", "v")] : IExtraData)),
                            snapshot := some (takeSnapshot ([("k", "v")] : IExtraData)) }] },
        result := .ok () } :=
  ⟨rfl, rfl, by decide, by decide, rfl, by decide, rfl⟩

/-- C7, as amended: the payload handed to `generateSignature`.  When the
preconditions hold, `sign` calls the provider on `signedPayload` and on
nothing else: its outcome is the provider's answer there, carried through.
Without extra fields the payload is the content snapshot itself, the `Buffer`
unchanged.  With extra fields it is a string: the content snapshot decoded as
UTF-8, followed by the text of the snapshot of the extra fields, which is their
JSON text; nothing is hashed and no delimiter is put in between.  When the
content snapshot is the UTF-8 encoding of a text, the octets of that string are
the octets of the content snapshot followed by those of the snapshot of the
extra fields. -/
theorem sign_payload_is_snapshot_then_extra (crypto : ICardCrypto PrivateKey)
    (p : IRawSignParams PrivateKey) (model : RawSignedModel) (key : PrivateKey)
    (hm : p.model = some model) (hk : p.signerPrivateKey = some key)
    (hnew : ¬ HoldsEntryFor model (finalSigner p.signer)) :
    (sign crypto p =
      match crypto.generateSignature (signedPayload model p.extraFields) key with
      | .error e => { model := some model, result := .error e }
      | .ok signature =>
        match model.signatures with
        | none => { model := some model, result := .error pushOfNull }
        | some signatures =>
          { model := some { model with signatures := some (signatures ++
              [expectedEntry (finalSigner p.signer) signature p.extraFields]) },
            result := .ok () }) ∧
    (p.extraFields = none →
      signedPayload model p.extraFields = .buffer model.contentSnapshot ∧
      (signedPayload model p.extraFields).octets = expectedPayload model p.extraFields) ∧
    (∀ extraFields, p.extraFields = some extraFields →
      signedPayload model p.extraFields
        = .string (Buffer.toString model.contentSnapshot
            ++ Buffer.toString (takeSnapshot extraFields)) ∧
      Buffer.toString (takeSnapshot extraFields) = IExtraData.stringify extraFields ∧
      ∀ text, model.contentSnapshot = Buffer.fromUtf8 text →
        (signedPayload model p.extraFields).octets
          = model.contentSnapshot ++ takeSnapshot extraFields ∧
        (signedPayload model p.extraFields).octets = expectedPayload model p.extraFields) := by
  refine ⟨?_, fun h => by rw [h]; exact ⟨rfl, rfl⟩, fun extraFields h => ?_⟩
  · cases hsig : crypto.generateSignature (signedPayload model p.extraFields) key with
    | error e => exact sign_of_generateSignature_error crypto p model key e hm hk hnew hsig
    | ok signature =>
      cases hs : model.signatures with
      | none => exact sign_of_signatures_null crypto p model key signature hm hk hs hsig
      | some signatures =>
        exact sign_of_success crypto p model key signatures signature hm hk hs hnew hsig
  · rw [h]
    refine ⟨rfl, Buffer.toString_fromUtf8 _, fun text htext => ?_⟩
    have hoctets : (signedPayload model (some extraFields)).octets
        = model.contentSnapshot ++ takeSnapshot extraFields := by
      show Buffer.fromUtf8 (Buffer.toString model.contentSnapshot
        ++ Buffer.toString (takeSnapshot extraFields)) = _
      rw [Buffer.fromUtf8_append, htext, Buffer.toString_fromUtf8]
      unfold takeSnapshot
      rw [Buffer.toString_fromUtf8]
    exact ⟨hoctets, hoctets⟩

/-- C7, witness: for the content `abc` and the extra fields `k: v` the payload
is the text `abc` followed by the JSON text of the fields, and its octets are
those of the content followed by those of the snapshot of the fields. -/
theorem sign_payload_is_snapshot_then_extra_witness :
    Example.serviceRequest.model = some Example.emptyEnvelope ∧
    Example.serviceRequest.signerPrivateKey = some 5 ∧
    ¬ HoldsEntryFor Example.emptyEnvelope (finalSigner Example.serviceRequest.signer) ∧
    Example.emptyEnvelope.contentSnapshot = Buffer.fromUtf8 "abc" ∧
    signedPayload Example.emptyEnvelope Example.serviceRequest.extraFields
      = .string "abc\x7b\"k\":\"v\"\x7d" ∧
    (signedPayload Example.emptyEnvelope Example.serviceRequest.extraFields).octets
      = Example.emptyEnvelope.contentSnapshot ++ takeSnapshot ([("k", "v")] : IExtraData) := by
  have hnew : ¬ HoldsEntryFor Example.emptyEnvelope
      (finalSigner Example.serviceRequest.signer) := by
    rintro ⟨signatures, hs, s, hmem, _⟩
    cases hs
    cases hmem
  exact ⟨rfl, rfl, hnew, rfl, by decide,
    (((sign_payload_is_snapshot_then_extra Example.toySigner Example.serviceRequest
      Example.emptyEnvelope 5 rfl rfl hnew).2.2 [("k", "v")] rfl).2.2 "abc" rfl).1⟩

/-- C8, counterexample: a successful call whose requested role is the empty
string appends an entry whose signer is `"self"`, not the requested role. -/
theorem sign_records_self_for_empty_role :
    Example.emptyRoleRequest.signer = some "" ∧
    sign Example.toySigner Example.emptyRoleRequest =
      { model := some { contentSnapshot := Buffer.fromUtf8 "abc",
                        signatures := some [{ signer := "self", signature := "BWFiYw==",
                                              snapshot := none }] },
        result := .ok () } ∧
    "self" ≠ "" :=
  ⟨rfl, rfl, by decide⟩

/-- C8, as amended: every successful call appends exactly the entry whose
signer is the requested role when that is a non-empty string and `"self"` when
the role is omitted or empty, whose signature is the base64 text of the octets
the provider returned for the signed payload, and whose snapshot is the
snapshot of the extra fields when they were given and absent otherwise. -/
theorem sign_appends_expected_entry (crypto : ICardCrypto PrivateKey)
    (p : IRawSignParams PrivateKey) (hok : (sign crypto p).result = .ok ()) :
    ∃ model key signatures signature entry,
      p.model = some model ∧ p.signerPrivateKey = some key ∧
      model.signatures = some signatures ∧
      crypto.generateSignature (signedPayload model p.extraFields) key = .ok signature ∧
      (sign crypto p).model
        = some { model with signatures := some (signatures ++ [entry]) } ∧
      (∀ role, p.signer = some role → role ≠ "" → entry.signer = role) ∧
      (p.signer = none ∨ p.signer = some "" → entry.signer = "self") ∧
      entry.signature = Buffer.toBase64 signature ∧
      (p.extraFields = none → entry.snapshot = none) ∧
      (∀ extraFields, p.extraFields = some extraFields →
        entry.snapshot = some (takeSnapshot extraFields)) := by
  obtain ⟨model, key, signatures, signature, hm, hk, hs, _, hsig, hsign⟩ :=
    sign_ok_inv crypto p hok
  refine ⟨model, key, signatures, signature,
    expectedEntry (finalSigner p.signer) signature p.extraFields, hm, hk, hs, hsig,
    by rw [hsign], ?_, ?_, rfl, ?_, ?_⟩
  · intro role hrole hne
    simp [expectedEntry, finalSigner, hrole, hne]
  · rintro (h | h) <;> simp [expectedEntry, finalSigner, h, SelfSigner]
  · intro h
    simp [expectedEntry, h]
  · intro extraFields h
    simp [expectedEntry, h]

/-- C8, witness: the request under `"svc"` with extra fields succeeds and
leaves the envelope `signedOnce`, whose only entry is the prescribed one. -/
theorem sign_appends_expected_entry_witness :
    (sign Example.toySigner Example.serviceRequest).result = .ok () ∧
    (sign Example.toySigner Example.serviceRequest).model = some Example.signedOnce ∧
    ∃ model key signatures signature entry,
      Example.serviceRequest.model = some model ∧
      Example.serviceRequest.signerPrivateKey = some key ∧
      model.signatures = some signatures ∧
      Example.toySigner.generateSignature
        (signedPayload model Example.serviceRequest.extraFields) key = .ok signature ∧
      (sign Example.toySigner Example.serviceRequest).model
        = some { model with signatures := some (signatures ++ [entry]) } ∧
      (∀ role, Example.serviceRequest.signer = some role → role ≠ "" → entry.signer = role) ∧
      (Example.serviceRequest.signer = none ∨ Example.serviceRequest.signer = some "" →
        entry.signer = "self") ∧
      entry.signature = Buffer.toBase64 signature ∧
      (Example.serviceRequest.extraFields = none → entry.snapshot = none) ∧
      (∀ extraFields, Example.serviceRequest.extraFields = some extraFields →
        entry.snapshot = some (takeSnapshot extraFields)) :=
  ⟨rfl, rfl, sign_appends_expected_entry Example.toySigner Example.serviceRequest rfl⟩

/-- C9, counterexample: the envelope is not null, the key is present, no entry
of the envelope has the requested role (the empty string) as signer and the
provider signs every payload with this key, yet `sign` fails with the
duplicate-signature error: the empty role is replaced by `"self"`, which the
envelope holds. -/
theorem sign_duplicate_error_for_empty_role :
    Example.emptyRoleSecondRequest.model = some Example.selfSignedEnvelope ∧
    Example.emptyRoleSecondRequest.signerPrivateKey = some 5 ∧
    Example.emptyRoleSecondRequest.signer = some "" ∧
    ¬ HoldsEntryFor Example.selfSignedEnvelope "" ∧
    (∀ payload, ∃ signature,
      Example.toySigner.generateSignature payload 5 = .ok signature) ∧
    sign Example.toySigner Example.emptyRoleSecondRequest
      = { model := some Example.selfSignedEnvelope,
          result := .error alreadyHasSignature } := by
  refine ⟨rfl, rfl, rfl, ?_, fun payload => ⟨_, rfl⟩, rfl⟩
  rintro ⟨signatures, hs, s, hmem, hrole⟩
  cases hs
  simp only [List.mem_singleton] at hmem
  subst hmem
  exact absurd hrole (by decide)

/-- C9, as amended: `validate` makes `sign` fail exactly when the envelope is
null, or the private key is null, or the envelope already holds an entry whose
signer is the requested role, an omitted or empty role counting as `"self"`.
The three failures carry three different errors, checked in this order, and
`sign` ends with the error of `validate`.  For a non-null envelope with a
signatures array, a present key and a role not yet in the envelope, `sign`
succeeds whenever `generateSignature` succeeds on the payload. -/
theorem sign_validation_errors (crypto : ICardCrypto PrivateKey)
    (p : IRawSignParams PrivateKey) :
    ((∃ e, prepareParams p = .error e) ↔
      p.model = none ∨ p.signerPrivateKey = none ∨
        ∃ model, p.model = some model ∧ HoldsEntryFor model (finalSigner p.signer)) ∧
    (∀ e, prepareParams p = .error e →
      IsValidationError e ∧ sign crypto p = { model := p.model, result := .error e }) ∧
    (p.model = none → prepareParams p = .error modelIsEmpty) ∧
    (∀ model, p.model = some model → p.signerPrivateKey = none →
      prepareParams p = .error signerPrivateKeyIsMandatory) ∧
    (∀ model key, p.model = some model → p.signerPrivateKey = some key →
      HoldsEntryFor model (finalSigner p.signer) →
      prepareParams p = .error alreadyHasSignature) ∧
    (modelIsEmpty ≠ signerPrivateKeyIsMandatory ∧ modelIsEmpty ≠ alreadyHasSignature ∧
      signerPrivateKeyIsMandatory ≠ alreadyHasSignature) ∧
    (∀ model key signatures signature, p.model = some model →
      p.signerPrivateKey = some key → model.signatures = some signatures →
      ¬ HoldsEntryFor model (finalSigner p.signer) →
      crypto.generateSignature (signedPayload model p.extraFields) key = .ok signature →
      (sign crypto p).result = .ok ()) := by
  have hcases : ∀ e, prepareParams p = .error e → IsValidationError e ∧
      (p.model = none ∨ p.signerPrivateKey = none ∨
        ∃ model, p.model = some model ∧ HoldsEntryFor model (finalSigner p.signer)) := by
    intro e he
    cases hm : p.model with
    | none =>
      rw [prepareParams_model_null p hm] at he
      cases he
      exact ⟨Or.inl rfl, Or.inl rfl⟩
    | some model =>
      cases hk : p.signerPrivateKey with
      | none =>
        rw [prepareParams_key_null p model hm hk] at he
        cases he
        exact ⟨Or.inr (Or.inl rfl), Or.inr (Or.inl rfl)⟩
      | some key =>
        by_cases hdup : HoldsEntryFor model (finalSigner p.signer)
        · rw [prepareParams_duplicate p model key hm hk hdup] at he
          cases he
          exact ⟨Or.inr (Or.inr rfl), Or.inr (Or.inr ⟨model, rfl, hdup⟩)⟩
        · rw [prepareParams_ok p model key hm hk hdup] at he
          cases he
  refine ⟨⟨fun ⟨e, he⟩ => (hcases e he).2, ?_⟩,
    fun e he => ⟨(hcases e he).1, sign_of_prepareParams_error crypto p e he⟩,
    prepareParams_model_null p, prepareParams_key_null p,
    prepareParams_duplicate p, ⟨by decide, by decide, by decide⟩, ?_⟩
  · rintro (hm | hk | ⟨model, hm, hdup⟩)
    · exact ⟨_, prepareParams_model_null p hm⟩
    · cases hm : p.model with
      | none => exact ⟨_, prepareParams_model_null p hm⟩
      | some model => exact ⟨_, prepareParams_key_null p model hm hk⟩
    · cases hk : p.signerPrivateKey with
      | none => exact ⟨_, prepareParams_key_null p model hm hk⟩
      | some key => exact ⟨_, prepareParams_duplicate p model key hm hk hdup⟩
  · intro model key signatures signature hm hk hs hnew hsig
    rw [sign_of_success crypto p model key signatures signature hm hk hs hnew hsig]

/-- C9, witness: a request without an envelope fails with the empty-model
error, one without a key with the missing-key error, and the request under
`"svc"` on the empty envelope succeeds. -/
theorem sign_validation_errors_witness :
    sign Example.toySigner Example.missingModelRequest
      = { model := none, result := .error modelIsEmpty } ∧
    sign Example.toySigner Example.missingKeyRequest
      = { model := some Example.emptyEnvelope,
          result := .error signerPrivateKeyIsMandatory } ∧
    (sign Example.toySigner Example.serviceRequest).result = .ok () := by
  have hnew : ¬ HoldsEntryFor Example.emptyEnvelope
      (finalSigner Example.serviceRequest.signer) := by
    rintro ⟨signatures, hs, s, hmem, _⟩
    cases hs
    cases hmem
  exact ⟨((sign_validation_errors Example.toySigner Example.missingModelRequest).2.1
      modelIsEmpty rfl).2,
    ((sign_validation_errors Example.toySigner Example.missingKeyRequest).2.1
      signerPrivateKeyIsMandatory rfl).2,
    (sign_validation_errors Example.toySigner Example.serviceRequest).2.2.2.2.2.2
      Example.emptyEnvelope 5 [] _ rfl rfl rfl hnew rfl⟩

/-- C10: atomic-or-nothing append.  Whenever `sign` fails, be it with a
validation error, with the exception of `generateSignature` or with the error
of pushing onto an absent array, the envelope after the call is the envelope
before the call: same content snapshot, same signatures. -/
theorem sign_failure_leaves_envelope_unchanged (crypto : ICardCrypto PrivateKey)
    (p : IRawSignParams PrivateKey) (e : JsError)
    (hfail : (sign crypto p).result = .error e) :
    (sign crypto p).model = p.model := by
  rcases sign_model_or_ok crypto p with h | h
  · exact h
  · rw [h] at hfail
    cases hfail

/-- C10, witness: the provider rejects key `0`, and the call fails with the
provider's error; on an envelope without a signatures array the push fails.
Either way the envelope is what it was. -/
theorem sign_failure_leaves_envelope_unchanged_witness :
    (sign Example.toySigner Example.rejectedKeyRequest).result
      = .error (.error "invalid private key") ∧
    (sign Example.toySigner Example.rejectedKeyRequest).model = some Example.emptyEnvelope ∧
    (sign Example.toySigner Example.noArrayRequest).result = .error pushOfNull ∧
    (sign Example.toySigner Example.noArrayRequest).model
      = some Example.envelopeWithoutSignatures :=
  ⟨rfl, sign_failure_leaves_envelope_unchanged Example.toySigner Example.rejectedKeyRequest
    (.error "invalid private key") rfl, rfl,
    sign_failure_leaves_envelope_unchanged Example.toySigner Example.noArrayRequest
      pushOfNull rfl⟩

end Virgil.ModelSigner

/-! ## Model signer: invariant, frame and default role -/

namespace Virgil.ModelSigner

variable {PrivateKey : Type}

theorem sign_model_isSome (crypto : ICardCrypto PrivateKey) (p : IRawSignParams PrivateKey)
    (model : RawSignedModel) (hm : p.model = some model) :
    ∃ after, (sign crypto p).model = some after := by
  rcases sign_model_or_ok crypto p with h | h
  · exact ⟨model, by rw [h, hm]⟩
  · obtain ⟨m, _, signatures, signature, _, _, _, _, _, hsign⟩ := sign_ok_inv crypto p h
    exact ⟨_, by rw [hsign]⟩

theorem sign_keeps_unique_roles (crypto : ICardCrypto PrivateKey)
    (p : IRawSignParams PrivateKey) (model after : RawSignedModel)
    (hm : p.model = some model) (hu : UniqueRoles model)
    (hafter : (sign crypto p).model = some after) : UniqueRoles after := by
  rcases sign_model_or_ok crypto p with h | h
  · rw [h, hm] at hafter
    cases hafter
    exact hu
  · obtain ⟨m, _, signatures, signature, hm', _, hs, hnew, _, hsign⟩ := sign_ok_inv crypto p h
    rw [hm] at hm'
    cases hm'
    rw [hsign] at hafter
    cases hafter
    intro signatures' hs'
    simp only [Option.some.injEq] at hs'
    subst hs'
    rw [List.map_append, List.nodup_append]
    refine ⟨hu signatures hs, by simp, ?_⟩
    intro a ha hb
    simp only [List.map_cons, List.map_nil, List.mem_singleton] at hb
    obtain ⟨s, hmem, hrole⟩ := List.mem_map.1 ha
    exact hnew ⟨signatures, hs, s, hmem, by rw [hrole, hb]; rfl⟩

theorem signAll_keeps_unique_roles (model : RawSignedModel)
    (calls : List (SignCall PrivateKey)) (hu : UniqueRoles model) :
    UniqueRoles (signAll model calls) := by
  induction calls generalizing model with
  | nil => exact hu
  | cons call rest ih =>
    obtain ⟨next, hnext⟩ := sign_model_isSome call.crypto
      { model := some model, signerPrivateKey := call.signerPrivateKey,
        extraFields := call.extraFields, signer := call.signer } model rfl
    have hstep : signAll model (call :: rest) = signAll next rest := by
      simp only [signAll, hnext]
    rw [hstep]
    exact ih next (sign_keeps_unique_roles call.crypto _ model next rfl hu hnext)

theorem sign_keeps_signatures_array (crypto : ICardCrypto PrivateKey)
    (p : IRawSignParams PrivateKey) (model after : RawSignedModel)
    (signatures : List IRawSignature)
    (hm : p.model = some model) (hs : model.signatures = some signatures)
    (hafter : (sign crypto p).model = some after) :
    ∃ signatures', after.signatures = some signatures' := by
  rcases sign_model_or_ok crypto p with h | h
  · rw [h, hm] at hafter
    cases hafter
    exact ⟨signatures, hs⟩
  · obtain ⟨m, _, sigs, signature, _, _, _, _, _, hsign⟩ := sign_ok_inv crypto p h
    rw [hsign] at hafter
    cases hafter
    exact ⟨_, rfl⟩

theorem signAll_signatures_isSome (model : RawSignedModel)
    (calls : List (SignCall PrivateKey)) (signatures : List IRawSignature)
    (hs : model.signatures = some signatures) :
    ∃ signatures', (signAll model calls).signatures = some signatures' := by
  induction calls generalizing model signatures with
  | nil => exact ⟨signatures, hs⟩
  | cons call rest ih =>
    obtain ⟨next, hnext⟩ := sign_model_isSome call.crypto
      { model := some model, signerPrivateKey := call.signerPrivateKey,
        extraFields := call.extraFields, signer := call.signer } model rfl
    have hstep : signAll model (call :: rest) = signAll next rest := by
      simp only [signAll, hnext]
    rw [hstep]
    obtain ⟨signatures', hs'⟩ := sign_keeps_signatures_array call.crypto _ model next
      signatures rfl hs hnext
    exact ih next signatures' hs'

/-- C11: uniqueness invariant.  If the signatures of an envelope hold at most
one entry per signer role, then so do the signatures of the envelope after any
`sign` call on it, successful or failed, and after any sequence of such calls;
hence an envelope built from an empty collection by any sequence of `sign`
calls has a signatures array with pairwise distinct signer roles. -/
theorem sign_preserves_unique_roles (crypto : ICardCrypto PrivateKey)
    (p : IRawSignParams PrivateKey) (model : RawSignedModel)
    (hm : p.model = some model) (hu : UniqueRoles model) :
    (∃ after, (sign crypto p).model = some after ∧ UniqueRoles after) ∧
    (∀ calls : List (SignCall PrivateKey), UniqueRoles (signAll model calls)) ∧
    (∀ (content : Buffer) (calls : List (SignCall PrivateKey)),
      ∃ signatures,
        (signAll { contentSnapshot := content, signatures := some [] } calls).signatures
          = some signatures ∧
        (signatures.map (fun s => s.signer)).Nodup) := by
  refine ⟨?_, fun calls => signAll_keeps_unique_roles model calls hu, fun content calls => ?_⟩
  · obtain ⟨after, hafter⟩ := sign_model_isSome crypto p model hm
    exact ⟨after, hafter, sign_keeps_unique_roles crypto p model after hm hu hafter⟩
  · obtain ⟨signatures, hs⟩ := signAll_signatures_isSome
      { contentSnapshot := content, signatures := some [] } calls [] rfl
    refine ⟨signatures, hs, ?_⟩
    have hempty : UniqueRoles { contentSnapshot := content, signatures := some [] } := by
      intro signatures' hs'
      cases hs'
      exact List.nodup_nil
    exact signAll_keeps_unique_roles _ calls hempty signatures hs

/-- C11, witness: four calls on the empty envelope, two of them repeating a
role already recorded, leave exactly the entries `"svc"` and `"self"`. -/
theorem sign_preserves_unique_roles_witness :
    Example.serviceRequest.model = some Example.emptyEnvelope ∧
    UniqueRoles Example.emptyEnvelope ∧
    UniqueRoles (signAll Example.emptyEnvelope Example.fourCalls) ∧
    (signAll Example.emptyEnvelope Example.fourCalls).signatures.map
      (fun signatures => signatures.map (fun s => s.signer)) = some ["svc", "self"] := by
  have hempty : UniqueRoles Example.emptyEnvelope := by
    intro signatures hs
    cases hs
    exact List.nodup_nil
  exact ⟨rfl, hempty,
    (sign_preserves_unique_roles Example.toySigner Example.serviceRequest
      Example.emptyEnvelope rfl hempty).2.1 Example.fourCalls, rfl⟩

/-- C12: append-only frame.  After a successful `sign` call the signatures of
the envelope are the signatures before the call followed by exactly one new
entry, and the content snapshot is what it was. -/
theorem sign_success_appends_one_entry (crypto : ICardCrypto PrivateKey)
    (p : IRawSignParams PrivateKey) (hok : (sign crypto p).result = .ok ()) :
    ∃ before after signatures entry,
      p.model = some before ∧ (sign crypto p).model = some after ∧
      before.signatures = some signatures ∧
      after.signatures = some (signatures ++ [entry]) ∧
      after.contentSnapshot = before.contentSnapshot := by
  obtain ⟨model, _, signatures, signature, hm, _, hs, _, _, hsign⟩ := sign_ok_inv crypto p hok
  exact ⟨model,
    { model with signatures := some (signatures ++
        [expectedEntry (finalSigner p.signer) signature p.extraFields]) },
    signatures, expectedEntry (finalSigner p.signer) signature p.extraFields,
    hm, by rw [hsign], hs, rfl, rfl⟩

/-- C12, witness: signing an envelope that holds a `"self"` entry under
`"svc"` keeps that entry first and the content `abc`. -/
theorem sign_success_appends_one_entry_witness :
    (sign Example.toySigner Example.countersignRequest).result = .ok () ∧
    ∃ before after signatures entry,
      Example.countersignRequest.model = some before ∧
      (sign Example.toySigner Example.countersignRequest).model = some after ∧
      before.signatures = some signatures ∧
      after.signatures = some (signatures ++ [entry]) ∧
      after.contentSnapshot = before.contentSnapshot :=
  ⟨rfl, sign_success_appends_one_entry Example.toySigner Example.countersignRequest rfl⟩

/-- C13: the default role.  When the role is omitted, a successful `sign`
records the signature under `"self"`, and a later `sign` on that envelope with
the role omitted, or with the role `"self"` given, fails with a validation
error and changes nothing; with a key present the error is the
duplicate-signature error. -/
theorem sign_defaults_to_self (crypto crypto' : ICardCrypto PrivateKey)
    (p : IRawSignParams PrivateKey) (signed : RawSignedModel)
    (hrole : p.signer = none)
    (hfirst : sign crypto p = { model := some signed, result := .ok () }) :
    (∃ before entry, signed.signatures = some (before ++ [entry]) ∧ entry.signer = "self") ∧
    ∀ (key' : Option PrivateKey) (extraFields' : Option IExtraData) (role' : Option String),
      role' = none ∨ role' = some "self" →
      ∃ e, IsValidationError e ∧
        sign crypto' { model := some signed, signerPrivateKey := key',
                       extraFields := extraFields', signer := role' }
          = { model := some signed, result := .error e } ∧
        (key' ≠ none → e = alreadyHasSignature) := by
  obtain ⟨model, key, signatures, signature, _, _, hs, _, _, hsign⟩ :=
    sign_ok_inv crypto p (by rw [hfirst])
  rw [hfirst] at hsign
  have hsigned : signed = { model with signatures := some (signatures ++
      [expectedEntry (finalSigner p.signer) signature p.extraFields]) } := by
    injection hsign with h1 _
    exact Option.some.inj h1
  have hself : finalSigner p.signer = "self" := by rw [hrole]; rfl
  refine ⟨⟨signatures, _, by rw [hsigned], by simp [expectedEntry, hself]⟩, ?_⟩
  intro key' extraFields' role' hrole'
  have hfinal : finalSigner role' = "self" := by
    rcases hrole' with h | h <;> rw [h] <;> rfl
  cases key' with
  | none =>
    exact ⟨signerPrivateKeyIsMandatory, Or.inr (Or.inl rfl),
      sign_of_prepareParams_error crypto' _ _ (prepareParams_key_null _ signed rfl rfl),
      fun h => absurd rfl h⟩
  | some k =>
    refine ⟨alreadyHasSignature, Or.inr (Or.inr rfl),
      sign_of_prepareParams_error crypto' _ _ (prepareParams_duplicate _ signed k rfl rfl ?_),
      fun _ => rfl⟩
    refine ⟨signatures ++ [expectedEntry (finalSigner p.signer) signature p.extraFields],
      by rw [hsigned], expectedEntry (finalSigner p.signer) signature p.extraFields,
      by simp, ?_⟩
    show finalSigner p.signer = finalSigner role'
    rw [hself, hfinal]

/-- C13, witness: the empty envelope signed with the role omitted holds one
entry under `"self"`; signing it again under `"self"` fails as a duplicate. -/
theorem sign_defaults_to_self_witness :
    Example.omittedRoleRequest.signer = none ∧
    sign Example.toySigner Example.omittedRoleRequest
      = { model := some Example.signedBySelf, result := .ok () } ∧
    ∃ e, IsValidationError e ∧
      sign Example.toySigner { model := some Example.signedBySelf, signerPrivateKey := some 6,
                               extraFields := none, signer := some "self" }
        = { model := some Example.signedBySelf, result := .error e } ∧
      ((some 6 : Option Nat) ≠ none → e = alreadyHasSignature) :=
  ⟨rfl, rfl, (sign_defaults_to_self Example.toySigner Example.toySigner
    Example.omittedRoleRequest Example.signedBySelf rfl rfl).2 (some 6) none (some "self")
    (Or.inr rfl)⟩

end Virgil.ModelSigner

/-! ## Request signer and validator, end to end -/

namespace Virgil

variable {PublicKey PrivateKey Request : Type}

theorem JsObject.get_set_other {α : Type} (obj : JsObject α) (key other : String) (value : α)
    (h : other ≠ key) :
    JsObject.get (JsObject.set obj key value) other = JsObject.get obj other := by
  induction obj with
  | nil =>
    simp only [JsObject.set, JsObject.get]
    rw [if_neg (fun hk => h hk.symm)]
  | cons e rest ih =>
    obtain ⟨k, v⟩ := e
    have hne : ¬ key = other := fun h' => h h'.symm
    by_cases hk : k = key
    · subst hk
      simp only [JsObject.set, JsObject.get, if_true]
      rw [if_neg hne, if_neg hne]
    · simp only [JsObject.set, if_neg hk, JsObject.get]
      rw [ih]

namespace RequestSigner

open CardValidator

/-- The toy provider is correct for every non-empty key, which is its own
public key. -/
theorem toyCrypto_correctFor (key : Buffer) (hkey : key ≠ []) :
    Example.toyCrypto.CorrectFor key key :=
  ⟨key, by simp [Example.toyCrypto, hkey],
    fun data => ⟨key ++ data, by simp [Example.toyCrypto, hkey], by simp [Example.toyCrypto]⟩⟩

set_option maxRecDepth 100000 in
/-- C14, counterexample: the provider is correct for the owner's and the
service's key pairs, and the snapshot is one whose fingerprint has the service
card id as its hex text.  `selfSign` writes the owner's signature under that
id and `authoritySign` under the service card id overwrites it: the request
holds one entry, the service's, and the default validator judges the card
invalid, the entry under the card id not verifying against the owner's key. -/
theorem validate_rejects_card_with_service_id :
    Example.toyCrypto.CorrectFor [5] [5] ∧
    Example.toyCrypto.CorrectFor Example.servicePem (Buffer.fromBase64 SERVICE_PUBLIC_KEY) ∧
    cardValidator Buffer.fromBase64 Example.toyCrypto = .ok Example.defaultVerifiers ∧
    Buffer.toHex (Example.toyCrypto.calculateFingerprint Example.serviceIdOctets)
      = SERVICE_CARD_ID ∧
    (selfSign RecordedRequest.methods Example.toyCrypto
        { snapshot := Example.serviceIdOctets, signatures := [] } [5]).bind
      (fun request => authoritySign RecordedRequest.methods Example.toyCrypto request
        SERVICE_CARD_ID Example.servicePem)
      = .ok { snapshot := Example.serviceIdOctets,
              signatures := [(SERVICE_CARD_ID, Example.servicePem ++ Example.serviceIdOctets)] } ∧
    validate Example.toyCrypto Example.defaultVerifiers
      { id := SERVICE_CARD_ID, snapshot := Example.serviceIdOctets, publicKey := [5],
        version := "4.0",
        signatures := some [(SERVICE_CARD_ID, Example.servicePem ++ Example.serviceIdOctets)] }
      = .ok false :=
  ⟨toyCrypto_correctFor [5] (by decide),
    toyCrypto_correctFor Example.servicePem (by decide), rfl, by decide, rfl, rfl⟩

/-- C14, as amended: end to end.  Let the provider be correct for the owner's
key pair and for the service's key pair, the service's public key being the
base64-decoded `SERVICE_PUBLIC_KEY`, and let the snapshot be one whose id, the
hex text of its fingerprint, is not the service card id.  Then a validator is
made, `selfSign` with the owner's private key and then `authoritySign` under
the service card id with the service's private key return on a request for the
snapshot without signatures, the request then holds exactly the two signatures
of the fingerprint, under the card id and under the service card id, and the
card made of the snapshot, that id, the owner's public key and those
signatures is judged valid by the freshly made validator. -/
theorem validate_accepts_request_signatures (base64Decode : String → Buffer)
    (crypto : VirgilCrypto PublicKey PrivateKey)
    (ownerPrivateKey servicePrivateKey : PrivateKey) (ownerPublicKey snapshot : Buffer)
    (version : String)
    (howner : crypto.CorrectFor ownerPrivateKey ownerPublicKey)
    (hservice : crypto.CorrectFor servicePrivateKey (base64Decode SERVICE_PUBLIC_KEY))
    (hdistinct : Buffer.toHex (crypto.calculateFingerprint snapshot) ≠ SERVICE_CARD_ID) :
    ∃ verifiers selfSigned signed ownerSignature serviceSignature,
      cardValidator base64Decode crypto = .ok verifiers ∧
      selfSign RecordedRequest.methods crypto { snapshot := snapshot, signatures := [] }
        ownerPrivateKey = .ok selfSigned ∧
      authoritySign RecordedRequest.methods crypto selfSigned SERVICE_CARD_ID
        servicePrivateKey = .ok signed ∧
      crypto.sign (crypto.calculateFingerprint snapshot) ownerPrivateKey
        = .ok ownerSignature ∧
      crypto.sign (crypto.calculateFingerprint snapshot) servicePrivateKey
        = .ok serviceSignature ∧
      signed.signatures
        = [(Buffer.toHex (crypto.calculateFingerprint snapshot), ownerSignature),
            (SERVICE_CARD_ID, serviceSignature)] ∧
      validate crypto verifiers
        { id := Buffer.toHex (crypto.calculateFingerprint snapshot), snapshot := snapshot,
          publicKey := ownerPublicKey, version := version,
          signatures := some signed.signatures } = .ok true := by
  obtain ⟨ownerKey, hownerImport, hownerSigns⟩ := howner
  obtain ⟨serviceKey, hserviceImport, hserviceSigns⟩ := hservice
  obtain ⟨ownerSignature, hownerSign, hownerVerify⟩ :=
    hownerSigns (crypto.calculateFingerprint snapshot)
  obtain ⟨serviceSignature, hserviceSign, hserviceVerify⟩ :=
    hserviceSigns (crypto.calculateFingerprint snapshot)
  have hne : ¬ Buffer.toHex (crypto.calculateFingerprint snapshot) = SERVICE_CARD_ID :=
    hdistinct
  refine ⟨[(SERVICE_CARD_ID, serviceKey)],
    { snapshot := snapshot,
      signatures := [(Buffer.toHex (crypto.calculateFingerprint snapshot), ownerSignature)] },
    { snapshot := snapshot,
      signatures := [(Buffer.toHex (crypto.calculateFingerprint snapshot), ownerSignature),
        (SERVICE_CARD_ID, serviceSignature)] },
    ownerSignature, serviceSignature, ?_, ?_, ?_, hownerSign, hserviceSign, rfl, ?_⟩
  · simp [cardValidator, addVerifier, hserviceImport, JsObject.set]
  · simp [selfSign, RecordedRequest.methods, hownerSign, JsObject.set]
  · simp [authoritySign, RecordedRequest.methods, hserviceSign, JsObject.set, hne]
  · by_cases hv : version = "3.0"
    · simp [validate, canValidate, hv]
    · refine validate_of_allChecksHold crypto _ _ hv ⟨rfl, ⟨_, ownerSignature, ownerKey, rfl,
        by simp [JsObject.get], hownerImport, hownerVerify⟩, ?_⟩
      intro signerId key hmem
      simp only [List.mem_singleton, Prod.mk.injEq] at hmem
      obtain ⟨rfl, rfl⟩ := hmem
      exact ⟨_, serviceSignature, rfl, by simp [JsObject.get, hne], hserviceVerify⟩

set_option maxRecDepth 100000 in
/-- C14, witness: the request for the snapshot `ab` is signed by its owner
(key `05`), then by the service; the card made of the snapshot, the id `ab`,
the owner's key and the two signatures of the request is judged valid by the
validator freshly made for the toy provider. -/
theorem validate_accepts_request_signatures_witness :
    Example.toyCrypto.CorrectFor [5] [5] ∧
    Example.toyCrypto.CorrectFor Example.servicePem (Buffer.fromBase64 SERVICE_PUBLIC_KEY) ∧
    Buffer.toHex (Example.toyCrypto.calculateFingerprint [0xab]) ≠ SERVICE_CARD_ID ∧
    cardValidator Buffer.fromBase64 Example.toyCrypto = .ok Example.defaultVerifiers ∧
    (selfSign RecordedRequest.methods Example.toyCrypto Example.freshRequest [5]).bind
      (fun request => authoritySign RecordedRequest.methods Example.toyCrypto request
        SERVICE_CARD_ID Example.servicePem)
      = .ok { snapshot := [0xab],
              signatures := [("ab", [5, 0xab]), (SERVICE_CARD_ID, Example.servicePem ++ [0xab])] } ∧
    validate Example.toyCrypto Example.defaultVerifiers
      { id := "ab", snapshot := [0xab], publicKey := [5], version := "4.0",
        signatures := some [("ab", [5, 0xab]),
          (SERVICE_CARD_ID, Example.servicePem ++ [0xab])] } = .ok true ∧
    ∃ verifiers selfSigned signed ownerSignature serviceSignature,
      cardValidator Buffer.fromBase64 Example.toyCrypto = .ok verifiers ∧
      selfSign RecordedRequest.methods Example.toyCrypto
        { snapshot := [0xab], signatures := [] } [5] = .ok selfSigned ∧
      authoritySign RecordedRequest.methods Example.toyCrypto selfSigned SERVICE_CARD_ID
        Example.servicePem = .ok signed ∧
      Example.toyCrypto.sign (Example.toyCrypto.calculateFingerprint [0xab]) [5]
        = .ok ownerSignature ∧
      Example.toyCrypto.sign (Example.toyCrypto.calculateFingerprint [0xab])
        Example.servicePem = .ok serviceSignature ∧
      signed.signatures
        = [(Buffer.toHex (Example.toyCrypto.calculateFingerprint [0xab]), ownerSignature),
            (SERVICE_CARD_ID, serviceSignature)] ∧
      validate Example.toyCrypto verifiers
        { id := Buffer.toHex (Example.toyCrypto.calculateFingerprint [0xab]),
          snapshot := [0xab], publicKey := [5], version := "4.0",
          signatures := some signed.signatures } = .ok true :=
  ⟨toyCrypto_correctFor [5] (by decide),
    toyCrypto_correctFor Example.servicePem (by decide), by decide, rfl, rfl, rfl,
    validate_accepts_request_signatures Buffer.fromBase64 Example.toyCrypto [5]
      Example.servicePem [5] [0xab] "4.0" (toyCrypto_correctFor [5] (by decide))
      (toyCrypto_correctFor Example.servicePem (by decide)) (by decide)⟩

/-- C16: what the request signer appends.  `selfSign` makes one
`appendSignature` call, keyed by the hex text of the fingerprint of the
request's snapshot and holding `crypto.sign(fingerprint, privateKey)`;
`authoritySign` makes one such call keyed by the given signer id; on a
`RecordedRequest` the call writes that one entry and leaves the others.  For a
card with the same snapshot, the key `selfSign` uses is exactly the id that
`verifyFingerprint` accepts, and the key under which `verifyOwnSignature`
looks the owner's signature up. -/
theorem selfSign_key_is_card_id (methods : SignableRequestMethods Request)
    (crypto : VirgilCrypto PublicKey PrivateKey) (request : Request)
    (privateKey : PrivateKey) (signerId : String) :
    (selfSign methods crypto request privateKey =
      match crypto.sign (crypto.calculateFingerprint (methods.getSnapshot request))
          privateKey with
      | .error e => .error e
      | .ok signature =>
        methods.appendSignature request
          (Buffer.toHex (crypto.calculateFingerprint (methods.getSnapshot request)))
          signature) ∧
    (authoritySign methods crypto request signerId privateKey =
      match crypto.sign (crypto.calculateFingerprint (methods.getSnapshot request))
          privateKey with
      | .error e => .error e
      | .ok signature => methods.appendSignature request signerId signature) ∧
    (∀ (recorded after : RecordedRequest) (signature : Buffer),
      crypto.sign (crypto.calculateFingerprint recorded.snapshot) privateKey = .ok signature →
      (selfSign RecordedRequest.methods crypto recorded privateKey = .ok after →
        after.snapshot = recorded.snapshot ∧
        JsObject.get after.signatures
          (Buffer.toHex (crypto.calculateFingerprint recorded.snapshot)) = some signature ∧
        ∀ other, other ≠ Buffer.toHex (crypto.calculateFingerprint recorded.snapshot) →
          JsObject.get after.signatures other = JsObject.get recorded.signatures other) ∧
      (authoritySign RecordedRequest.methods crypto recorded signerId privateKey = .ok after →
        after.snapshot = recorded.snapshot ∧
        JsObject.get after.signatures signerId = some signature ∧
        ∀ other, other ≠ signerId →
          JsObject.get after.signatures other = JsObject.get recorded.signatures other)) ∧
    (∀ card : CardModel, card.snapshot = methods.getSnapshot request →
      (verifyFingerprint (crypto.calculateFingerprint card.snapshot) card = true ↔
        card.id = Buffer.toHex (crypto.calculateFingerprint (methods.getSnapshot request))) ∧
      (∀ signatures, card.signatures = some signatures →
        verifyFingerprint (crypto.calculateFingerprint card.snapshot) card = true →
        verifyOwnSignature crypto (crypto.calculateFingerprint card.snapshot) card =
          match JsObject.get signatures
              (Buffer.toHex (crypto.calculateFingerprint (methods.getSnapshot request))) with
          | none => .ok false
          | some sign =>
            match crypto.importPublicKey card.publicKey with
            | .error e => .error e
            | .ok publicKey =>
              crypto.verify (crypto.calculateFingerprint card.snapshot) (.buffer sign)
                publicKey)) := by
  refine ⟨rfl, rfl, ?_, ?_⟩
  · intro recorded after signature hsign
    constructor
    · intro h
      simp only [selfSign, RecordedRequest.methods, hsign, Except.ok.injEq] at h
      subst h
      exact ⟨rfl, JsObject.get_set_self _ _ _, fun other hne =>
        JsObject.get_set_other _ _ _ _ hne⟩
    · intro h
      simp only [authoritySign, RecordedRequest.methods, hsign, Except.ok.injEq] at h
      subst h
      exact ⟨rfl, JsObject.get_set_self _ _ _, fun other hne =>
        JsObject.get_set_other _ _ _ _ hne⟩
  · intro card hsnapshot
    constructor
    · simp [verifyFingerprint, hsnapshot]
    · intro signatures hs hfp
      have hid : card.id
          = Buffer.toHex (crypto.calculateFingerprint (methods.getSnapshot request)) := by
        simpa [verifyFingerprint, hsnapshot] using hfp
      have hn : card.id ∉ objectPrototypeNames := by
        rw [hid]
        exact Buffer.toHex_not_inherited _
      unfold verifyOwnSignature
      rw [readSignature_of_not_inherited card signatures card.id hs hn, hid]
      cases JsObject.get signatures
        (Buffer.toHex (crypto.calculateFingerprint (methods.getSnapshot request))) <;> rfl

/-- C16, witness: `selfSign` on the fresh request for the snapshot `ab` writes
the signature `05 ab` under `"ab"`, the id of the signed card. -/
theorem selfSign_key_is_card_id_witness :
    selfSign RecordedRequest.methods Example.toyCrypto Example.freshRequest [5]
      = .ok { snapshot := [0xab], signatures := [("ab", [5, 0xab])] } ∧
    Example.signedCard.snapshot = RecordedRequest.methods.getSnapshot Example.freshRequest ∧
    (verifyFingerprint (Example.toyCrypto.calculateFingerprint Example.signedCard.snapshot)
        Example.signedCard = true ↔
      Example.signedCard.id = Buffer.toHex (Example.toyCrypto.calculateFingerprint
        (RecordedRequest.methods.getSnapshot Example.freshRequest))) :=
  ⟨rfl, rfl,
    ((selfSign_key_is_card_id RecordedRequest.methods Example.toyCrypto Example.freshRequest
      [5] "svc").2.2.2 Example.signedCard rfl).1⟩

end RequestSigner

end Virgil

/-! ## Model signer against card validator -/

namespace Virgil.CardValidator

variable {PublicKey PrivateKey : Type}

open ModelSigner in
/-- C15, counterexample: the provider is correct for the key pair, the model
signer signs the envelope `abc` under `"svc"`, and the validator's check of
that signature against the fingerprint of `abc` answers `false`: the signature
is one of the snapshot, not of its fingerprint. -/
theorem modelSigner_signature_fails_fingerprint_check :
    Example.digestCrypto.CorrectFor [5] [5] ∧
    sign Example.digestCrypto.cardCrypto Example.bufferKeyRequest =
      { model := some { contentSnapshot := Buffer.fromUtf8 "abc",
                        signatures := some [{ signer := "svc",
                                              signature := Buffer.toBase64 [5, 97, 98, 99],
                                              snapshot := none }] },
        result := .ok () } ∧
    Example.digestCrypto.verify
      (Example.digestCrypto.calculateFingerprint (Buffer.fromUtf8 "abc"))
      (.buffer [5, 97, 98, 99]) [5] = .ok false ∧
    verifySigner Example.digestCrypto
      (Example.digestCrypto.calculateFingerprint (Buffer.fromUtf8 "abc"))
      { id := "03", snapshot := Buffer.fromUtf8 "abc", publicKey := [5], version := "4.0",
        signatures := some [("svc", [5, 97, 98, 99])] } ("svc", [5]) = .ok false :=
  ⟨⟨[5], rfl, fun data => ⟨[5] ++ data, rfl, by simp [Example.digestCrypto]⟩⟩,
    rfl, rfl, rfl⟩

open ModelSigner in
/-- C15, as amended: for a provider correct for the key pair, the entry that
`ModelSigner.sign` produces with the private key and no extra fields holds the
base64 text of a signature of the content snapshot itself, which verifies
against the public key for the octets of the snapshot.  The validator checks
the signature of a role against the fingerprint of the snapshot: its check of
this signature is `verify(calculateFingerprint(S), signature, key)`, on other
data than the data signed. -/
theorem modelSigner_signs_snapshot_itself (crypto : VirgilCrypto PublicKey PrivateKey)
    (p : IRawSignParams PrivateKey) (model : RawSignedModel)
    (signatures : List IRawSignature) (privateKey : PrivateKey) (publicKey : Buffer)
    (hcorrect : crypto.CorrectFor privateKey publicKey)
    (hm : p.model = some model) (hk : p.signerPrivateKey = some privateKey)
    (hextra : p.extraFields = none) (hs : model.signatures = some signatures)
    (hnew : ¬ HoldsEntryFor model (finalSigner p.signer)) :
    ∃ signature key,
      sign crypto.cardCrypto p =
        { model := some { model with signatures := some (signatures ++
            [{ signer := finalSigner p.signer, signature := Buffer.toBase64 signature,
               snapshot := none }]) },
          result := .ok () } ∧
      crypto.importPublicKey publicKey = .ok key ∧
      crypto.verify model.contentSnapshot (.buffer signature) key = .ok true ∧
      ∀ (card : CardModel) (cardSignatures : JsObject Buffer),
        card.snapshot = model.contentSnapshot →
        card.signatures = some cardSignatures →
        JsObject.get cardSignatures (finalSigner p.signer) = some signature →
        verifySigner crypto (crypto.calculateFingerprint card.snapshot) card
            (finalSigner p.signer, key)
          = crypto.verify (crypto.calculateFingerprint model.contentSnapshot)
              (.buffer signature) key := by
  obtain ⟨key, himport, hsigns⟩ := hcorrect
  obtain ⟨signature, hsign, hverify⟩ := hsigns model.contentSnapshot
  have hpayload : crypto.cardCrypto.generateSignature (signedPayload model p.extraFields)
      privateKey = .ok signature := by
    rw [hextra]
    exact hsign
  refine ⟨signature, key, ?_, himport, hverify, ?_⟩
  · rw [sign_of_success crypto.cardCrypto p model privateKey signatures signature hm hk hs hnew
      hpayload]
    simp [expectedEntry, hextra]
  · intro card cardSignatures hsnapshot hcard hget
    simp [verifySigner, readSignature_of_get card cardSignatures _ signature hcard hget,
      hsnapshot]

open ModelSigner in
/-- C15, witness: `toyCrypto` takes the data itself as fingerprint; the
envelope `abc` is signed under `"svc"` with the key `05`, and the signature
verifies for the octets of `abc`. -/
theorem modelSigner_signs_snapshot_itself_witness :
    Example.toyCrypto.CorrectFor [5] [5] ∧
    ¬ HoldsEntryFor Example.emptyEnvelope (finalSigner Example.bufferKeyRequest.signer) ∧
    ∃ signature key,
      sign Example.toyCrypto.cardCrypto Example.bufferKeyRequest =
        { model := some { Example.emptyEnvelope with signatures := some ([] ++
            [{ signer := finalSigner Example.bufferKeyRequest.signer,
               signature := Buffer.toBase64 signature, snapshot := none }]) },
          result := .ok () } ∧
      Example.toyCrypto.importPublicKey [5] = .ok key ∧
      Example.toyCrypto.verify Example.emptyEnvelope.contentSnapshot
        (.buffer signature) key = .ok true := by
  have hcorrect : Example.toyCrypto.CorrectFor [5] [5] :=
    ⟨[5], rfl, fun data => ⟨[5] ++ data, rfl, by simp [Example.toyCrypto]⟩⟩
  have hnew : ¬ HoldsEntryFor Example.emptyEnvelope
      (finalSigner Example.bufferKeyRequest.signer) := by
    rintro ⟨signatures, hs, s, hmem, _⟩
    cases hs
    cases hmem
  obtain ⟨signature, key, h1, h2, h3, _⟩ := modelSigner_signs_snapshot_itself
    Example.toyCrypto Example.bufferKeyRequest Example.emptyEnvelope [] [5] [5] hcorrect
    rfl rfl rfl rfl hnew
  exact ⟨hcorrect, hnew, signature, key, h1, h2, h3⟩

/-! ## Card validator: default verifier, exceptions, reasons -/

theorem every_eq_false {α : Type} (f : α → Except JsError Bool) (l : List α)
    (h : every f l = .ok false) : ∃ a ∈ l, f a = .ok false := by
  induction l with
  | nil => simp [every] at h
  | cons a rest ih =>
    cases hfa : f a with
    | error e => simp [every, hfa] at h
    | ok b =>
      cases b with
      | false => exact ⟨a, List.mem_cons_self a rest, hfa⟩
      | true =>
        simp only [every, hfa] at h
        obtain ⟨x, hx, hfx⟩ := ih h
        exact ⟨x, List.mem_cons_of_mem a hx, hfx⟩

set_option maxRecDepth 20000 in
/-- C17: a freshly made validator has exactly one verifier, the service card
id with the imported, base64-decoded service public key, and with it a
non-legacy card whose signature under the service card id is missing or does
not verify is never judged valid.  But it is not always judged invalid: on the
card signed by its owner only, whose public key the provider cannot import,
`validate` throws, the import of the card's own key coming before the check of
the service's signature; with a key that is imported the same card is judged
invalid. -/
theorem default_validator_raises_before_service_check :
    (cardValidator Buffer.fromBase64 Example.toyCrypto = .ok Example.defaultVerifiers ∧
      Example.ownerOnlyCardWithBadKey.version ≠ "3.0" ∧
      Example.ownerOnlyCardWithBadKey.signatures = some [("ab", [5, 0xab])] ∧
      JsObject.get [("ab", ([5, 0xab] : Buffer))] SERVICE_CARD_ID = none ∧
      validate Example.toyCrypto Example.defaultVerifiers Example.ownerOnlyCardWithBadKey
        = .error (.error "invalid public key")) ∧
    validate Example.toyCrypto Example.defaultVerifiers Example.ownerOnlyCard = .ok false ∧
    ∀ (PublicKey PrivateKey : Type) (base64Decode : String → Buffer)
      (crypto : VirgilCrypto PublicKey PrivateKey) (verifiers : Verifiers PublicKey),
      cardValidator base64Decode crypto = .ok verifiers →
      ∃ serviceKey,
        crypto.importPublicKey (base64Decode SERVICE_PUBLIC_KEY) = .ok serviceKey ∧
        verifiers = [(SERVICE_CARD_ID, serviceKey)] ∧
        ∀ card : CardModel, card.version ≠ "3.0" →
          ¬ SignerSignatureVerifies crypto card SERVICE_CARD_ID serviceKey →
          validate crypto verifiers card ≠ .ok true := by
  refine ⟨⟨rfl, by decide, rfl, by decide, rfl⟩, rfl, ?_⟩
  intro _ _ base64Decode crypto verifiers hnew
  obtain ⟨serviceKey, himport, hverifiers⟩ := cardValidator_inv base64Decode crypto verifiers hnew
  refine ⟨serviceKey, himport, hverifiers, fun card hv hbad hvalid => hbad ?_⟩
  have hcheck := ((validate_eq_true_iff_checks crypto verifiers card hv).1 hvalid).2.2
    (SERVICE_CARD_ID, serviceKey) (by rw [hverifiers]; exact List.mem_singleton.2 rfl)
  exact (verifySigner_eq_true_iff crypto card (SERVICE_CARD_ID, serviceKey)
    (show SERVICE_CARD_ID ∉ objectPrototypeNames by decide)).1 hcheck

set_option maxRecDepth 50000 in
/-- C18: four cards for which the freshly made validator throws instead of
returning a verdict: a card with a matching id and no signatures collection
(the read of `card.signatures[card.id]` throws a `TypeError`), a card whose
public key the provider cannot import, a card whose owner's signature entry is
an empty buffer, on which the provider's `verify` throws, and, once a verifier
is added under `toString`, a card without an entry under that id, where
`verify` is handed the inherited method and throws its `TypeError`. -/
theorem validate_lets_exceptions_escape :
    cardValidator Buffer.fromBase64 Example.toyCrypto = .ok Example.defaultVerifiers ∧
    validate Example.toyCrypto Example.defaultVerifiers Example.unsignedCard
      = .error signaturesUndefined ∧
    validate Example.toyCrypto Example.defaultVerifiers Example.cardWithRejectedKey
      = .error (.error "invalid public key") ∧
    cardValidator Buffer.fromBase64 Example.strictCrypto = .ok Example.defaultVerifiers ∧
    validate Example.strictCrypto Example.defaultVerifiers Example.cardWithEmptySignature
      = .error (.error "malformed signature") ∧
    (cardValidator Buffer.fromBase64 Example.toyCrypto).bind (fun fresh =>
      addVerifier Buffer.fromBase64 Example.toyCrypto fresh "toString" (.buffer [7]))
      = .ok Example.defaultThenToString ∧
    validate Example.toyCrypto Example.defaultThenToString Example.cardSignedByOwnerAndService
      = .error Example.signatureMustBeBuffer :=
  ⟨rfl, rfl, rfl, rfl, rfl, rfl, rfl⟩

/-- C19, counterexample: a card with a fingerprint mismatch, a card without
the owner's signature and a card without the verifier's signature all get the
same verdict, the boolean `false`; no reason can be read off the verdict. -/
theorem validate_verdict_carries_no_reason :
    validate Example.toyCrypto Example.toyVerifiers Example.mismatchedCard = .ok false ∧
    validate Example.toyCrypto Example.toyVerifiers Example.serviceOnlyCard = .ok false ∧
    validate Example.toyCrypto Example.toyVerifiers Example.ownerOnlyCard = .ok false ∧
    ¬ ∃ reasonOf : Bool → InvalidReason, ∀ card verdict,
        validate Example.toyCrypto Example.toyVerifiers card = .ok verdict → verdict = false →
        FailsWith Example.toyCrypto Example.toyVerifiers card (reasonOf verdict) := by
  refine ⟨rfl, rfl, rfl, ?_⟩
  rintro ⟨reasonOf, h⟩
  have h1 := h Example.mismatchedCard false rfl rfl
  have h2 := h Example.serviceOnlyCard false rfl rfl
  have hmismatch : ¬ FingerprintMatches Example.toyCrypto Example.mismatchedCard := by
    unfold FingerprintMatches
    decide
  have hmatch : FingerprintMatches Example.toyCrypto Example.serviceOnlyCard := by
    unfold FingerprintMatches
    decide
  cases hr : reasonOf false with
  | fingerprintMismatch =>
    rw [hr] at h2
    exact h2 hmatch
  | ownerSignatureInvalid =>
    rw [hr] at h1
    exact hmismatch h1.1
  | verifierSignatureInvalid signerId =>
    rw [hr] at h1
    exact hmismatch h1.1

/-- C19, as amended: the verdict of `validate` is a bare boolean and carries
no reason.  When a non-legacy card is judged invalid, one of the three checks
answered `false`: the fingerprint check; or, the fingerprint matching, the
owner's check; or, both passing, the check of a configured verifier.  A card
on which one of them answers `false` is never judged valid. -/
theorem validate_false_has_a_failing_check (crypto : VirgilCrypto PublicKey PrivateKey)
    (verifiers : Verifiers PublicKey) (card : CardModel) (hv : card.version ≠ "3.0") :
    (validate crypto verifiers card = .ok false →
      ∃ reason, FailsWith crypto verifiers card reason) ∧
    (∀ reason, FailsWith crypto verifiers card reason →
      validate crypto verifiers card ≠ .ok true) := by
  constructor
  · intro h
    rw [validate_of_canValidate crypto verifiers card hv] at h
    by_cases hid : card.id = Buffer.toHex (crypto.calculateFingerprint card.snapshot)
    · simp only [hid, if_true] at h
      cases hown : verifyOwnSignature crypto (crypto.calculateFingerprint card.snapshot)
          card with
      | error e => simp [hown] at h
      | ok b =>
        cases b with
        | false => exact ⟨.ownerSignatureInvalid, hid, hown⟩
        | true =>
          rw [hown] at h
          simp only [verifySignatures] at h
          obtain ⟨verifier, hmem, hfalse⟩ := every_eq_false _ _ h
          exact ⟨.verifierSignatureInvalid verifier.1, hid, hown, verifier.2,
            (JsObject.mem_entries verifiers verifier).1 hmem, hfalse⟩
    · exact ⟨.fingerprintMismatch, hid⟩
  · intro reason hfails hvalid
    obtain ⟨hfp, howner, hall⟩ :=
      (validate_eq_true_iff_checks crypto verifiers card hv).1 hvalid
    cases reason with
    | fingerprintMismatch => exact hfails hfp
    | ownerSignatureInvalid =>
      rw [hfails.2] at howner
      cases howner
    | verifierSignatureInvalid signerId =>
      obtain ⟨_, _, key, hmem, hfalse⟩ := hfails
      have := hall (signerId, key) hmem
      rw [hfalse] at this
      cases this

/-- C19, witness: the card without the verifier's signature is judged invalid,
and the failing check is the one of `"svc"`. -/
theorem validate_false_has_a_failing_check_witness :
    Example.ownerOnlyCard.version ≠ "3.0" ∧
    validate Example.toyCrypto Example.toyVerifiers Example.ownerOnlyCard = .ok false ∧
    (∃ reason, FailsWith Example.toyCrypto Example.toyVerifiers Example.ownerOnlyCard reason) ∧
    FailsWith Example.toyCrypto Example.toyVerifiers Example.ownerOnlyCard
      (.verifierSignatureInvalid "svc") := by
  have hfp : FingerprintMatches Example.toyCrypto Example.ownerOnlyCard := by
    unfold FingerprintMatches
    decide
  exact ⟨by decide, rfl,
    (validate_false_has_a_failing_check Example.toyCrypto Example.toyVerifiers
      Example.ownerOnlyCard (by decide)).1 rfl,
    ⟨hfp, rfl, [7], List.mem_singleton.2 rfl, rfl⟩⟩

/-! ## Card validator: order of verifiers and of signature entries -/

theorem JsObject.get_set {α : Type} (obj : JsObject α) (key other : String) (value : α) :
    JsObject.get (JsObject.set obj key value) other
      = if other = key then some value else JsObject.get obj other := by
  by_cases h : other = key
  · rw [if_pos h, h]
    exact JsObject.get_set_self obj key value
  · rw [if_neg h]
    exact JsObject.get_set_other obj key other value h

theorem JsObject.mem_keys_set {α : Type} (obj : JsObject α) (key other : String) (value : α) :
    other ∈ (JsObject.set obj key value).map Prod.fst ↔
      other = key ∨ other ∈ obj.map Prod.fst := by
  induction obj with
  | nil => simp [JsObject.set]
  | cons e rest ih =>
    obtain ⟨k, v⟩ := e
    by_cases hk : k = key
    · subst hk
      simp [JsObject.set]
    · simp only [JsObject.set, if_neg hk, List.map_cons, List.mem_cons, ih]
      tauto

theorem JsObject.set_keys_nodup {α : Type} (obj : JsObject α) (key : String) (value : α)
    (h : (obj.map Prod.fst).Nodup) : ((JsObject.set obj key value).map Prod.fst).Nodup := by
  induction obj with
  | nil => simp [JsObject.set]
  | cons e rest ih =>
    obtain ⟨k, v⟩ := e
    simp only [List.map_cons, List.nodup_cons] at h
    by_cases hk : k = key
    · subst hk
      simpa [JsObject.set] using h
    · simp only [JsObject.set, if_neg hk, List.map_cons, List.nodup_cons]
      refine ⟨fun hmem => ?_, ih h.2⟩
      rcases (JsObject.mem_keys_set rest key k value).1 hmem with h' | h'
      · exact hk h'
      · exact h.1 h'

theorem JsObject.get_of_mem {α : Type} (obj : JsObject α) (key : String) (value : α)
    (hnodup : (obj.map Prod.fst).Nodup) (hmem : (key, value) ∈ obj) :
    JsObject.get obj key = some value := by
  induction obj with
  | nil => cases hmem
  | cons e rest ih =>
    obtain ⟨k, v⟩ := e
    simp only [List.map_cons, List.nodup_cons] at hnodup
    rcases List.mem_cons.1 hmem with h | h
    · cases h
      simp [JsObject.get]
    · have hk : ¬ k = key := by
        intro hk
        subst hk
        exact hnodup.1 (List.mem_map.2 ⟨(k, value), h, rfl⟩)
      simp only [JsObject.get, if_neg hk]
      exact ih hnodup.2 h

/-- Two objects with pairwise distinct keys and the same members answer every
property read alike. -/
theorem JsObject.get_eq_of_same_members {α : Type} (a b : JsObject α)
    (ha : (a.map Prod.fst).Nodup) (hb : (b.map Prod.fst).Nodup)
    (h : ∀ e, e ∈ a ↔ e ∈ b) (key : String) : JsObject.get a key = JsObject.get b key := by
  cases hga : JsObject.get a key with
  | some value =>
    exact (JsObject.get_of_mem b key value hb
      ((h _).1 (JsObject.mem_of_get a key value hga))).symm
  | none =>
    cases hgb : JsObject.get b key with
    | none => rfl
    | some value =>
      have := JsObject.get_of_mem a key value ha
        ((h _).2 (JsObject.mem_of_get b key value hgb))
      rw [hga] at this
      cases this

/-- Two objects with pairwise distinct keys that answer every property read
alike have the same members. -/
theorem JsObject.same_members_of_get_eq {α : Type} (a b : JsObject α)
    (ha : (a.map Prod.fst).Nodup) (hb : (b.map Prod.fst).Nodup)
    (h : ∀ key, JsObject.get a key = JsObject.get b key) (e : String × α) :
    e ∈ a ↔ e ∈ b := by
  obtain ⟨key, value⟩ := e
  constructor
  · intro hmem
    exact JsObject.mem_of_get b key value
      (by rw [← h key]; exact JsObject.get_of_mem a key value ha hmem)
  · intro hmem
    exact JsObject.mem_of_get a key value
      (by rw [h key]; exact JsObject.get_of_mem b key value hb hmem)

/-- Whether a card is judged valid depends on the verifiers through their
members only, and on the signatures through the property reads only. -/
theorem validate_congr (crypto : VirgilCrypto PublicKey PrivateKey)
    (verifiers₁ verifiers₂ : Verifiers PublicKey) (card₁ card₂ : CardModel)
    (signatures₁ signatures₂ : JsObject Buffer)
    (hverifiers : ∀ e, e ∈ verifiers₁ ↔ e ∈ verifiers₂)
    (hid : card₂.id = card₁.id) (hsnapshot : card₂.snapshot = card₁.snapshot)
    (hkey : card₂.publicKey = card₁.publicKey) (hversion : card₂.version = card₁.version)
    (hs₁ : card₁.signatures = some signatures₁) (hs₂ : card₂.signatures = some signatures₂)
    (hget : ∀ key, JsObject.get signatures₁ key = JsObject.get signatures₂ key) :
    validate crypto verifiers₁ card₁ = .ok true ↔ validate crypto verifiers₂ card₂ = .ok true := by
  by_cases hv : card₁.version = "3.0"
  · have hv₂ : card₂.version = "3.0" := by rw [hversion, hv]
    simp [validate, canValidate, hv, hv₂]
  · have hv₂ : card₂.version ≠ "3.0" := by rw [hversion]; exact hv
    have hread : ∀ signerId, readSignature card₂ signerId = readSignature card₁ signerId := by
      intro signerId
      simp only [readSignature, hs₁, hs₂, hget]
    have hown : verifyOwnSignature crypto (crypto.calculateFingerprint card₁.snapshot) card₂
        = verifyOwnSignature crypto (crypto.calculateFingerprint card₁.snapshot) card₁ := by
      simp only [verifyOwnSignature, hid, hkey, hread]
    have hsigner : ∀ verifier,
        verifySigner crypto (crypto.calculateFingerprint card₁.snapshot) card₂ verifier
          = verifySigner crypto (crypto.calculateFingerprint card₁.snapshot) card₁ verifier := by
      intro verifier
      simp only [verifySigner, hread]
    rw [validate_eq_true_iff_checks crypto verifiers₁ card₁ hv,
      validate_eq_true_iff_checks crypto verifiers₂ card₂ hv₂, hid, hsnapshot, hown]
    constructor
    · rintro ⟨hfp, ho, hall⟩
      exact ⟨hfp, ho, fun verifier hmem => by
        rw [hsigner]
        exact hall verifier ((hverifiers verifier).2 hmem)⟩
    · rintro ⟨hfp, ho, hall⟩
      exact ⟨hfp, ho, fun verifier hmem => by
        rw [← hsigner]
        exact hall verifier ((hverifiers verifier).1 hmem)⟩

theorem addVerifier_inv (base64Decode : String → Buffer)
    (crypto : VirgilCrypto PublicKey PrivateKey) (verifiers next : Verifiers PublicKey)
    (signerId : String) (publicKey : KeyArgument)
    (h : addVerifier base64Decode crypto verifiers signerId publicKey = .ok next) :
    ∃ key, next = JsObject.set verifiers signerId key ∧
      ∀ other : Verifiers PublicKey,
        addVerifier base64Decode crypto other signerId publicKey
          = .ok (JsObject.set other signerId key) := by
  unfold addVerifier at h ⊢
  simp only at h ⊢
  split at h
  · cases h
  · rename_i key hk
    cases h
    exact ⟨key, rfl, fun _ => rfl⟩

theorem addVerifiers_cons_inv (base64Decode : String → Buffer)
    (crypto : VirgilCrypto PublicKey PrivateKey) (verifiers result : Verifiers PublicKey)
    (x : String × KeyArgument) (rest : List (String × KeyArgument))
    (h : addVerifiers base64Decode crypto verifiers (x :: rest) = .ok result) :
    ∃ key,
      (∀ other : Verifiers PublicKey,
        addVerifier base64Decode crypto other x.1 x.2 = .ok (JsObject.set other x.1 key)) ∧
      addVerifiers base64Decode crypto (JsObject.set verifiers x.1 key) rest = .ok result := by
  obtain ⟨signerId, publicKey⟩ := x
  simp only [addVerifiers] at h
  cases hstep : addVerifier base64Decode crypto verifiers signerId publicKey with
  | error e => simp [hstep] at h
  | ok next =>
    simp only [hstep] at h
    obtain ⟨key, hnext, hall⟩ := addVerifier_inv base64Decode crypto verifiers next signerId
      publicKey hstep
    exact ⟨key, hall, by rw [← hnext]; exact h⟩

theorem addVerifiers_cons_of (base64Decode : String → Buffer)
    (crypto : VirgilCrypto PublicKey PrivateKey) (verifiers : Verifiers PublicKey)
    (x : String × KeyArgument) (rest : List (String × KeyArgument)) (key : PublicKey)
    (h : addVerifier base64Decode crypto verifiers x.1 x.2
      = .ok (JsObject.set verifiers x.1 key)) :
    addVerifiers base64Decode crypto verifiers (x :: rest)
      = addVerifiers base64Decode crypto (JsObject.set verifiers x.1 key) rest := by
  obtain ⟨signerId, publicKey⟩ := x
  simp only [addVerifiers]
  simp only at h
  rw [h]

/-- Every call of a sequence that went through imported its public key,
whatever the state of the validator. -/
theorem addVerifiers_ok_imports (base64Decode : String → Buffer)
    (crypto : VirgilCrypto PublicKey PrivateKey) (added : List (String × KeyArgument))
    (verifiers result : Verifiers PublicKey)
    (h : addVerifiers base64Decode crypto verifiers added = .ok result) :
    ∀ x ∈ added, ∃ key, ∀ other : Verifiers PublicKey,
      addVerifier base64Decode crypto other x.1 x.2 = .ok (JsObject.set other x.1 key) := by
  induction added generalizing verifiers with
  | nil => intro x hx; cases hx
  | cons y rest ih =>
    intro x hx
    obtain ⟨key, hkey, hrest⟩ := addVerifiers_cons_inv base64Decode crypto verifiers result
      y rest h
    rcases List.mem_cons.1 hx with rfl | hx
    · exact ⟨key, hkey⟩
    · exact ih _ hrest x hx

theorem addVerifiers_of_imports (base64Decode : String → Buffer)
    (crypto : VirgilCrypto PublicKey PrivateKey) (added : List (String × KeyArgument))
    (h : ∀ x ∈ added, ∃ key, ∀ other : Verifiers PublicKey,
      addVerifier base64Decode crypto other x.1 x.2 = .ok (JsObject.set other x.1 key))
    (verifiers : Verifiers PublicKey) :
    ∃ result, addVerifiers base64Decode crypto verifiers added = .ok result := by
  induction added generalizing verifiers with
  | nil => exact ⟨verifiers, rfl⟩
  | cons y rest ih =>
    obtain ⟨key, hkey⟩ := h y (List.mem_cons_self y rest)
    rw [addVerifiers_cons_of base64Decode crypto verifiers y rest key (hkey verifiers)]
    exact ih (fun x hx => h x (List.mem_cons_of_mem y hx)) _

/-- The same calls made on two validators whose verifiers answer every read
alike leave verifiers that answer every read alike. -/
theorem addVerifiers_get_congr (base64Decode : String → Buffer)
    (crypto : VirgilCrypto PublicKey PrivateKey) (added : List (String × KeyArgument))
    (v₁ v₂ w₁ w₂ : Verifiers PublicKey)
    (hv : ∀ key, JsObject.get v₁ key = JsObject.get v₂ key)
    (h₁ : addVerifiers base64Decode crypto v₁ added = .ok w₁)
    (h₂ : addVerifiers base64Decode crypto v₂ added = .ok w₂) :
    ∀ key, JsObject.get w₁ key = JsObject.get w₂ key := by
  induction added generalizing v₁ v₂ with
  | nil =>
    simp only [addVerifiers, Except.ok.injEq] at h₁ h₂
    subst h₁ h₂
    exact hv
  | cons x rest ih =>
    obtain ⟨key₁, hkey₁, hrest₁⟩ := addVerifiers_cons_inv base64Decode crypto v₁ w₁ x rest h₁
    obtain ⟨key₂, hkey₂, hrest₂⟩ := addVerifiers_cons_inv base64Decode crypto v₂ w₂ x rest h₂
    have hsame : key₁ = key₂ := by
      have h := (hkey₁ []).symm.trans (hkey₂ [])
      simp only [JsObject.set, Except.ok.injEq, List.cons.injEq, Prod.mk.injEq, and_true,
        true_and] at h
      exact h
    subst hsame
    refine ih _ _ (fun key => ?_) hrest₁ hrest₂
    rw [JsObject.get_set, JsObject.get_set, hv key]

theorem addVerifiers_keys_nodup (base64Decode : String → Buffer)
    (crypto : VirgilCrypto PublicKey PrivateKey) (added : List (String × KeyArgument))
    (verifiers result : Verifiers PublicKey)
    (hnodup : (verifiers.map Prod.fst).Nodup)
    (h : addVerifiers base64Decode crypto verifiers added = .ok result) :
    (result.map Prod.fst).Nodup := by
  induction added generalizing verifiers with
  | nil =>
    simp only [addVerifiers, Except.ok.injEq] at h
    subst h
    exact hnodup
  | cons x rest ih =>
    obtain ⟨key, _, hrest⟩ := addVerifiers_cons_inv base64Decode crypto verifiers result x
      rest h
    exact ih _ (JsObject.set_keys_nodup verifiers x.1 key hnodup) hrest

/-- Calls for pairwise distinct signer ids, made in two orders on validators
whose verifiers answer every read alike, leave verifiers that answer every
read alike. -/
theorem addVerifiers_perm (base64Decode : String → Buffer)
    (crypto : VirgilCrypto PublicKey PrivateKey) (added₁ added₂ : List (String × KeyArgument))
    (hperm : added₁.Perm added₂) (hids : (added₁.map Prod.fst).Nodup)
    (v₁ v₂ w₁ w₂ : Verifiers PublicKey)
    (hv : ∀ key, JsObject.get v₁ key = JsObject.get v₂ key)
    (h₁ : addVerifiers base64Decode crypto v₁ added₁ = .ok w₁)
    (h₂ : addVerifiers base64Decode crypto v₂ added₂ = .ok w₂) :
    ∀ key, JsObject.get w₁ key = JsObject.get w₂ key := by
  induction hperm generalizing v₁ v₂ w₁ w₂ with
  | nil =>
    simp only [addVerifiers, Except.ok.injEq] at h₁ h₂
    subst h₁ h₂
    exact hv
  | cons x _ ih =>
    obtain ⟨key₁, hkey₁, hrest₁⟩ := addVerifiers_cons_inv base64Decode crypto v₁ w₁ x _ h₁
    obtain ⟨key₂, hkey₂, hrest₂⟩ := addVerifiers_cons_inv base64Decode crypto v₂ w₂ x _ h₂
    have hsame : key₁ = key₂ := by
      have h := (hkey₁ []).symm.trans (hkey₂ [])
      simp only [JsObject.set, Except.ok.injEq, List.cons.injEq, Prod.mk.injEq, and_true,
        true_and] at h
      exact h
    subst hsame
    simp only [List.map_cons, List.nodup_cons] at hids
    refine ih hids.2 _ _ _ _ (fun key => ?_) hrest₁ hrest₂
    rw [JsObject.get_set, JsObject.get_set, hv key]
  | swap x y rest =>
    obtain ⟨ky, hky, hrest₁⟩ := addVerifiers_cons_inv base64Decode crypto v₁ w₁ y _ h₁
    obtain ⟨kx, hkx, hrest₁⟩ := addVerifiers_cons_inv base64Decode crypto _ w₁ x _ hrest₁
    obtain ⟨kx', hkx', hrest₂⟩ := addVerifiers_cons_inv base64Decode crypto v₂ w₂ x _ h₂
    obtain ⟨ky', hky', hrest₂⟩ := addVerifiers_cons_inv base64Decode crypto _ w₂ y _ hrest₂
    have hx : kx = kx' := by
      have h := (hkx []).symm.trans (hkx' [])
      simp only [JsObject.set, Except.ok.injEq, List.cons.injEq, Prod.mk.injEq, and_true,
        true_and] at h
      exact h
    have hy : ky = ky' := by
      have h := (hky []).symm.trans (hky' [])
      simp only [JsObject.set, Except.ok.injEq, List.cons.injEq, Prod.mk.injEq, and_true,
        true_and] at h
      exact h
    subst hx hy
    have hne : y.1 ≠ x.1 := by
      simp only [List.map_cons, List.nodup_cons, List.mem_cons, not_or] at hids
      exact hids.1.1
    refine addVerifiers_get_congr base64Decode crypto rest _ _ w₁ w₂ (fun key => ?_)
      hrest₁ hrest₂
    simp only [JsObject.get_set, hv key]
    by_cases hkx : key = x.1
    · have : ¬ key = y.1 := fun h => hne (h.symm.trans hkx)
      simp [hkx, this, Ne.symm hne]
    · simp [hkx]
  | trans hp₁ _ ih₁ ih₂ =>
    obtain ⟨middle, hmiddle⟩ := addVerifiers_of_imports base64Decode crypto _
      (fun x hx => addVerifiers_ok_imports base64Decode crypto _ v₁ w₁ h₁ x
        (hp₁.mem_iff.2 hx)) v₁
    have hids₂ := (hp₁.map Prod.fst).nodup_iff.1 hids
    intro key
    rw [ih₁ hids v₁ v₁ w₁ middle (fun _ => rfl) h₁ hmiddle key]
    exact ih₂ hids₂ v₁ v₂ middle w₂ hv hmiddle h₂ key

/-- For verifiers with pairwise distinct signer ids added to a fresh validator
in two orders, and for two cards that differ only in the order of their
signature entries, `validate` returns `true` for the one exactly when it does
for the other. -/
theorem validate_true_order_independent (base64Decode : String → Buffer)
    (crypto : VirgilCrypto PublicKey PrivateKey)
    (fresh verifiers₁ verifiers₂ : Verifiers PublicKey)
    (added₁ added₂ : List (String × KeyArgument)) (card₁ card₂ : CardModel)
    (signatures₁ signatures₂ : JsObject Buffer)
    (hfresh : cardValidator base64Decode crypto = .ok fresh)
    (hadded : added₁.Perm added₂) (hids : (added₁.map Prod.fst).Nodup)
    (h₁ : addVerifiers base64Decode crypto fresh added₁ = .ok verifiers₁)
    (h₂ : addVerifiers base64Decode crypto fresh added₂ = .ok verifiers₂)
    (hs₁ : card₁.signatures = some signatures₁)
    (hcard : card₂ = { card₁ with signatures := some signatures₂ })
    (hentries : signatures₁.Perm signatures₂)
    (hkeys : (signatures₁.map Prod.fst).Nodup) :
    validate crypto verifiers₁ card₁ = .ok true ↔
      validate crypto verifiers₂ card₂ = .ok true := by
  have hfreshKeys : (fresh.map Prod.fst).Nodup := by
    unfold cardValidator at hfresh
    obtain ⟨key, hkey, _⟩ := addVerifier_inv base64Decode crypto [] fresh _ _ hfresh
    rw [hkey]
    exact JsObject.set_keys_nodup [] _ key List.nodup_nil
  have hget : ∀ key, JsObject.get verifiers₁ key = JsObject.get verifiers₂ key :=
    addVerifiers_perm base64Decode crypto added₁ added₂ hadded hids fresh fresh
      verifiers₁ verifiers₂ (fun _ => rfl) h₁ h₂
  have hmembers : ∀ e, e ∈ verifiers₁ ↔ e ∈ verifiers₂ :=
    JsObject.same_members_of_get_eq verifiers₁ verifiers₂
      (addVerifiers_keys_nodup base64Decode crypto added₁ fresh verifiers₁ hfreshKeys h₁)
      (addVerifiers_keys_nodup base64Decode crypto added₂ fresh verifiers₂ hfreshKeys h₂) hget
  have hreads : ∀ key, JsObject.get signatures₁ key = JsObject.get signatures₂ key :=
    JsObject.get_eq_of_same_members signatures₁ signatures₂ hkeys
      ((hentries.map Prod.fst).nodup_iff.1 hkeys) (fun _ => hentries.mem_iff)
  exact validate_congr crypto verifiers₁ verifiers₂ card₁ card₂ signatures₁
    signatures₂ hmembers (by rw [hcard]) (by rw [hcard]) (by rw [hcard]) (by rw [hcard]) hs₁
    (by rw [hcard]) hreads

set_option maxRecDepth 50000 in
/-- C20: the verifiers `"a"` and `"b"` are added to a fresh validator in the two
orders; the card has no signature of `"a"` and a signature of `"b"` on which
`verify` throws.  With `"a"` added first `validate` returns `false`; with `"b"`
added first it throws: the outcome depends on the order, because `validate`
lets the exception of a check escape.  A card signed by all is judged valid in
both orders.  In general, for verifiers with pairwise distinct signer ids added
to a fresh validator in two orders, and for two cards that differ only in the
order of their signature entries, `validate` returns `true` for the one exactly
when it does for the other, and when it returns a verdict for both, the two
verdicts are the same. -/
theorem validate_outcome_depends_on_order :
    ((cardValidator Buffer.fromBase64 Example.strictCrypto).bind (fun fresh =>
        addVerifiers Buffer.fromBase64 Example.strictCrypto fresh
          [("a", .buffer [1]), ("b", .buffer [2])]) = .ok Example.defaultThenAB ∧
      (cardValidator Buffer.fromBase64 Example.strictCrypto).bind (fun fresh =>
        addVerifiers Buffer.fromBase64 Example.strictCrypto fresh
          [("b", .buffer [2]), ("a", .buffer [1])]) = .ok Example.defaultThenBA ∧
      validate Example.strictCrypto Example.defaultThenAB Example.cardSignedByService
        = .ok false ∧
      validate Example.strictCrypto Example.defaultThenBA Example.cardSignedByService
        = .error (.error "malformed signature")) ∧
    (validate Example.toyCrypto Example.defaultThenAB Example.cardSignedByAll = .ok true ∧
      validate Example.toyCrypto Example.defaultThenBA Example.cardSignedByAllReordered
        = .ok true) ∧
    ∀ (PublicKey PrivateKey : Type) (base64Decode : String → Buffer)
      (crypto : VirgilCrypto PublicKey PrivateKey)
      (fresh verifiers₁ verifiers₂ : Verifiers PublicKey)
      (added₁ added₂ : List (String × KeyArgument)) (card₁ card₂ : CardModel)
      (signatures₁ signatures₂ : JsObject Buffer),
      cardValidator base64Decode crypto = .ok fresh →
      added₁.Perm added₂ → (added₁.map Prod.fst).Nodup →
      addVerifiers base64Decode crypto fresh added₁ = .ok verifiers₁ →
      addVerifiers base64Decode crypto fresh added₂ = .ok verifiers₂ →
      card₁.signatures = some signatures₁ →
      card₂ = { card₁ with signatures := some signatures₂ } →
      signatures₁.Perm signatures₂ → (signatures₁.map Prod.fst).Nodup →
      (validate crypto verifiers₁ card₁ = .ok true ↔
        validate crypto verifiers₂ card₂ = .ok true) ∧
      ∀ verdict₁ verdict₂, validate crypto verifiers₁ card₁ = .ok verdict₁ →
        validate crypto verifiers₂ card₂ = .ok verdict₂ → verdict₁ = verdict₂ := by
  refine ⟨⟨rfl, rfl, rfl, rfl⟩, ⟨rfl, rfl⟩, ?_⟩
  intro _ _ base64Decode crypto fresh verifiers₁ verifiers₂ added₁ added₂ card₁ card₂
    signatures₁ signatures₂ hfresh hadded hids h₁ h₂ hs₁ hcard hentries hkeys
  have hiff := validate_true_order_independent base64Decode crypto fresh verifiers₁ verifiers₂
    added₁ added₂ card₁ card₂ signatures₁ signatures₂ hfresh hadded hids h₁ h₂ hs₁ hcard
    hentries hkeys
  refine ⟨hiff, fun verdict₁ verdict₂ hv₁ hv₂ => ?_⟩
  rw [hv₁, hv₂] at hiff
  cases verdict₁ <;> cases verdict₂ <;> simp_all

end Virgil.CardValidator

/-! ## Card validator: adding verifiers and unconfigured signatures -/

namespace Virgil.CardValidator

variable {PublicKey PrivateKey : Type}

theorem every_congr {α : Type} (f g : α → Except JsError Bool) (l : List α)
    (h : ∀ a ∈ l, f a = g a) : every f l = every g l := by
  induction l with
  | nil => rfl
  | cons a rest ih =>
    simp only [every]
    rw [h a (List.mem_cons_self a rest), ih (fun b hb => h b (List.mem_cons_of_mem a hb))]

theorem JsObject.mem_keys {α : Type} (obj : JsObject α) (e : String × α) (h : e ∈ obj) :
    e.1 ∈ JsObject.keys obj :=
  List.mem_map.2 ⟨e, (JsObject.mem_entries obj e).2 h, rfl⟩

theorem JsObject.mem_set_of_mem {α : Type} (obj : JsObject α) (key : String) (value : α)
    (e : String × α) (hmem : e ∈ obj) (hne : e.1 ≠ key) :
    e ∈ JsObject.set obj key value := by
  induction obj with
  | nil => cases hmem
  | cons head rest ih =>
    obtain ⟨k, v⟩ := head
    by_cases hk : k = key
    · subst hk
      rcases List.mem_cons.1 hmem with h | h
      · exact absurd (by rw [h]) hne
      · simp only [JsObject.set, if_true]
        exact List.mem_cons_of_mem _ h
    · simp only [JsObject.set, if_neg hk]
      rcases List.mem_cons.1 hmem with h | h
      · rw [h]
        exact List.mem_cons_self _ _
      · exact List.mem_cons_of_mem _ (ih h)

/-- The outcome of `validate` (verdict or exception) depends on the signatures
through the reads under the card id and under the configured ids only. -/
theorem validate_congr_reads (crypto : VirgilCrypto PublicKey PrivateKey)
    (verifiers : Verifiers PublicKey) (card₁ card₂ : CardModel)
    (signatures₁ signatures₂ : JsObject Buffer)
    (hv₁ : card₁.version ≠ "3.0") (hv₂ : card₂.version ≠ "3.0")
    (hid : card₂.id = card₁.id) (hsnapshot : card₂.snapshot = card₁.snapshot)
    (hkey : card₂.publicKey = card₁.publicKey)
    (hs₁ : card₁.signatures = some signatures₁) (hs₂ : card₂.signatures = some signatures₂)
    (hown : JsObject.get signatures₁ card₁.id = JsObject.get signatures₂ card₁.id)
    (hconfigured : ∀ signerId ∈ JsObject.keys verifiers,
      JsObject.get signatures₁ signerId = JsObject.get signatures₂ signerId) :
    validate crypto verifiers card₁ = validate crypto verifiers card₂ := by
  rw [validate_of_canValidate crypto verifiers card₁ hv₁,
    validate_of_canValidate crypto verifiers card₂ hv₂, hid, hsnapshot]
  have hownEq : verifyOwnSignature crypto (crypto.calculateFingerprint card₁.snapshot) card₁
      = verifyOwnSignature crypto (crypto.calculateFingerprint card₁.snapshot) card₂ := by
    unfold verifyOwnSignature readSignature
    simp only [hs₁, hs₂, hid, hkey, hown]
  have hallEq : verifySignatures crypto verifiers (crypto.calculateFingerprint card₁.snapshot)
      card₁ = verifySignatures crypto verifiers (crypto.calculateFingerprint card₁.snapshot)
      card₂ := by
    unfold verifySignatures
    apply every_congr
    intro verifier hmem
    unfold verifySigner readSignature
    simp only [hs₁, hs₂, hconfigured verifier.1 (List.mem_map.2 ⟨verifier, hmem, rfl⟩)]
  rw [hownEq, hallEq]

/-- C28: for every validator state, every card and every signer id that has no
verifier yet, if `validate(card)` answers `true` once `addVerifier(signerId, key)`
has registered the verifier, then it answered `true` before: a new verifier
never turns a card that is not valid into a valid one. -/
theorem addVerifier_never_weakens (base64Decode : String → Buffer)
    (crypto : VirgilCrypto PublicKey PrivateKey) (verifiers next : Verifiers PublicKey)
    (signerId : String) (publicKey : KeyArgument) (card : CardModel)
    (hnew : signerId ∉ JsObject.keys verifiers)
    (hadd : addVerifier base64Decode crypto verifiers signerId publicKey = .ok next)
    (hafter : validate crypto next card = .ok true) :
    validate crypto verifiers card = .ok true := by
  by_cases hv : card.version = "3.0"
  · simp [validate, canValidate, hv]
  · obtain ⟨key, hnext, _⟩ := addVerifier_inv base64Decode crypto verifiers next signerId
      publicKey hadd
    rw [validate_eq_true_iff_checks crypto next card hv] at hafter
    rw [validate_eq_true_iff_checks crypto verifiers card hv]
    refine ⟨hafter.1, hafter.2.1, fun verifier hmem => hafter.2.2 verifier ?_⟩
    rw [hnext]
    refine JsObject.mem_set_of_mem verifiers signerId key verifier hmem ?_
    intro hid
    exact hnew (by rw [← hid]; exact JsObject.mem_keys verifiers verifier hmem)

/-- C28, witness: `"b"` is added to the validator that knows `"svc"`; the card
signed by the owner, `"svc"` and `"b"` is valid after and was valid before,
while the card signed by the owner and `"svc"` only was valid and no longer is. -/
theorem addVerifier_never_weakens_witness :
    "b" ∉ JsObject.keys Example.toyVerifiers ∧
    addVerifier Buffer.fromBase64 Example.toyCrypto Example.toyVerifiers "b" (.buffer [2])
      = .ok [("svc", [7]), ("b", [2])] ∧
    validate Example.toyCrypto [("svc", [7]), ("b", [2])] Example.cardSignedByThree
      = .ok true ∧
    validate Example.toyCrypto Example.toyVerifiers Example.cardSignedByThree = .ok true ∧
    validate Example.toyCrypto Example.toyVerifiers Example.signedCard = .ok true ∧
    validate Example.toyCrypto [("svc", [7]), ("b", [2])] Example.signedCard = .ok false :=
  ⟨by decide, rfl, rfl,
    addVerifier_never_weakens Buffer.fromBase64 Example.toyCrypto Example.toyVerifiers
      [("svc", [7]), ("b", [2])] "b" (.buffer [2]) Example.cardSignedByThree (by decide) rfl rfl,
    rfl, rfl⟩

/-- C29: two non-legacy cards with the same id, snapshot and public key, whose
signature collections answer alike under the card id and under every configured
verifier id, get the same outcome from `validate`; entries under any other
signer id, present in one and absent or different in the other, change nothing. -/
theorem validate_ignores_unconfigured_signatures (crypto : VirgilCrypto PublicKey PrivateKey)
    (verifiers : Verifiers PublicKey) (card₁ card₂ : CardModel)
    (signatures₁ signatures₂ : JsObject Buffer)
    (hv₁ : card₁.version ≠ "3.0") (hv₂ : card₂.version ≠ "3.0")
    (hid : card₂.id = card₁.id) (hsnapshot : card₂.snapshot = card₁.snapshot)
    (hkey : card₂.publicKey = card₁.publicKey)
    (hs₁ : card₁.signatures = some signatures₁) (hs₂ : card₂.signatures = some signatures₂)
    (hown : JsObject.get signatures₁ card₁.id = JsObject.get signatures₂ card₁.id)
    (hconfigured : ∀ signerId ∈ JsObject.keys verifiers,
      JsObject.get signatures₁ signerId = JsObject.get signatures₂ signerId) :
    validate crypto verifiers card₁ = validate crypto verifiers card₂ ∧
    ∀ other : String, other ≠ card₁.id → other ∉ JsObject.keys verifiers →
      ∀ value : Buffer,
        validate crypto verifiers
          { card₁ with signatures := some (JsObject.set signatures₁ other value) }
          = validate crypto verifiers card₁ := by
  refine ⟨validate_congr_reads crypto verifiers card₁ card₂ signatures₁ signatures₂ hv₁ hv₂
    hid hsnapshot hkey hs₁ hs₂ hown hconfigured, fun other hother hnot value => ?_⟩
  refine validate_congr_reads crypto verifiers _ card₁ (JsObject.set signatures₁ other value)
    signatures₁ hv₁ hv₁ rfl rfl rfl rfl hs₁ ?_ ?_
  · exact JsObject.get_set_other signatures₁ other card₁.id value (Ne.symm hother)
  · intro signerId hmem
    refine JsObject.get_set_other signatures₁ other signerId value ?_
    intro h
    exact hnot (by rw [← h]; exact hmem)

/-- C29, witness: the signed card and the same card with a further entry under
`"stray"` are both judged valid by the validator that knows `"svc"`. -/
theorem validate_ignores_unconfigured_signatures_witness :
    validate Example.toyCrypto Example.toyVerifiers Example.signedCard = .ok true ∧
    validate Example.toyCrypto Example.toyVerifiers Example.cardWithStraySignature
      = .ok true := by
  have h := (validate_ignores_unconfigured_signatures Example.toyCrypto Example.toyVerifiers
    Example.signedCard Example.cardWithStraySignature _ _ (by decide) (by decide) rfl rfl rfl
    rfl rfl (by decide) (by decide)).1
  exact ⟨rfl, h ▸ rfl⟩

end Virgil.CardValidator

/-! ## Client: batch validation -/

namespace Virgil

theorem filterInvalid_of_returns (validate : CardModel → Except JsError Bool)
    (cards : List CardModel) (hreturns : ∀ card ∈ cards, ∃ verdict, validate card = .ok verdict) :
    filterInvalid validate cards = (cards, .ok (cards.filter (judgedInvalid validate))) := by
  induction cards with
  | nil => rfl
  | cons card rest ih =>
    obtain ⟨verdict, hverdict⟩ := hreturns card (List.mem_cons_self card rest)
    have hrest := ih (fun c hc => hreturns c (List.mem_cons_of_mem card hc))
    simp only [filterInvalid, hverdict, hrest]
    cases verdict <;> simp [List.filter, judgedInvalid, hverdict]

theorem filterInvalid_of_throws (validate : CardModel → Except JsError Bool)
    (before after : List CardModel) (card : CardModel) (e : JsError)
    (hreturns : ∀ c ∈ before, ∃ verdict, validate c = .ok verdict)
    (hthrows : validate card = .error e) :
    filterInvalid validate (before ++ card :: after) = (before ++ [card], .error e) := by
  induction before with
  | nil => simp [filterInvalid, hthrows]
  | cons c rest ih =>
    obtain ⟨verdict, hverdict⟩ := hreturns c (List.mem_cons_self c rest)
    have hrest := ih (fun c' hc => hreturns c' (List.mem_cons_of_mem c hc))
    rw [List.cons_append, filterInvalid]
    simp only [hverdict, hrest]
    rfl

theorem mem_filter_judgedInvalid (validate : CardModel → Except JsError Bool)
    (cards : List CardModel) (card : CardModel) :
    card ∈ cards.filter (judgedInvalid validate) ↔ card ∈ cards ∧ validate card = .ok false := by
  rw [List.mem_filter]
  constructor
  · rintro ⟨hmem, h⟩
    refine ⟨hmem, ?_⟩
    unfold judgedInvalid at h
    split at h
    · assumption
    · cases h
  · rintro ⟨hmem, h⟩
    exact ⟨hmem, by simp [judgedInvalid, h]⟩

/-- C24, counterexample: with the validator that knows `"svc"`, the first card
of the list lacks the signature of `"svc"` and is judged invalid, and `validate`
throws on the second; `validateCards` then throws that exception, not the
`'Card validation failed.'` error, and `validate` is never evaluated on the
third card. -/
theorem validateCards_stops_at_exception :
    CardValidator.validate Example.toyCrypto Example.toyVerifiers Example.ownerOnlyCard
      = .ok false ∧
    (validateCards (some (CardValidator.validate Example.toyCrypto Example.toyVerifiers))
      (.many [Example.ownerOnlyCard, Example.cardWithBadKey, Example.signedCard])).result
      = .error (.thrown (.error "invalid public key")) ∧
    (validateCards (some (CardValidator.validate Example.toyCrypto Example.toyVerifiers))
      (.many [Example.ownerOnlyCard, Example.cardWithBadKey, Example.signedCard])).evaluated
      = [Example.ownerOnlyCard, Example.cardWithBadKey] :=
  ⟨rfl, rfl, rfl⟩

/-- C24, as amended: with a validator set whose `validate` returns on every card
of the list, `validateCards` evaluates `validate` on every card, raises the
`'Card validation failed.'` error exactly when some card is judged invalid, and
the error's `invalidCards` is the sub-list of the cards judged invalid, in input
order; a single card is treated as a one-element list; with no validator set
nothing is evaluated and nothing is raised. When `validate` throws on a card,
`validateCards` throws that exception at once: the cards after it are not
evaluated and no `'Card validation failed.'` error is made. -/
theorem validateCards_reports_invalid_cards (validate : CardModel → Except JsError Bool)
    (cards : List CardModel)
    (hreturns : ∀ card ∈ cards, ∃ verdict, validate card = .ok verdict) :
    (validateCards (some validate) (.many cards)).evaluated = cards ∧
    ((∃ card ∈ cards, validate card = .ok false) →
      (validateCards (some validate) (.many cards)).result
        = .error (.validationFailed "Card validation failed."
            (cards.filter (judgedInvalid validate)))) ∧
    ((∀ card ∈ cards, validate card = .ok true) →
      (validateCards (some validate) (.many cards)).result = .ok ()) ∧
    (∀ card, card ∈ cards.filter (judgedInvalid validate) ↔
      card ∈ cards ∧ validate card = .ok false) ∧
    (cards.filter (judgedInvalid validate)).Sublist cards ∧
    (∀ card : CardModel, validateCards (some validate) (.single card)
      = validateCards (some validate) (.many [card])) ∧
    (∀ argument : CardsArgument,
      validateCards none argument = { evaluated := [], result := .ok () }) ∧
    (∀ (before after : List CardModel) (card : CardModel) (e : JsError),
      (∀ c ∈ before, ∃ verdict, validate c = .ok verdict) → validate card = .error e →
      validateCards (some validate) (.many (before ++ card :: after))
        = { evaluated := before ++ [card], result := .error (.thrown e) }) := by
  have hscan := filterInvalid_of_returns validate cards hreturns
  refine ⟨?_, ?_, ?_, mem_filter_judgedInvalid validate cards, List.filter_sublist cards,
    fun _ => rfl, fun _ => rfl, ?_⟩
  · simp only [validateCards, hscan]
    split <;> rfl
  · rintro ⟨card, hmem, hfalse⟩
    have hne : (cards.filter (judgedInvalid validate)).length ≠ 0 := by
      intro h
      have hin := (mem_filter_judgedInvalid validate cards card).2 ⟨hmem, hfalse⟩
      rw [List.length_eq_zero.1 h] at hin
      cases hin
    simp only [validateCards, hscan, hne, ne_eq, not_false_eq_true, if_true]
  · intro hall
    have hnil : cards.filter (judgedInvalid validate) = [] := by
      rw [List.filter_eq_nil_iff]
      intro card hmem
      simp [judgedInvalid, hall card hmem]
    simp only [validateCards, hscan, hnil, List.length_nil, ne_eq, not_true_eq_false, if_false]
  · intro before after card e hbefore hthrows
    simp only [validateCards, filterInvalid_of_throws validate before after card e hbefore hthrows]

/-- C24, witness: the validator that knows `"svc"` on a list of three cards, of
which the second lacks the signature of `"svc"`. -/
theorem validateCards_reports_invalid_cards_witness :
    (validateCards (some (CardValidator.validate Example.toyCrypto Example.toyVerifiers))
      (.many [Example.signedCard, Example.ownerOnlyCard,
        Example.cardWithStraySignature])).evaluated
      = [Example.signedCard, Example.ownerOnlyCard, Example.cardWithStraySignature] ∧
    (validateCards (some (CardValidator.validate Example.toyCrypto Example.toyVerifiers))
      (.many [Example.signedCard, Example.ownerOnlyCard,
        Example.cardWithStraySignature])).result
      = .error (.validationFailed "Card validation failed." [Example.ownerOnlyCard]) := by
  have h := validateCards_reports_invalid_cards
    (CardValidator.validate Example.toyCrypto Example.toyVerifiers)
    [Example.signedCard, Example.ownerOnlyCard, Example.cardWithStraySignature]
    (by
      intro card hmem
      simp only [List.mem_cons, List.mem_singleton, List.not_mem_nil, or_false] at hmem
      rcases hmem with h | h | h
      · exact ⟨true, by rw [h]; rfl⟩
      · exact ⟨false, by rw [h]; rfl⟩
      · exact ⟨true, by rw [h]; rfl⟩)
  exact ⟨h.1, h.2.1 ⟨Example.ownerOnlyCard, by simp, rfl⟩⟩

end Virgil

namespace Virgil

theorem orderedInsert_of_le {α : Type} (key : α → Nat) (a : α) (s : List α)
    (h : ∀ x ∈ s, key a ≤ key x) :
    List.orderedInsert (fun x y => key x ≤ key y) a s = a :: s := by
  cases s with
  | nil => rfl
  | cons c s => simp [List.orderedInsert, h c (List.mem_cons_self _ _)]

theorem filterMap_orderedInsert {α β : Type} (ka : α → Nat) (kb : β → Nat) (F : α → Option β)
    (hF : ∀ a b, F a = some b → kb b = ka a) (a : α) (s : List α)
    (hs : s.Pairwise (fun x y => ka x ≤ ka y)) :
    (List.orderedInsert (fun x y => ka x ≤ ka y) a s).filterMap F =
      match F a with
      | some b => List.orderedInsert (fun x y => kb x ≤ kb y) b (s.filterMap F)
      | none => s.filterMap F := by
  induction s with
  | nil => cases h : F a <;> simp [List.orderedInsert, h]
  | cons c s ih =>
    have hs' := (List.pairwise_cons.1 hs)
    have ih' := ih hs'.2
    by_cases hac : ka a ≤ ka c
    · simp only [List.orderedInsert, hac, if_true]
      cases ha : F a with
      | none => simp [List.filterMap_cons, ha]
      | some b =>
        have hb := hF a b ha
        rw [List.filterMap_cons, ha]
        simp only
        rw [orderedInsert_of_le kb b ((c :: s).filterMap F)]
        intro x hx
        obtain ⟨y, hy, hxy⟩ := List.mem_filterMap.1 hx
        rw [hF y x hxy, hb]
        rcases List.mem_cons.1 hy with h | h
        · rw [h]; exact hac
        · exact le_trans hac (hs'.1 y h)
    · simp only [List.orderedInsert, hac, if_false]
      cases hc : F c with
      | none =>
        rw [List.filterMap_cons, hc, List.filterMap_cons, hc]
        exact ih'
      | some d =>
        have hd := hF c d hc
        rw [List.filterMap_cons, hc, List.filterMap_cons, hc, ih']
        cases ha : F a with
        | none => rfl
        | some b =>
          have hb := hF a b ha
          simp only [List.orderedInsert]
          rw [if_neg (by rw [hb, hd]; exact hac)]

theorem pairwise_insertionSort {α : Type} (key : α → Nat) (l : List α) :
    (l.insertionSort (fun x y => key x ≤ key y)).Pairwise (fun x y => key x ≤ key y) := by
  haveI : IsTotal α (fun x y => key x ≤ key y) := ⟨fun a b => Nat.le_total _ _⟩
  haveI : IsTrans α (fun x y => key x ≤ key y) := ⟨fun a b c => Nat.le_trans⟩
  exact List.sorted_insertionSort (fun x y => key x ≤ key y) l

theorem insertionSort_filterMap {α β : Type} (ka : α → Nat) (kb : β → Nat) (F : α → Option β)
    (hF : ∀ a b, F a = some b → kb b = ka a) (l : List α) :
    (l.filterMap F).insertionSort (fun x y => kb x ≤ kb y) =
      (l.insertionSort (fun x y => ka x ≤ ka y)).filterMap F := by
  induction l with
  | nil => rfl
  | cons a l ih =>
    show _ = (List.orderedInsert (fun x y => ka x ≤ ka y) a
      (l.insertionSort (fun x y => ka x ≤ ka y))).filterMap F
    rw [filterMap_orderedInsert ka kb F hF a _ (pairwise_insertionSort ka l)]
    cases ha : F a with
    | none =>
      rw [List.filterMap_cons, ha]
      exact ih
    | some b =>
      rw [List.filterMap_cons, ha]
      show List.orderedInsert (fun x y => kb x ≤ kb y) b
        ((l.filterMap F).insertionSort (fun x y => kb x ≤ kb y)) = _
      rw [ih]

theorem JsObject.entries_filterMap {α β : Type} (f : String × α → Option (String × β))
    (hf : ∀ e e', f e = some e' → e'.1 = e.1) (obj : JsObject α) :
    JsObject.entries (obj.filterMap f) = (JsObject.entries obj).filterMap f := by
  unfold JsObject.entries
  simp only [List.filterMap_append]
  have hindexed : ∀ l : List (String × α),
      (l.filterMap f).filterMap (fun e => (arrayIndex? e.1).map (fun n => (n, e)))
      = (l.filterMap (fun e => (arrayIndex? e.1).map (fun n => (n, e)))).filterMap
          (fun p => (f p.2).map (fun e' => (p.1, e'))) := by
    intro l
    induction l with
    | nil => rfl
    | cons e rest ih =>
      cases he : f e with
      | none =>
        rw [List.filterMap_cons, he]
        cases hi : arrayIndex? e.1 with
        | none => simpa [List.filterMap_cons, hi] using ih
        | some n => simpa [List.filterMap_cons, hi, he] using ih
      | some e' =>
        have hkey := hf e e' he
        rw [List.filterMap_cons, he]
        cases hi : arrayIndex? e.1 with
        | none => simpa [List.filterMap_cons, hi, hkey] using ih
        | some n => simpa [List.filterMap_cons, hi, hkey, he] using ih
  have hrest : ∀ l : List (String × α),
      (l.filterMap f).filter (fun e => (arrayIndex? e.1).isNone)
      = (l.filter (fun e => (arrayIndex? e.1).isNone)).filterMap f := by
    intro l
    induction l with
    | nil => rfl
    | cons e rest ih =>
      cases he : f e with
      | none =>
        rw [List.filterMap_cons, he]
        cases hi : arrayIndex? e.1 with
        | none => simpa [List.filter_cons, hi, he] using ih
        | some n => simpa [List.filter_cons, hi] using ih
      | some e' =>
        have hkey := hf e e' he
        rw [List.filterMap_cons, he]
        cases hi : arrayIndex? e.1 with
        | none => simpa [List.filter_cons, hi, hkey, he] using ih
        | some n => simpa [List.filter_cons, hi, hkey] using ih
  have hsort := insertionSort_filterMap (fun p : Nat × (String × α) => p.1)
    (fun p : Nat × (String × β) => p.1) (fun p => (f p.2).map (fun e' => (p.1, e')))
    (by
      intro a b hab
      cases hfa : f a.2 with
      | none => simp [hfa] at hab
      | some e' =>
        simp only [hfa, Option.map_some', Option.some.injEq] at hab
        rw [← hab])
    (obj.filterMap (fun e => (arrayIndex? e.1).map (fun n => (n, e))))
  rw [hindexed obj, hrest obj, hsort]
  congr 1
  generalize (obj.filterMap (fun e => (arrayIndex? e.1).map (fun n => (n, e)))).insertionSort
    (fun x y => x.1 ≤ y.1) = sorted
  induction sorted with
  | nil => rfl
  | cons p rest ih =>
    cases hp : f p.2 with
    | none => simpa [List.filterMap_cons, hp] using ih
    | some e' => simpa [List.filterMap_cons, hp] using ih

theorem JsValue.serializeProperties_eq_filterMap (properties : List (String × JsValue)) :
    JsValue.serializeProperties properties
      = properties.filterMap (fun e => (JsValue.serialize e.2).map (fun text => (e.1, text))) := by
  induction properties with
  | nil => simp [JsValue.serializeProperties]
  | cons e rest ih =>
    obtain ⟨key, value⟩ := e
    rw [JsValue.serializeProperties, ih]
    cases h : JsValue.serialize value <;> simp [List.filterMap_cons, h]

/-- The serialized properties of an object in `Object.keys` order are those of
the object's properties taken in `Object.keys` order. -/
theorem JsValue.entries_serializeProperties (properties : JsObject JsValue) :
    JsObject.entries (JsValue.serializeProperties properties)
      = JsValue.serializeProperties (JsObject.entries properties) := by
  rw [JsValue.serializeProperties_eq_filterMap, JsValue.serializeProperties_eq_filterMap]
  apply JsObject.entries_filterMap
  intro e e' h
  cases hs : JsValue.serialize e.2 with
  | none => simp [hs] at h
  | some text =>
    simp only [hs, Option.map_some', Option.some.injEq] at h
    rw [← h]

end Virgil

/-! ## `JSON.parse`: the fuel of the parser -/

namespace Virgil

theorem skipSpace_length (chars : List Char) : (skipSpace chars).length ≤ chars.length := by
  induction chars with
  | nil => simp [skipSpace]
  | cons c rest ih =>
    simp only [skipSpace]
    split
    · exact Nat.le_succ_of_le ih
    · exact Nat.le_refl _

theorem parseStringUnits_length (chars : List Char) :
    ∀ units after, parseStringUnits chars = some (units, after) → after.length < chars.length := by
  induction chars using parseStringUnits.induct <;> intro units after h <;>
    unfold parseStringUnits at h <;> simp_all
  all_goals omega

theorem parseString_length (chars : List Char) (text : String) (after : List Char)
    (h : parseString chars = some (text, after)) : after.length < chars.length := by
  unfold parseString at h
  cases hu : parseStringUnits chars with
  | none => simp [hu] at h
  | some r =>
    obtain ⟨units, after'⟩ := r
    simp only [hu, Option.some.injEq, Prod.mk.injEq] at h
    rw [← h.2]
    exact parseStringUnits_length chars units after' hu

theorem takeDigits_length (chars : List Char) :
    (takeDigits chars).1.length + (takeDigits chars).2.length = chars.length := by
  induction chars with
  | nil => rfl
  | cons c rest ih =>
    simp only [takeDigits]
    split
    · simp only [List.length_cons]
      omega
    · simp

theorem takeWhole_length (chars : List Char) :
    (takeWhole chars).1.length + (takeWhole chars).2.length = chars.length := by
  unfold takeWhole
  split
  · simp only [List.length_cons, List.length_nil]
    omega
  · exact takeDigits_length chars

theorem parseFraction_length (chars fraction rest : List Char)
    (h : parseFraction chars = some (fraction, rest)) : rest.length ≤ chars.length := by
  unfold parseFraction at h
  split at h
  · rename_i tail
    split at h
    · cases h
    · simp only [Option.some.injEq] at h
      have := takeDigits_length tail
      rw [h] at this
      simp only at this
      simp only [List.length_cons]
      omega
  · simp only [Option.some.injEq, Prod.mk.injEq] at h
    rw [← h.2]

theorem parseExponent_length (chars rest : List Char) (exponent : Int)
    (h : parseExponent chars = some (exponent, rest)) : rest.length ≤ chars.length := by
  unfold parseExponent at h
  split at h
  · rename_i c tail
    split at h
    · split at h
      · rename_i tail1
        split at h
        · cases h
        · simp only [Option.some.injEq, Prod.mk.injEq] at h
          have := takeDigits_length tail1
          rw [← h.2]
          simp only [List.length_cons]
          omega
      · rename_i tail1
        split at h
        · cases h
        · simp only [Option.some.injEq, Prod.mk.injEq] at h
          have := takeDigits_length tail1
          rw [← h.2]
          simp only [List.length_cons]
          omega
      · split at h
        · cases h
        · simp only [Option.some.injEq, Prod.mk.injEq] at h
          have := takeDigits_length tail
          rw [← h.2]
          simp only [List.length_cons]
          omega
    · simp only [Option.some.injEq, Prod.mk.injEq] at h
      rw [← h.2]
  · simp only [Option.some.injEq, Prod.mk.injEq] at h
    rw [← h.2]

theorem parseUnsigned_length (negative : Bool) (chars rest : List Char) (value : JsValue)
    (h : parseUnsigned negative chars = some (value, rest)) : rest.length < chars.length := by
  unfold parseUnsigned at h
  split at h
  · cases h
  · rename_i hne
    have hlen := takeWhole_length chars
    have hpos : 0 < (takeWhole chars).1.length := List.length_pos.2 hne
    cases hf : parseFraction (takeWhole chars).2 with
    | none => simp [hf] at h
    | some fr =>
      obtain ⟨fraction, rest1⟩ := fr
      have h1 := parseFraction_length _ _ _ hf
      simp only [hf] at h
      cases he : parseExponent rest1 with
      | none => simp [he] at h
      | some er =>
        obtain ⟨exponent, rest2⟩ := er
        have h2 := parseExponent_length _ _ _ he
        simp only [he, Option.some.injEq, Prod.mk.injEq] at h
        rw [← h.2]
        omega

theorem parseNumber_length (chars rest : List Char) (value : JsValue)
    (h : parseNumber chars = some (value, rest)) : rest.length < chars.length := by
  unfold parseNumber at h
  split at h
  · have := parseUnsigned_length _ _ _ _ h
    simp only [List.length_cons]
    omega
  · exact parseUnsigned_length _ _ _ _ h

theorem parseValue_fuel_step (fuel : Nat) (hElements : FuelAdequate parseElements fuel)
    (hMembers : FuelAdequate parseMembers fuel) : FuelAdequate parseValue (fuel + 1) := by
  intro chars value rest h
  rw [parseValue] at h
  cases hs : skipSpace chars with
  | nil => simp [hs] at h
  | cons c rest0 =>
    have hlen0 : rest0.length + 1 ≤ chars.length := by
      have := skipSpace_length chars
      rw [hs] at this
      simpa using this
    simp only [hs] at h
    by_cases h123 : c.toNat = 123
    · simp only [h123, if_true] at h
      cases hs1 : skipSpace rest0 with
      | nil => simp [hs1] at h
      | cons d rest1 =>
        have hlen1 : rest1.length + 1 ≤ rest0.length := by
          have := skipSpace_length rest0
          rw [hs1] at this
          simpa using this
        simp only [hs1] at h
        by_cases h125 : d.toNat = 125
        · simp only [h125, if_true, Option.some.injEq, Prod.mk.injEq] at h
          obtain ⟨hv, hr⟩ := h
          subst hv hr
          refine ⟨by omega, fun more hmore => ?_⟩
          obtain ⟨m, rfl⟩ := Nat.exists_eq_succ_of_ne_zero (by omega : more ≠ 0)
          rw [parseValue]
          simp only [hs, h123, if_true, hs1, h125]
        · simp only [h125, if_false] at h
          cases hm : parseMembers fuel (d :: rest1) with
          | none => simp [hm] at h
          | some r =>
            obtain ⟨members, after⟩ := r
            simp only [hm, Option.some.injEq, Prod.mk.injEq] at h
            obtain ⟨hv, hr⟩ := h
            subst hv hr
            obtain ⟨hlt, hmore⟩ := hMembers _ _ _ hm
            simp only [List.length_cons] at hlt
            refine ⟨by omega, fun more hle => ?_⟩
            obtain ⟨m, rfl⟩ := Nat.exists_eq_succ_of_ne_zero (by omega : more ≠ 0)
            rw [parseValue]
            simp only [hs, h123, if_true, hs1, h125, if_false,
              hmore m (by simp only [List.length_cons]; omega)]
    · simp only [h123, if_false] at h
      by_cases h91 : c.toNat = 91
      · simp only [h91, if_true] at h
        cases hs1 : skipSpace rest0 with
        | nil => simp [hs1] at h
        | cons d rest1 =>
          have hlen1 : rest1.length + 1 ≤ rest0.length := by
            have := skipSpace_length rest0
            rw [hs1] at this
            simpa using this
          simp only [hs1] at h
          by_cases h93 : d.toNat = 93
          · simp only [h93, if_true, Option.some.injEq, Prod.mk.injEq] at h
            obtain ⟨hv, hr⟩ := h
            subst hv hr
            refine ⟨by omega, fun more hmore => ?_⟩
            obtain ⟨m, rfl⟩ := Nat.exists_eq_succ_of_ne_zero (by omega : more ≠ 0)
            rw [parseValue]
            simp only [hs, h123, if_false, h91, if_true, hs1, h93]
            rfl
          · simp only [h93, if_false] at h
            cases he : parseElements fuel (d :: rest1) with
            | none => simp [he] at h
            | some r =>
              obtain ⟨items, after⟩ := r
              simp only [he, Option.some.injEq, Prod.mk.injEq] at h
              obtain ⟨hv, hr⟩ := h
              subst hv hr
              obtain ⟨hlt, hmore⟩ := hElements _ _ _ he
              simp only [List.length_cons] at hlt
              refine ⟨by omega, fun more hle => ?_⟩
              obtain ⟨m, rfl⟩ := Nat.exists_eq_succ_of_ne_zero (by omega : more ≠ 0)
              rw [parseValue]
              simp only [hs, h123, if_false, h91, if_true, hs1, h93,
                hmore m (by simp only [List.length_cons]; omega)]
              rfl
      · simp only [h91, if_false] at h
        have hrest : rest.length < chars.length := by
          by_cases h34 : c.toNat = 34
          · simp only [h34, if_true] at h
            cases hp : parseString rest0 with
            | none => simp [hp] at h
            | some r =>
              obtain ⟨text, after⟩ := r
              simp only [hp, Option.some.injEq, Prod.mk.injEq] at h
              have := parseString_length _ _ _ hp
              rw [← h.2]
              omega
          · simp only [h34, if_false] at h
            split at h
            · split at h
              · simp only [Option.some.injEq, Prod.mk.injEq] at h
                rw [← h.2]
                simp only [List.length_cons] at hlen0
                omega
              · cases h
            · split at h
              · split at h
                · simp only [Option.some.injEq, Prod.mk.injEq] at h
                  rw [← h.2]
                  simp only [List.length_cons] at hlen0
                  omega
                · cases h
              · split at h
                · split at h
                  · simp only [Option.some.injEq, Prod.mk.injEq] at h
                    rw [← h.2]
                    simp only [List.length_cons] at hlen0
                    omega
                  · cases h
                · have := parseNumber_length _ _ _ h
                  simp only [List.length_cons] at this
                  omega
        refine ⟨hrest, fun more hle => ?_⟩
        obtain ⟨m, rfl⟩ := Nat.exists_eq_succ_of_ne_zero (by omega : more ≠ 0)
        rw [parseValue]
        simp only [hs, h123, if_false, h91]
        exact h

theorem parseElements_fuel_step (fuel : Nat) (hValue : FuelAdequate parseValue fuel)
    (hElements : FuelAdequate parseElements fuel) : FuelAdequate parseElements (fuel + 1) := by
  intro chars items rest h
  rw [parseElements] at h
  cases hv : parseValue fuel chars with
  | none => simp [hv] at h
  | some r =>
    obtain ⟨value, rest0⟩ := r
    obtain ⟨hlt0, hmore0⟩ := hValue _ _ _ hv
    simp only [hv] at h
    cases hs : skipSpace rest0 with
    | nil => simp [hs] at h
    | cons c rest1 =>
      have hlen1 : rest1.length + 1 ≤ rest0.length := by
        have := skipSpace_length rest0
        rw [hs] at this
        simpa using this
      simp only [hs] at h
      by_cases h44 : c.toNat = 44
      · simp only [h44, if_true] at h
        cases he : parseElements fuel rest1 with
        | none => simp [he] at h
        | some r =>
          obtain ⟨others, after⟩ := r
          simp only [he, Option.some.injEq, Prod.mk.injEq] at h
          obtain ⟨hi, hr⟩ := h
          subst hi hr
          obtain ⟨hlt, hmore⟩ := hElements _ _ _ he
          refine ⟨by omega, fun more hle => ?_⟩
          obtain ⟨m, rfl⟩ := Nat.exists_eq_succ_of_ne_zero (by omega : more ≠ 0)
          rw [parseElements]
          simp only [hmore0 m (by omega), hs, h44, if_true, hmore m (by omega)]
      · simp only [h44, if_false] at h
        by_cases h93 : c.toNat = 93
        · simp only [h93, if_true, Option.some.injEq, Prod.mk.injEq] at h
          obtain ⟨hi, hr⟩ := h
          subst hi hr
          refine ⟨by omega, fun more hle => ?_⟩
          obtain ⟨m, rfl⟩ := Nat.exists_eq_succ_of_ne_zero (by omega : more ≠ 0)
          rw [parseElements]
          simp only [hmore0 m (by omega), hs, h93, if_true]
          rfl
        · simp [h93] at h

theorem parseMembers_fuel_step (fuel : Nat) (hValue : FuelAdequate parseValue fuel)
    (hMembers : FuelAdequate parseMembers fuel) : FuelAdequate parseMembers (fuel + 1) := by
  intro chars members rest h
  rw [parseMembers] at h
  cases hs : skipSpace chars with
  | nil => simp [hs] at h
  | cons q rest0 =>
    have hlen0 : rest0.length + 1 ≤ chars.length := by
      have := skipSpace_length chars
      rw [hs] at this
      simpa using this
    simp only [hs] at h
    by_cases h34 : q.toNat = 34
    · simp only [h34, if_true] at h
      cases hp : parseString rest0 with
      | none => simp [hp] at h
      | some r =>
        obtain ⟨key, rest1⟩ := r
        have hlen1 := parseString_length _ _ _ hp
        simp only [hp] at h
        cases hs2 : skipSpace rest1 with
        | nil => simp [hs2] at h
        | cons colon rest2 =>
          have hlen2 : rest2.length + 1 ≤ rest1.length := by
            have := skipSpace_length rest1
            rw [hs2] at this
            simpa using this
          simp only [hs2] at h
          by_cases h58 : colon.toNat = 58
          · simp only [h58, if_true] at h
            cases hv : parseValue fuel rest2 with
            | none => simp [hv] at h
            | some r =>
              obtain ⟨value, rest3⟩ := r
              obtain ⟨hlt3, hmore3⟩ := hValue _ _ _ hv
              simp only [hv] at h
              cases hs4 : skipSpace rest3 with
              | nil => simp [hs4] at h
              | cons c rest4 =>
                have hlen4 : rest4.length + 1 ≤ rest3.length := by
                  have := skipSpace_length rest3
                  rw [hs4] at this
                  simpa using this
                simp only [hs4] at h
                by_cases h44 : c.toNat = 44
                · simp only [h44, if_true] at h
                  cases hm : parseMembers fuel rest4 with
                  | none => simp [hm] at h
                  | some r =>
                    obtain ⟨others, after⟩ := r
                    simp only [hm, Option.some.injEq, Prod.mk.injEq] at h
                    obtain ⟨hi, hr⟩ := h
                    subst hi hr
                    obtain ⟨hlt, hmore⟩ := hMembers _ _ _ hm
                    refine ⟨by omega, fun more hle => ?_⟩
                    obtain ⟨m, rfl⟩ := Nat.exists_eq_succ_of_ne_zero (by omega : more ≠ 0)
                    rw [parseMembers]
                    simp only [hs, h34, if_true, hp, hs2, h58, hmore3 m (by omega), hs4, h44,
                      hmore m (by omega)]
                · simp only [h44, if_false] at h
                  by_cases h125 : c.toNat = 125
                  · simp only [h125, if_true, Option.some.injEq, Prod.mk.injEq] at h
                    obtain ⟨hi, hr⟩ := h
                    subst hi hr
                    refine ⟨by omega, fun more hle => ?_⟩
                    obtain ⟨m, rfl⟩ := Nat.exists_eq_succ_of_ne_zero (by omega : more ≠ 0)
                    rw [parseMembers]
                    simp only [hs, h34, if_true, hp, hs2, h58, hmore3 m (by omega), hs4, h125]
                    rfl
                  · simp [h125] at h
          · simp [h58] at h
    · simp [h34] at h

/-- The fuel of the parsers is only a bound: a parse that succeeds with some
fuel consumes at least one character and succeeds, with the same result, with
any fuel from the number of characters it consumes. -/
theorem parse_fuel_adequate (fuel : Nat) :
    FuelAdequate parseValue fuel ∧ FuelAdequate parseElements fuel ∧
      FuelAdequate parseMembers fuel := by
  induction fuel with
  | zero =>
    refine ⟨?_, ?_, ?_⟩
    · intro chars result rest h
      simp [parseValue] at h
    · intro chars result rest h
      simp [parseElements] at h
    · intro chars result rest h
      simp [parseMembers] at h
  | succ fuel ih =>
    exact ⟨parseValue_fuel_step fuel ih.2.1 ih.2.2,
      parseElements_fuel_step fuel ih.1 ih.2.1, parseMembers_fuel_step fuel ih.1 ih.2.2⟩

/-- The fuel `parseText` gives the parser is enough: a text has a value as soon
as some fuel parses it to that value with only white space left. -/
theorem parseText_eq_some_iff (text : String) (value : JsValue) :
    parseText text = some value ↔
      ∃ fuel rest, parseValue fuel text.data = some (value, rest) ∧ skipSpace rest = [] := by
  constructor
  · intro h
    unfold parseText at h
    cases hp : parseValue (text.length + 1) text.data with
    | none => simp [hp] at h
    | some r =>
      obtain ⟨v, rest⟩ := r
      simp only [hp] at h
      split at h
      · rename_i hrest
        simp only [Option.some.injEq] at h
        subst h
        exact ⟨_, rest, hp, hrest⟩
      · cases h
  · rintro ⟨fuel, rest, hp, hrest⟩
    have hmore := ((parse_fuel_adequate fuel).1 _ _ _ hp).2 (text.length + 1)
      (by simp only [String.length]; omega)
    unfold parseText
    simp only [hmore, hrest, if_true]

end Virgil

/-! ## `JSON.parse`: parsed values hold no `Buffer` -/

namespace Virgil

theorem parseNumber_isNumber (chars rest : List Char) (value : JsValue)
    (h : parseNumber chars = some (value, rest)) : ∃ mantissa exponent, value = .number mantissa exponent := by
  have hn : ∀ m e, ∃ mantissa exponent, normalizeNumber m e = .number mantissa exponent := by
    intro m e
    unfold normalizeNumber
    split
    · exact ⟨_, _, rfl⟩
    · split
      · exact ⟨_, _, rfl⟩
      · exact ⟨_, _, rfl⟩
  have hu : ∀ negative chars, parseUnsigned negative chars = some (value, rest) →
      ∃ mantissa exponent, value = .number mantissa exponent := by
    intro negative chars h
    unfold parseUnsigned at h
    split at h
    · cases h
    · split at h
      · cases h
      · split at h
        · cases h
        · simp only [Option.some.injEq, Prod.mk.injEq] at h
          rw [← h.1]
          exact hn _ _
  unfold parseNumber at h
  split at h
  · exact hu _ _ h
  · exact hu _ _ h

/-- A parsed value is not a `Buffer`. -/
theorem parseValue_ne_buffer (fuel : Nat) (chars rest : List Char) (value : JsValue)
    (h : parseValue fuel chars = some (value, rest)) (bytes : Buffer) : value ≠ .buffer bytes := by
  cases fuel with
  | zero => simp [parseValue] at h
  | succ fuel =>
    rw [parseValue] at h
    intro hb
    subst hb
    split at h
    · cases h
    · split at h
      · split at h
        · cases h
        · split at h
          · cases h
          · split at h
            · cases h
            · simp [objectOfMembers] at h
      · split at h
        · split at h
          · cases h
          · split at h
            · cases h
            · split at h
              · cases h
              · cases h
        · split at h
          · split at h
            · cases h
            · cases h
          · split at h
            · split at h
              · cases h
              · cases h
            · split at h
              · split at h
                · cases h
                · cases h
              · split at h
                · split at h
                  · cases h
                  · cases h
                · obtain ⟨m, e, hm⟩ := parseNumber_isNumber _ _ _ h
                  cases hm

theorem parseMembers_ne_buffer (fuel : Nat) :
    ∀ (chars rest : List Char) (members : List (String × JsValue)),
      parseMembers fuel chars = some (members, rest) →
      ∀ member ∈ members, ∀ bytes : Buffer, member.2 ≠ .buffer bytes := by
  induction fuel with
  | zero =>
    intro chars rest members h
    simp [parseMembers] at h
  | succ fuel ih =>
    intro chars rest members h
    rw [parseMembers] at h
    cases hs : skipSpace chars with
    | nil => simp [hs] at h
    | cons q rest0 =>
      simp only [hs] at h
      by_cases h34 : q.toNat = 34
      · simp only [h34, if_true] at h
        cases hp : parseString rest0 with
        | none => simp [hp] at h
        | some r =>
          obtain ⟨key, rest1⟩ := r
          simp only [hp] at h
          cases hs2 : skipSpace rest1 with
          | nil => simp [hs2] at h
          | cons colon rest2 =>
            simp only [hs2] at h
            by_cases h58 : colon.toNat = 58
            · simp only [h58, if_true] at h
              cases hv : parseValue fuel rest2 with
              | none => simp [hv] at h
              | some r =>
                obtain ⟨value, rest3⟩ := r
                have hvalue := parseValue_ne_buffer fuel rest2 rest3 value hv
                simp only [hv] at h
                cases hs4 : skipSpace rest3 with
                | nil => simp [hs4] at h
                | cons c rest4 =>
                  simp only [hs4] at h
                  by_cases h44 : c.toNat = 44
                  · simp only [h44, if_true] at h
                    cases hm : parseMembers fuel rest4 with
                    | none => simp [hm] at h
                    | some r =>
                      obtain ⟨others, after⟩ := r
                      simp only [hm, Option.some.injEq, Prod.mk.injEq] at h
                      rw [← h.1]
                      intro member hmem
                      rcases List.mem_cons.1 hmem with hm' | hm'
                      · rw [hm']
                        exact hvalue
                      · exact ih _ _ _ hm member hm'
                  · simp only [h44, if_false] at h
                    by_cases h125 : c.toNat = 125
                    · simp only [h125, if_true, Option.some.injEq, Prod.mk.injEq] at h
                      rw [← h.1]
                      intro member hmem
                      rw [List.mem_singleton.1 hmem]
                      exact hvalue
                    · simp [h125] at h
            · simp [h58] at h
      · simp [h34] at h

theorem JsObject.set_values {α : Type} (P : α → Prop) (obj : JsObject α) (key : String)
    (value : α) (hobj : ∀ e ∈ obj, P e.2) (hvalue : P value) :
    ∀ e ∈ JsObject.set obj key value, P e.2 := by
  induction obj with
  | nil =>
    intro e he
    simp only [JsObject.set, List.mem_singleton] at he
    rw [he]
    exact hvalue
  | cons head rest ih =>
    obtain ⟨k, v⟩ := head
    intro e he
    by_cases hk : k = key
    · simp only [JsObject.set, hk, if_true, List.mem_cons] at he
      rcases he with he | he
      · rw [he]
        exact hvalue
      · exact hobj e (List.mem_cons_of_mem _ he)
    · simp only [JsObject.set, hk, if_false, List.mem_cons] at he
      rcases he with he | he
      · rw [he]
        exact hobj (k, v) (List.mem_cons_self _ _)
      · exact ih (fun e' he' => hobj e' (List.mem_cons_of_mem _ he')) e he

theorem foldl_set_values {α : Type} (P : α → Prop) (members : List (String × α)) :
    ∀ obj : JsObject α, (∀ e ∈ obj, P e.2) → (∀ m ∈ members, P m.2) →
      ∀ e ∈ members.foldl (fun obj member => JsObject.set obj member.1 member.2) obj,
        P e.2 := by
  induction members with
  | nil =>
    intro obj hobj _ e he
    exact hobj e he
  | cons m rest ih =>
    intro obj hobj hmembers
    simp only [List.foldl_cons]
    exact ih _ (JsObject.set_values P obj m.1 m.2 hobj (hmembers m (List.mem_cons_self _ _)))
      (fun m' hm' => hmembers m' (List.mem_cons_of_mem _ hm'))

/-- No property of a parsed object is a `Buffer`. -/
theorem parseValue_object_ne_buffer (fuel : Nat) (chars rest : List Char)
    (properties : List (String × JsValue))
    (h : parseValue fuel chars = some (.object properties, rest)) :
    ∀ e ∈ properties, ∀ bytes : Buffer, e.2 ≠ .buffer bytes := by
  cases fuel with
  | zero => simp [parseValue] at h
  | succ fuel =>
    rw [parseValue] at h
    cases hs : skipSpace chars with
    | nil => simp [hs] at h
    | cons c rest0 =>
      simp only [hs] at h
      by_cases h123 : c.toNat = 123
      · simp only [h123, if_true] at h
        cases hs1 : skipSpace rest0 with
        | nil => simp [hs1] at h
        | cons d rest1 =>
          simp only [hs1] at h
          by_cases h125 : d.toNat = 125
          · simp only [h125, if_true, Option.some.injEq, Prod.mk.injEq,
              JsValue.object.injEq] at h
            rw [← h.1]
            intro e he
            cases he
          · simp only [h125, if_false] at h
            cases hm : parseMembers fuel (d :: rest1) with
            | none => simp [hm] at h
            | some r =>
              obtain ⟨members, after⟩ := r
              simp only [hm, Option.some.injEq, Prod.mk.injEq, objectOfMembers,
                JsValue.object.injEq] at h
              rw [← h.1]
              exact foldl_set_values (fun v => ∀ bytes : Buffer, v ≠ .buffer bytes) members []
                (fun e he => by cases he) (parseMembers_ne_buffer fuel _ _ _ hm)
      · simp only [h123, if_false] at h
        split at h
        · split at h
          · cases h
          · split at h
            · cases h
            · split at h
              · cases h
              · cases h
        · split at h
          · split at h
            · cases h
            · cases h
          · split at h
            · split at h
              · cases h
              · cases h
            · split at h
              · split at h
                · cases h
                · cases h
              · split at h
                · split at h
                  · cases h
                  · cases h
                · obtain ⟨m, e, hm⟩ := parseNumber_isNumber _ _ _ h
                  cases hm

/-- What `parseSnapshot` returns never holds a `Buffer` as a property. -/
theorem parseSnapshot_object_ne_buffer (snapshot : Buffer) (properties : JsObject JsValue)
    (h : parseSnapshot snapshot = .ok (.object properties)) :
    ∀ e ∈ properties, ∀ bytes : Buffer, e.2 ≠ .buffer bytes := by
  unfold parseSnapshot JSON.parse at h
  cases hp : parseText (Buffer.toString snapshot) with
  | none =>
    rw [hp] at h
    cases h
  | some value =>
    rw [hp] at h
    simp only [Except.ok.injEq] at h
    subst h
    obtain ⟨fuel, rest, hv, _⟩ := (parseText_eq_some_iff _ _).1 hp
    exact parseValue_object_ne_buffer fuel _ rest properties hv

end Virgil

/-! ## Snapshots: round trip, determinism and decoding errors -/

namespace Virgil

/-- C21, the failing input evaluated: the attributes of `alice` (identity,
public key `01 02`, creation date) are snapshotted and parsed back; the parsed
`publicKey` is the plain object `type`/`data` that `Buffer.prototype.toJSON`
makes and the parsed `createdAt` is the ISO text of the date, so the result is
not the attributes.  The same holds for every set of attributes: what
`parseSnapshot` returns has no `Buffer` for `publicKey`. -/
theorem parseSnapshot_does_not_restore_attributes :
    Example.aliceParams.toObject
      = [("identity", .string "alice"), ("publicKey", .buffer [1, 2]),
          ("createdAt", .date (some 1541412157123))] ∧
    parseSnapshot (takeSnapshot Example.aliceParams.toObject)
      = .ok (.object [("identity", .string "alice"),
          ("publicKey", .object [("type", .string "Buffer"),
            ("data", .array [.number 1 0, .number 2 0])]),
          ("createdAt", .string "2018-11-05T10:02:37.123Z")]) ∧
    parseSnapshot (takeSnapshot Example.aliceParams.toObject)
      ≠ .ok (.object Example.aliceParams.toObject) ∧
    ∀ info : ICardParams,
      parseSnapshot (takeSnapshot info.toObject) ≠ .ok (.object info.toObject) := by
  have hall : ∀ info : ICardParams,
      parseSnapshot (takeSnapshot info.toObject) ≠ .ok (.object info.toObject) := by
    intro info h
    exact parseSnapshot_object_ne_buffer _ _ h ("publicKey", .buffer info.publicKey)
      (by simp [ICardParams.toObject]) info.publicKey rfl
  exact ⟨rfl, rfl, hall Example.aliceParams, hall⟩

/-- C22, counterexample: two attribute objects hold the same fields with the
same values, `identity` and `publicKey`, created in the two orders; their
snapshots differ. -/
theorem takeSnapshot_depends_on_property_order :
    SameFields Example.aliceObject Example.aliceObjectReordered ∧
    Buffer.toString (takeSnapshot Example.aliceObject)
      = "\x7b\"identity\":\"alice\",\"publicKey\":\x7b\"type\":\"Buffer\",\"data\":[1,2]\x7d\x7d" ∧
    Buffer.toString (takeSnapshot Example.aliceObjectReordered)
      = "\x7b\"publicKey\":\x7b\"type\":\"Buffer\",\"data\":[1,2]\x7d,\"identity\":\"alice\"\x7d" ∧
    takeSnapshot Example.aliceObject ≠ takeSnapshot Example.aliceObjectReordered := by
  refine ⟨?_, by decide, by decide, by decide⟩
  intro key
  by_cases h₁ : "identity" = key
  · subst h₁
    rfl
  · by_cases h₂ : "publicKey" = key
    · subst h₂
      rfl
    · simp [Example.aliceObject, Example.aliceObjectReordered, JsObject.get, h₁, h₂]

/-- C22, as amended: two attribute objects that enumerate the same properties
with the same values in the same order (`Object.keys` order) have the same
snapshot; the snapshot is the UTF-8 text of the object whose members are the
serialized properties of the attributes in that order, and every member is a
property of the attributes with the JSON text of its value: nothing is added. -/
theorem takeSnapshot_is_determined_by_properties (a b : JsObject JsValue)
    (h : JsObject.entries a = JsObject.entries b) :
    takeSnapshot a = takeSnapshot b ∧
    takeSnapshot a = Buffer.fromUtf8 ("\x7b" ++ joinItems
      ((JsValue.serializeProperties (JsObject.entries a)).map
        (fun e => quoteJSONString e.1 ++ ":" ++ e.2)) ++ "\x7d") ∧
    ∀ key text, (key, text) ∈ JsValue.serializeProperties (JsObject.entries a) ↔
      ∃ value, (key, value) ∈ a ∧ JsValue.serialize value = some text := by
  have hform : ∀ c : JsObject JsValue, takeSnapshot c = Buffer.fromUtf8 ("\x7b" ++ joinItems
      ((JsValue.serializeProperties (JsObject.entries c)).map
        (fun e => quoteJSONString e.1 ++ ":" ++ e.2)) ++ "\x7d") := by
    intro c
    show Buffer.fromUtf8 (JSON.stringifyObject c) = _
    unfold JSON.stringifyObject
    rw [JsValue.entries_serializeProperties]
  refine ⟨by rw [hform a, hform b, h], hform a, fun key text => ?_⟩
  rw [JsValue.serializeProperties_eq_filterMap, List.mem_filterMap]
  constructor
  · rintro ⟨e, hmem, he⟩
    cases hs : JsValue.serialize e.2 with
    | none => simp [hs] at he
    | some t =>
      simp only [hs, Option.map_some', Option.some.injEq, Prod.mk.injEq] at he
      refine ⟨e.2, ?_, by rw [hs, he.2]⟩
      rw [← he.1]
      exact (JsObject.mem_entries a e).1 hmem
  · rintro ⟨value, hmem, hs⟩
    exact ⟨(key, value), (JsObject.mem_entries a (key, value)).2 hmem, by simp [hs]⟩

/-- C22, witness: the attributes of `alice` against themselves. -/
theorem takeSnapshot_is_determined_by_properties_witness :
    takeSnapshot Example.aliceObject = Buffer.fromUtf8
      "\x7b\"identity\":\"alice\",\"publicKey\":\x7b\"type\":\"Buffer\",\"data\":[1,2]\x7d\x7d" := by
  have h := (takeSnapshot_is_determined_by_properties Example.aliceObject Example.aliceObject
    rfl).2.1
  rw [h]
  decide

/-- C23, counterexample: the three octets `22 FF 22` are not the UTF-8 encoding
of any text, and `parseSnapshot` returns a value for them: the text of one
U+FFFD. -/
theorem parseSnapshot_accepts_ill_formed_utf8 :
    (∀ text : String, Buffer.fromUtf8 text ≠ Example.illFormedSnapshot) ∧
    parseSnapshot Example.illFormedSnapshot = .ok (.string (String.mk [replacementChar])) := by
  refine ⟨fun text h => ?_, rfl⟩
  have hback := Buffer.toString_fromUtf8 text
  rw [h] at hback
  rw [← hback] at h
  revert h
  decide

/-- C23, as amended: when the text the octets of a snapshot decode to (as
UTF-8, every ill-formed sequence giving U+FFFD) is not a JSON text,
`parseSnapshot` throws the `SyntaxError` of `JSON.parse` and returns nothing;
when it is a JSON text, `parseSnapshot` returns its value; for the UTF-8 octets
of a text it is `JSON.parse` of that text; and whenever it fails, the decoded
text is not a JSON text. -/
theorem parseSnapshot_fails_on_non_json (snapshot : Buffer)
    (h : ∀ value, ¬ IsJsonText (Buffer.toString snapshot) value) :
    parseSnapshot snapshot = .error unexpectedToken ∧
    (∀ value, parseSnapshot snapshot ≠ .ok value) ∧
    (∀ text : String, parseSnapshot (Buffer.fromUtf8 text) = JSON.parse text) ∧
    (∀ (other : Buffer) (value : JsValue), IsJsonText (Buffer.toString other) value →
      parseSnapshot other = .ok value) ∧
    (∀ (other : Buffer) (e : JsError), parseSnapshot other = .error e →
      e = unexpectedToken ∧ ∀ value, ¬ IsJsonText (Buffer.toString other) value) := by
  have hnone : parseText (Buffer.toString snapshot) = none := by
    cases hp : parseText (Buffer.toString snapshot) with
    | none => rfl
    | some value => exact absurd ((parseText_eq_some_iff _ value).1 hp) (h value)
  have hfail : parseSnapshot snapshot = .error unexpectedToken := by
    simp [parseSnapshot, JSON.parse, hnone]
  refine ⟨hfail, fun value hv => ?_, fun text => ?_, fun other value hj => ?_,
    fun other e he => ?_⟩
  · rw [hfail] at hv
    cases hv
  · simp [parseSnapshot, Buffer.toString_fromUtf8]
  · simp [parseSnapshot, JSON.parse, (parseText_eq_some_iff _ value).2 hj]
  · unfold parseSnapshot JSON.parse at he
    cases hp : parseText (Buffer.toString other) with
    | none =>
      rw [hp] at he
      simp only [Except.error.injEq] at he
      refine ⟨he.symm, fun value hj => ?_⟩
      rw [(parseText_eq_some_iff _ value).2 hj] at hp
      cases hp
    | some value =>
      rw [hp] at he
      cases he

/-- C23, witness: the octets of the text `not_json`. -/
theorem parseSnapshot_fails_on_non_json_witness :
    parseSnapshot (Buffer.fromUtf8 "not_json") = .error unexpectedToken :=
  (parseSnapshot_fails_on_non_json (Buffer.fromUtf8 "not_json") (fun value hj => by
    have hp := (parseText_eq_some_iff _ value).2 hj
    rw [Buffer.toString_fromUtf8] at hp
    have hnone : parseText "not_json" = none := rfl
    rw [hnone] at hp
    cases hp)).1

end Virgil

/-! ## Key entry storage: what the reviver does to nested keys -/

namespace Virgil.KeyEntryStorage

/-- Under the key `value` the reviver answers a `Buffer` or throws. -/
theorem reviver_value (value revived : JsValue) (h : reviver "value" value = some revived) :
    ∃ bytes, revived = .buffer bytes := by
  simp only [reviver, VALUE_KEY, if_true] at h
  cases hb : Buffer.ofValue value with
  | none => simp [hb] at h
  | some bytes =>
    simp only [hb, Option.map_some', Option.some.injEq] at h
    exact ⟨bytes, h.symm⟩

/-- Under a key other than `value`, `creationDate` and `modificationDate` the
reviver answers the value it is given. -/
theorem reviver_other (key : String) (value : JsValue) (hvalue : key ≠ "value")
    (hcreation : key ≠ "creationDate") (hmodification : key ≠ "modificationDate") :
    reviver key value = some value := by
  simp [reviver, VALUE_KEY, CREATION_DATE_KEY, MODIFICATION_DATE_KEY, hvalue, hcreation,
    hmodification]

/-- What the walk of `JSON.parse` leaves under a key is what the reviver
answers for that key. -/
theorem internalize_eq_reviver (key : String) (value revived : JsValue)
    (h : JsValue.internalize reviver key value = some revived) :
    ∃ inner, reviver key inner = some revived := by
  cases value with
  | array items =>
    rw [JsValue.internalize] at h
    split at h
    · cases h
    · exact ⟨_, h⟩
  | object properties =>
    rw [JsValue.internalize] at h
    split at h
    · cases h
    · exact ⟨_, h⟩
  | undefined => rw [JsValue.internalize] at h; exact ⟨_, h⟩
  | null => rw [JsValue.internalize] at h; exact ⟨_, h⟩
  | bool b => rw [JsValue.internalize] at h; exact ⟨_, h⟩
  | number m e => rw [JsValue.internalize] at h; exact ⟨_, h⟩
  | string text => rw [JsValue.internalize] at h; exact ⟨_, h⟩
  | buffer bytes => rw [JsValue.internalize] at h; exact ⟨_, h⟩
  | date time => rw [JsValue.internalize] at h; exact ⟨_, h⟩

/-- Every property the walk leaves in an object is the revival of a property
under the same key. -/
theorem internalizeProperties_mem (properties : List (String × JsValue)) :
    ∀ revived, JsValue.internalizeProperties reviver properties = some revived →
      ∀ e ∈ revived, ∃ value, JsValue.internalize reviver e.1 value = some e.2 := by
  induction properties with
  | nil =>
    intro revived h e he
    rw [JsValue.internalizeProperties] at h
    simp only [Option.some.injEq] at h
    rw [← h] at he
    cases he
  | cons head rest ih =>
    obtain ⟨key, value⟩ := head
    intro revived h e he
    rw [JsValue.internalizeProperties] at h
    cases hv : JsValue.internalize reviver key value with
    | none => simp [hv] at h
    | some v' =>
      simp only [hv] at h
      cases hr : JsValue.internalizeProperties reviver rest with
      | none => simp [hr] at h
      | some others =>
        simp only [hr] at h
        split at h
        · simp only [Option.some.injEq] at h
          rw [← h] at he
          exact ih others hr e he
        · simp only [Option.some.injEq] at h
          rw [← h] at he
          rcases List.mem_cons.1 he with he' | he'
          · rw [he']
            exact ⟨value, hv⟩
          · exact ih others hr e he'

/-- In an object the walk leaves under a key that is not reserved, every
property named `value` is a `Buffer`. -/
theorem internalize_object_value (key : String) (value : JsValue)
    (revived : List (String × JsValue)) (hvalue : key ≠ "value")
    (hcreation : key ≠ "creationDate") (hmodification : key ≠ "modificationDate")
    (h : JsValue.internalize reviver key value = some (.object revived)) :
    ∀ e ∈ revived, e.1 = "value" → ∃ bytes, e.2 = .buffer bytes := by
  have hother := reviver_other key
  cases value with
  | object properties =>
    rw [JsValue.internalize] at h
    cases hp : JsValue.internalizeProperties reviver properties with
    | none => simp [hp] at h
    | some inner =>
      simp only [hp, hother _ hvalue hcreation hmodification, Option.some.injEq,
        JsValue.object.injEq] at h
      subst h
      intro e he hkey
      obtain ⟨v, hv⟩ := internalizeProperties_mem properties inner hp e he
      obtain ⟨x, hx⟩ := internalize_eq_reviver e.1 v e.2 hv
      rw [hkey] at hx
      exact reviver_value x e.2 hx
  | array items =>
    rw [JsValue.internalize] at h
    split at h
    · cases h
    · rw [hother _ hvalue hcreation hmodification] at h
      cases h
  | undefined =>
    rw [JsValue.internalize, hother _ hvalue hcreation hmodification] at h; cases h
  | null => rw [JsValue.internalize, hother _ hvalue hcreation hmodification] at h; cases h
  | bool b => rw [JsValue.internalize, hother _ hvalue hcreation hmodification] at h; cases h
  | number m e =>
    rw [JsValue.internalize, hother _ hvalue hcreation hmodification] at h; cases h
  | string text =>
    rw [JsValue.internalize, hother _ hvalue hcreation hmodification] at h; cases h
  | buffer bytes =>
    rw [JsValue.internalize, hother _ hvalue hcreation hmodification] at h; cases h
  | date time =>
    rw [JsValue.internalize, hother _ hvalue hcreation hmodification] at h; cases h

/-- Whatever the data, a deserialized entry has no `meta` with a text under
the key `value`: the reviver has turned it into a `Buffer`. -/
theorem deserializeKeyEntry_meta_value (data : Buffer) (entry meta : List (String × JsValue))
    (h : deserializeKeyEntry data = .ok (.object entry))
    (hmeta : JsObject.get entry "meta" = some (.object meta)) :
    ∀ e ∈ meta, e.1 = "value" → ∃ bytes, e.2 = .buffer bytes := by
  unfold deserializeKeyEntry JSON.parseWith at h
  cases hp : parseText (Buffer.toString data) with
  | none => simp [hp] at h
  | some value =>
    simp only [hp] at h
    cases hi : JsValue.internalize reviver "" value with
    | none => simp [hi] at h
    | some revived =>
      simp only [hi, Except.ok.injEq] at h
      subst h
      cases value with
      | object properties =>
        rw [JsValue.internalize] at hi
        cases hq : JsValue.internalizeProperties reviver properties with
        | none => simp [hq] at hi
        | some inner =>
          simp only [hq, reviver_other "" _ (by decide) (by decide) (by decide),
            Option.some.injEq, JsValue.object.injEq] at hi
          subst hi
          have hmem := CardValidator.JsObject.mem_of_get _ _ _ hmeta
          obtain ⟨v, hv⟩ := internalizeProperties_mem properties inner hq _ hmem
          exact internalize_object_value "meta" v meta (by decide) (by decide) (by decide) hv
      | array items =>
        rw [JsValue.internalize] at hi
        split at hi
        · cases hi
        · rw [reviver_other "" _ (by decide) (by decide) (by decide)] at hi
          cases hi
      | undefined =>
        rw [JsValue.internalize, reviver_other "" _ (by decide) (by decide) (by decide)] at hi
        cases hi
      | null =>
        rw [JsValue.internalize, reviver_other "" _ (by decide) (by decide) (by decide)] at hi
        cases hi
      | bool b =>
        rw [JsValue.internalize, reviver_other "" _ (by decide) (by decide) (by decide)] at hi
        cases hi
      | number m e =>
        rw [JsValue.internalize, reviver_other "" _ (by decide) (by decide) (by decide)] at hi
        cases hi
      | string text =>
        rw [JsValue.internalize, reviver_other "" _ (by decide) (by decide) (by decide)] at hi
        cases hi
      | buffer bytes =>
        rw [JsValue.internalize, reviver_other "" _ (by decide) (by decide) (by decide)] at hi
        cases hi
      | date time =>
        rw [JsValue.internalize, reviver_other "" _ (by decide) (by decide) (by decide)] at hi
        cases hi

end Virgil.KeyEntryStorage

/-! ## Key entry storage: validation, `save`, the round trip and `update` -/

namespace Virgil.KeyEntryStorage

theorem validateNameProperty_of_ne (name : String) (h : name ≠ "") :
    validateNameProperty name = .ok () := by
  simp [validateNameProperty, requiredProp, h]

theorem validateNameProperty_empty :
    validateNameProperty "" = .error (.typeError "Invalid argument. Property name is required") :=
  rfl

/-- The properties of an entry as `save` creates them are enumerated in that
order: none of the five keys is an array index. -/
theorem entries_keyEntry (name value meta creationDate modificationDate : JsValue) :
    JsObject.entries [("name", name), ("value", value), ("meta", meta),
        ("creationDate", creationDate), ("modificationDate", modificationDate)]
      = [("name", name), ("value", value), ("meta", meta),
        ("creationDate", creationDate), ("modificationDate", modificationDate)] := by
  simp [JsObject.entries, show arrayIndex? "name" = none from rfl,
    show arrayIndex? "value" = none from rfl, show arrayIndex? "meta" = none from rfl,
    show arrayIndex? "creationDate" = none from rfl,
    show arrayIndex? "modificationDate" = none from rfl]

/-- C25: `exists`, `load` and `remove` called with the empty name, and `save`
called with an empty name or without a value, throw a `TypeError` before any
promise is made and leave the state of the adapter as it was: no method of the
adapter is called. -/
theorem required_arguments_are_validated {σ : Type} (adapter : IStorageAdapter σ) (state : σ)
    (name : String) (value : Option Buffer) (meta : Option (JsObject String))
    (creationDate modificationDate : Int) :
    KeyEntryStorage.«exists» adapter state ""
      = (state, .threw (.typeError "Argument 'name' is required.")) ∧
    load adapter state "" = (state, .threw (.typeError "Argument 'name' is required.")) ∧
    remove adapter state "" = (state, .threw (.typeError "Argument 'name' is required.")) ∧
    save adapter state { name := "", value := value, meta := meta } creationDate
        modificationDate
      = (state, .threw (.typeError "Invalid argument. Property name is required")) ∧
    save adapter state { name := name, value := none, meta := meta } creationDate
        modificationDate
      = (state, .threw (.typeError
          (if name = "" then "Invalid argument. Property name is required"
           else "Invalid argument. Property value is required"))) := by
  refine ⟨rfl, rfl, rfl, rfl, ?_⟩
  by_cases h : name = ""
  · subst h
    rfl
  · simp [save, validateNameProperty_of_ne name h, validateValueProperty, requiredProp, h]

/-- C25, witness: the adapter in memory records no call. -/
theorem required_arguments_are_validated_witness :
    (KeyEntryStorage.«exists» Example.memoryAdapter Example.storeWithOne "").1.calls = [] ∧
    (save Example.memoryAdapter Example.storeWithOne
      { name := "two", value := none, meta := none } 0 0).1.calls = [] := by
  have h := required_arguments_are_validated Example.memoryAdapter Example.storeWithOne "two"
    none none 0 0
  exact ⟨by rw [h.1]; rfl, by rw [h.2.2.2.2]; rfl⟩

/-- C26: for a non-empty name and a value, `save` calls `store` of the adapter
once, with the name as key and, as data, the UTF-8 octets of the JSON text of
the object with `name`, `meta`, the two dates and, last, `value` as the base64
text of the value; when the adapter resolves, `save` resolves with the entry
that holds the name, the value and the meta it was given; the adapter's
`StorageEntryAlreadyExistsError` becomes a `KeyEntryAlreadyExistsError`. -/
theorem save_stores_serialized_entry {σ : Type} (adapter : IStorageAdapter σ) (state : σ)
    (name : String) (value : Buffer) (meta : Option (JsObject String))
    (creationDate modificationDate : Int) (hname : name ≠ "") :
    save adapter state { name := name, value := some value, meta := meta } creationDate
        modificationDate
      = ((adapter.store state name (Buffer.fromUtf8 (JSON.stringifyObject
            [("name", .string name), ("meta", metaValue meta),
              ("creationDate", .date (some creationDate)),
              ("modificationDate", .date (some modificationDate)),
              ("value", .string (Buffer.toBase64 value))]))).1,
          match (adapter.store state name (Buffer.fromUtf8 (JSON.stringifyObject
            [("name", .string name), ("meta", metaValue meta),
              ("creationDate", .date (some creationDate)),
              ("modificationDate", .date (some modificationDate)),
              ("value", .string (Buffer.toBase64 value))]))).2 with
          | .ok _ =>
            .resolved [("name", .string name), ("value", .buffer value),
              ("meta", metaValue meta), ("creationDate", .date (some creationDate)),
              ("modificationDate", .date (some modificationDate))]
          | .error error =>
            if error.name = "StorageEntryAlreadyExistsError" then
              .rejected (.keyEntryAlreadyExists name)
            else .rejected (.adapter error)) := by
  simp only [save, validateNameProperty_of_ne name hname, validateValueProperty, requiredProp,
    Option.isSome_some, if_true, serializeKeyEntry, JsObject.get, valueToString,
    entries_keyEntry]
  simp [List.filter]

set_option maxRecDepth 100000 in
/-- C26, witness: the entry `one` of the tests (value `one`, meta
`meta: data`) saved into the empty store: the adapter holds, under `one`, the
JSON text with `name`, `meta`, the dates and the value `b25l`, and parsing it
gives back the name, the base64 text and the meta. -/
theorem save_stores_serialized_entry_witness :
    (save Example.memoryAdapter Example.emptyStore
      { name := "one", value := some (Buffer.fromUtf8 "one"), meta := some [("meta", "data")] }
      1541412157123 1541412157124).1
      = { data := [("one", Buffer.fromUtf8 Example.oneText)], calls := ["store"] } ∧
    JSON.parse Example.oneText
      = .ok (.object [("name", .string "one"), ("meta", .object [("meta", .string "data")]),
          ("creationDate", .string "2018-11-05T10:02:37.123Z"),
          ("modificationDate", .string "2018-11-05T10:02:37.124Z"),
          ("value", .string "b25l")]) := by
  have h := save_stores_serialized_entry Example.memoryAdapter Example.emptyStore "one"
    (Buffer.fromUtf8 "one") (some [("meta", "data")]) 1541412157123 1541412157124 (by decide)
  exact ⟨by rw [h]; rfl, rfl⟩

set_option maxRecDepth 100000 in
/-- C27, the failing input evaluated: the entry `one` with the meta
`value: abc, creationDate: hello` is serialized and deserialized; the reviver
is applied to the keys of `meta` too, so the parsed `meta.value` is the `Buffer`
`69 B7` in place of the text `abc` and the parsed `meta.creationDate` is an
Invalid Date in place of the text `hello`.  The same holds for every entry
whose `meta` has a key named `value`: whatever its serialization deserializes
to, the `meta` of the result is not the `meta` of the entry. -/
theorem deserializeKeyEntry_revives_meta :
    serializeKeyEntry Example.entryWithReservedMeta.toObject
      = .ok (Buffer.fromUtf8 Example.reservedMetaText) ∧
    deserializeKeyEntry (Buffer.fromUtf8 Example.reservedMetaText)
      = .ok (.object [("name", .string "one"),
          ("meta", .object [("value", .buffer [byte 0x69, byte 0xB7]),
            ("creationDate", .date none)]),
          ("creationDate", .date (some 1541412157123)),
          ("modificationDate", .date (some 1541412157124)),
          ("value", .buffer (Buffer.fromUtf8 "one"))]) ∧
    JsObject.get Example.entryWithReservedMeta.toObject "meta"
      = some (.object [("value", .string "abc"), ("creationDate", .string "hello")]) ∧
    ∀ (entry : IKeyEntry) (fields : JsObject String) (text : String) (data : Buffer)
      (parsed : JsObject JsValue),
      entry.meta = some fields → JsObject.get fields "value" = some text →
      serializeKeyEntry entry.toObject = .ok data →
      deserializeKeyEntry data = .ok (.object parsed) →
      JsObject.get parsed "meta" ≠ JsObject.get entry.toObject "meta" := by
  refine ⟨rfl, rfl, rfl, ?_⟩
  intro entry fields text data parsed hmeta htext _ hparsed heq
  have hget : JsObject.get entry.toObject "meta"
      = some (.object (fields.map (fun e => (e.1, .string e.2)))) := by
    simp [IKeyEntry.toObject, JsObject.get, metaValue, hmeta]
  rw [hget] at heq
  have hmem : (("value", .string text) : String × JsValue)
      ∈ fields.map (fun e => (e.1, JsValue.string e.2)) :=
    List.mem_map.2 ⟨("value", text), CardValidator.JsObject.mem_of_get _ _ _ htext, rfl⟩
  obtain ⟨bytes, hbytes⟩ := deserializeKeyEntry_meta_value data parsed _ hparsed heq _ hmem rfl
  cases hbytes

end Virgil.KeyEntryStorage

namespace Virgil.KeyEntryStorage

theorem get_assignUpdate_other (stored : JsObject JsValue) (params : IUpdateKeyEntryParams)
    (now : Int) (key : String) (hvalue : key ≠ "value") (hmeta : key ≠ "meta")
    (hdate : key ≠ "modificationDate") :
    JsObject.get (assignUpdate stored params now) key = JsObject.get stored key := by
  simp only [assignUpdate, CardValidator.JsObject.get_set, if_neg hvalue, if_neg hmeta, if_neg hdate]

theorem get_assignUpdate_value (stored : JsObject JsValue) (params : IUpdateKeyEntryParams)
    (now : Int) :
    JsObject.get (assignUpdate stored params now) "value"
      = some (match params.value with
          | some bytes => .buffer bytes
          | none => (JsObject.get stored "value").getD .undefined) := by
  simp only [assignUpdate, CardValidator.JsObject.get_set]
  simp

theorem get_assignUpdate_meta (stored : JsObject JsValue) (params : IUpdateKeyEntryParams)
    (now : Int) :
    JsObject.get (assignUpdate stored params now) "meta"
      = some (match params.meta with
          | some fields => metaValue (some fields)
          | none => (JsObject.get stored "meta").getD .undefined) := by
  simp only [assignUpdate, CardValidator.JsObject.get_set]
  simp

/-- C30: an entry is stored under the name (the adapter's `load` resolves with
data that `deserializeKeyEntry` turns into an object with a `value`), and the
update gives a value, a meta or both. Then the updated entry answers as the
stored one under every key other than `value`, `meta` and `modificationDate`
(so under `name` and `creationDate`), its `value` is the new value if one is
given and the stored value otherwise, its `meta` the new meta if one is given
and the stored meta otherwise; `update` of the adapter is called once, with the
name and the serialization of this entry, and the call resolves with the entry
when the adapter resolves.  With neither value nor meta, `update` throws a
`TypeError` and calls nothing; when `load` resolves with `null`, the promise is
rejected with `KeyEntryDoesNotExistError` and the state of the adapter is the
one `load` left: nothing is written. -/
theorem update_frame {σ : Type} (adapter : IStorageAdapter σ) (state : σ)
    (params : IUpdateKeyEntryParams) (now : Int) (data : Buffer) (stored : JsObject JsValue)
    (storedValue : Buffer)
    (hname : params.name ≠ "")
    (hgiven : params.value.isSome = true ∨ params.meta.isSome = true)
    (hload : (adapter.load state params.name).2 = .ok (some data))
    (hstored : deserializeKeyEntry data = .ok (.object stored))
    (hvalue : JsObject.get stored "value" = some (.buffer storedValue)) :
    (∀ key, key ≠ "value" → key ≠ "meta" → key ≠ "modificationDate" →
      JsObject.get (assignUpdate stored params now) key = JsObject.get stored key) ∧
    JsObject.get (assignUpdate stored params now) "value"
      = some (.buffer (params.value.getD storedValue)) ∧
    JsObject.get (assignUpdate stored params now) "meta"
      = some (match params.meta with
          | some fields => metaValue (some fields)
          | none => (JsObject.get stored "meta").getD .undefined) ∧
    JsObject.get (assignUpdate stored params now) "modificationDate" = some (.date (some now)) ∧
    (∃ serialized, serializeKeyEntry (assignUpdate stored params now) = .ok serialized ∧
      update adapter state params now
        = ((adapter.update (adapter.load state params.name).1 params.name serialized).1,
            match (adapter.update (adapter.load state params.name).1 params.name
              serialized).2 with
            | .ok _ => .resolved (assignUpdate stored params now)
            | .error e => .rejected (.adapter e))) ∧
    (∀ name : String, update adapter state { name := name, value := none, meta := none } now
      = (state, .threw (if name = "" then
          .typeError "Invalid argument. Property name is required"
        else valueOrMetaRequired))) ∧
    (∀ other : IUpdateKeyEntryParams, other.name ≠ "" →
      (other.value.isSome = true ∨ other.meta.isSome = true) →
      (adapter.load state other.name).2 = .ok none →
      update adapter state other now
        = ((adapter.load state other.name).1, .rejected (.keyEntryDoesNotExist other.name))) := by
  have hnewValue : JsObject.get (assignUpdate stored params now) "value"
      = some (.buffer (params.value.getD storedValue)) := by
    rw [get_assignUpdate_value, hvalue]
    cases params.value <;> rfl
  have hnot : ∀ p : IUpdateKeyEntryParams, (p.value.isSome = true ∨ p.meta.isSome = true) →
      ¬ (p.value.isSome = false ∧ p.meta.isSome = false) := by
    rintro p (h | h) ⟨h₁, h₂⟩
    · rw [h] at h₁; cases h₁
    · rw [h] at h₂; cases h₂
  refine ⟨get_assignUpdate_other stored params now, hnewValue,
    get_assignUpdate_meta stored params now, ?_, ?_, ?_, ?_⟩
  · simp only [assignUpdate, CardValidator.JsObject.get_set, if_true]
  · refine ⟨_, by simp only [serializeKeyEntry, hnewValue, valueToString]; rfl, ?_⟩
    simp only [update, validateNameProperty_of_ne params.name hname, if_neg (hnot params hgiven),
      hload, hstored, ownProperties, serializeKeyEntry, hnewValue, valueToString]
  · intro name
    by_cases h : name = ""
    · subst h
      rfl
    · simp [update, validateNameProperty_of_ne name h, h]
  · intro other hother hgiven' hnone
    simp only [update, validateNameProperty_of_ne other.name hother, if_neg (hnot other hgiven'),
      hnone]

set_option maxRecDepth 100000 in
/-- C30, witness: the store holds the entry `one` (value `one`, meta
`meta: data`); the update gives the value `two` and no meta. The updated entry
has the new value and the name and creation date it had; the adapter is called
twice, `load` then `update`, and holds afterwards the entry with the same name,
meta and creation date, the value `dHdv` and the new modification date. -/
theorem update_frame_witness :
    JsObject.get (assignUpdate Example.storedOne
      { name := "one", value := some (Buffer.fromUtf8 "two"), meta := none } 1541412160000)
      "value" = some (.buffer (Buffer.fromUtf8 "two")) ∧
    JsObject.get (assignUpdate Example.storedOne
      { name := "one", value := some (Buffer.fromUtf8 "two"), meta := none } 1541412160000)
      "creationDate" = some (.date (some 1541412157123)) ∧
    (update Example.memoryAdapter Example.storeWithOne
      { name := "one", value := some (Buffer.fromUtf8 "two"), meta := none } 1541412160000).1
      = { data := [("one", Buffer.fromUtf8 Example.oneUpdatedText)],
          calls := ["load", "update"] } := by
  have h := update_frame Example.memoryAdapter Example.storeWithOne
    { name := "one", value := some (Buffer.fromUtf8 "two"), meta := none } 1541412160000
    (Buffer.fromUtf8 Example.oneText) Example.storedOne (Buffer.fromUtf8 "one") (by decide)
    (Or.inl rfl) rfl rfl rfl
  exact ⟨h.2.1, (h.1 "creationDate" (by decide) (by decide) (by decide)).trans rfl, rfl⟩

end Virgil.KeyEntryStorage
